import Mathlib

/-!
Verification development for the upb streaming JSON-to-protobuf parser
(source file src/upb/json/parser.rl).

The development shallowly embeds the parser in Lean:

* bytes are modelled as natural numbers below 256, buffers as lists of bytes;
* the C size_t arithmetic is modelled as natural numbers with the explicit
  bound SIZE_MAX = 2^64 - 1 where overflow matters;
* fallible C functions returning bool are modelled as functions returning a
  success flag together with the updated state and the list of sink events
  they emitted;
* UPB_ASSERT is a no-op in release builds, so assertions are modelled as
  no-ops (the code that follows them runs unconditionally);
* the Ragel-generated automaton is hand-compiled from the grammar at the
  bottom of parser.rl into an explicit state machine; semantic actions are
  attached to transitions following the action semantics described in the
  grammar (entering actions fire on the first consumed character of their
  machine, leaving actions fire on the transition out of the final state,
  fhold/fret chains reprocess the current character in the popped context).

Numeric conversions follow LP64 platform conventions (long is 64 bits), as
noted next to the strtol/strtoul models.
-/

namespace Upb

/-! ## Base64 decoding (parser.rl lines 164-294)

The decoder consumes the accumulated value of a bytes field in groups of
four characters.  Characters are modelled as their byte values.
-/

/-- Transcription of the 256-entry lookup table b64table: the 6-bit value of
each base64 alphabet character, and -1 for every other byte. -/
def b64lookup (c : Nat) : Int :=
  if c = 43 then 62                         -- '+'
  else if c = 47 then 63                    -- '/'
  else if 48 ≤ c ∧ c ≤ 57 then (c : Int) - 48 + 52   -- '0'..'9'
  else if 65 ≤ c ∧ c ≤ 90 then (c : Int) - 65        -- 'A'..'Z'
  else if 97 ≤ c ∧ c ≤ 122 then (c : Int) - 97 + 26  -- 'a'..'z'
  else -1

/-- The padding character '='. -/
def padChar : Nat := 61

/-- nonbase64: true if the character is neither a base64 character nor
padding. -/
def nonbase64 (c : Nat) : Bool := b64lookup c = -1 && c ≠ padChar

/-- Conversion of a 32-bit int value to the natural number representing the
corresponding uint32 bit pattern (two-s complement). -/
def u32 (i : Int) : Nat := (i % 4294967296).toNat

/-- The expression b64lookup(x) << s computed in 32-bit int arithmetic and
then reinterpreted as uint32 (this is how the val word of base64_push is
assembled). -/
def b64shift (c : Nat) (s : Nat) : Nat := u32 (b64lookup c * 2 ^ s)

/-- Errors reported by base64_push (upb_status messages, without the
formatted field name). -/
inductive B64Err
  | notMultipleOf4   -- "Base64 input for bytes field not a multiple of 4"
  | nonBase64Chars   -- "Non-base64 characters in bytes field"
  | badPadding       -- "Incorrect base64 padding for field"
  deriving DecidableEq, Repr

/-- base64_push: decodes the accumulated buffer four characters at a time,
returning the concatenation of the putstring payloads it emits.  A group
whose val word has the high bit set contains a character that is not in the
alphabet; the otherchar block then distinguishes sanctioned padding
(returning immediately, which drops any remaining input) from errors. -/
def base64_push : List Nat → Except B64Err (List Nat)
  | [] => .ok []
  | c0 :: c1 :: c2 :: c3 :: rest =>
    let val := b64shift c0 18 ||| b64shift c1 12 ||| b64shift c2 6 ||| b64shift c3 0
    if val &&& 2147483648 ≠ 0 then
      -- otherchar:
      if nonbase64 c0 || nonbase64 c1 || nonbase64 c2 || nonbase64 c3 then
        .error .nonBase64Chars
      else if c2 = padChar then
        -- last group contains only two input characters, one output byte
        if c0 = padChar ∨ c1 = padChar ∨ c3 ≠ padChar then .error .badPadding
        else
          let val2 := b64shift c0 18 ||| b64shift c1 12
          .ok [val2 / 65536 % 256]
      else
        -- last group contains only three input characters, two output bytes
        if c0 = padChar ∨ c1 = padChar ∨ c2 = padChar then .error .badPadding
        else
          let val3 := b64shift c0 18 ||| b64shift c1 12 ||| b64shift c2 6
          .ok [val3 / 65536 % 256, val3 / 256 % 256]
    else
      match base64_push rest with
      | .ok out => .ok (val / 65536 % 256 :: val / 256 % 256 :: val % 256 :: out)
      | .error e => .error e
  | _ :: _ => .error .notMultipleOf4

/-! ### Reference base64 encoder

Modelled from the spec: the claim about round-tripping refers to encoding a
byte string with the standard base64 alphabet and padding.  This encoder is
the mathematical reference for that wording; it is compared against the
decoder taken from the source. -/

/-- The standard base64 alphabet: character for a 6-bit value. -/
def b64alpha (i : Nat) : Nat :=
  if i < 26 then 65 + i
  else if i < 52 then 97 + (i - 26)
  else if i < 62 then 48 + (i - 52)
  else if i = 62 then 43
  else 47

/-- Standard base64 encoding with padding of a byte string. -/
def b64encode : List Nat → List Nat
  | b0 :: b1 :: b2 :: rest =>
    b64alpha (b0 / 4) :: b64alpha (b0 % 4 * 16 + b1 / 16) ::
    b64alpha (b1 % 16 * 4 + b2 / 64) :: b64alpha (b2 % 64) :: b64encode rest
  | [b0, b1] =>
    [b64alpha (b0 / 4), b64alpha (b0 % 4 * 16 + b1 / 16),
     b64alpha (b1 % 16 * 4), padChar]
  | [b0] => [b64alpha (b0 / 4), b64alpha (b0 % 4 * 16), padChar, padChar]
  | [] => []

/-! ### Helper lemmas about the decoder arithmetic -/

theorem b64alpha_lookup : ∀ i, i < 64 → b64lookup (b64alpha i) = i := by decide

theorem b64alpha_ne_pad : ∀ i, i < 64 → b64alpha i ≠ padChar := by decide

theorem b64alpha_nonbase64 : ∀ i, i < 64 → nonbase64 (b64alpha i) = false := by decide

theorem b64shift_of_lookup_eq {c l : Nat} (h : b64lookup c = l) (s : Nat)
    (hl : l < 64) (hs : s ≤ 18) : b64shift c s = l * 2 ^ s := by
  have hb : (l : Int) * 2 ^ s < 4294967296 := by
    have h1 : (l : Int) * 2 ^ s ≤ 63 * 2 ^ 18 := by
      have : (l : Int) ≤ 63 := by exact_mod_cast Nat.le_of_lt_succ hl
      calc (l : Int) * 2 ^ s ≤ 63 * 2 ^ s := by
            exact mul_le_mul_of_nonneg_right this (by positivity)
        _ ≤ 63 * 2 ^ 18 := by
            exact mul_le_mul_of_nonneg_left (pow_le_pow_right₀ (by norm_num) hs) (by norm_num)
    omega
  unfold b64shift u32
  rw [h]
  rw [Int.emod_eq_of_lt (by positivity) hb]
  have : ((l * 2 ^ s : Nat) : Int) = (l : Int) * 2 ^ s := by push_cast; ring
  omega

theorem b64shift_of_lookup_neg {c : Nat} (h : b64lookup c = -1) (s : Nat)
    (hs : s ≤ 18) : b64shift c s = 4294967296 - 2 ^ s := by
  unfold b64shift u32
  rw [h]
  have hpow : (2 : Int) ^ s ≤ 2 ^ 18 := pow_le_pow_right₀ (by norm_num) hs
  have hpos : (1 : Int) ≤ 2 ^ s := one_le_pow₀ (by norm_num)
  have hcast : ((2 ^ s : Nat) : Int) = (2 : Int) ^ s := by push_cast; ring
  have : (-1 * 2 ^ s) % (4294967296 : Int) = 4294967296 - 2 ^ s := by
    have := Int.emod_emod_of_dvd (-1 * 2 ^ s) (dvd_refl (4294967296 : Int))
    omega
  rw [this]
  omega

theorem lor_high_left {a b : Nat} (h : a.testBit 31 = true) :
    (a ||| b).testBit 31 = true := by
  rw [Nat.testBit_or, h]; rfl

theorem testBit31_of_pad_shift {c : Nat} (h : b64lookup c = -1) (s : Nat)
    (hs : s ≤ 18) : (b64shift c s).testBit 31 = true := by
  rw [b64shift_of_lookup_neg h s hs]
  have h1 : 2 ^ 31 ≤ 4294967296 - 2 ^ s := by
    have : (2 : Nat) ^ s ≤ 2 ^ 18 := Nat.pow_le_pow_right (by norm_num) hs
    omega
  have h2 : 4294967296 - 2 ^ s < 2 ^ 32 := by
    have : 0 < (2 : Nat) ^ s := Nat.pos_pow_of_pos s (by norm_num)
    omega
  rw [Nat.testBit_to_div_mod]
  have : (4294967296 - 2 ^ s) / 2 ^ 31 = 1 := by omega
  rw [this]
  decide

theorem and_two31_eq_zero {n : Nat} (h : n < 2 ^ 31) : n &&& 2147483648 = 0 := by
  have h31 : (2147483648 : Nat) = 2 ^ 31 := by norm_num
  rw [h31, Nat.and_two_pow, Nat.testBit_lt_two_pow h]
  rfl

theorem and_two31_ne_zero {n : Nat} (h : n.testBit 31 = true) :
    n &&& 2147483648 ≠ 0 := by
  have h31 : (2147483648 : Nat) = 2 ^ 31 := by norm_num
  rw [h31, Nat.and_two_pow, h]
  norm_num

theorem lor_eq_add_of_lt {k a b : Nat} (hb : b < 2 ^ k) :
    a * 2 ^ k ||| b = a * 2 ^ k + b := by
  have h := Nat.mul_add_lt_is_or hb a
  rw [Nat.mul_comm (2 ^ k) a] at h
  exact h.symm

theorem or2_eq_add {l0 l1 : Nat} (h1 : l1 < 64) :
    l0 * 2 ^ 18 ||| l1 * 2 ^ 12 = l0 * 2 ^ 18 + l1 * 2 ^ 12 :=
  lor_eq_add_of_lt (k := 18) (by omega)

theorem or3_eq_add {l0 l1 l2 : Nat} (h1 : l1 < 64) (h2 : l2 < 64) :
    l0 * 2 ^ 18 ||| l1 * 2 ^ 12 ||| l2 * 2 ^ 6 =
      l0 * 2 ^ 18 + l1 * 2 ^ 12 + l2 * 2 ^ 6 := by
  rw [or2_eq_add h1]
  have he : l0 * 2 ^ 18 + l1 * 2 ^ 12 = (l0 * 2 ^ 6 + l1) * 2 ^ 12 := by ring
  rw [he, lor_eq_add_of_lt (k := 12) (by omega)]

theorem or4_eq_add {l0 l1 l2 l3 : Nat} (h1 : l1 < 64) (h2 : l2 < 64)
    (h3 : l3 < 64) :
    l0 * 2 ^ 18 ||| l1 * 2 ^ 12 ||| l2 * 2 ^ 6 ||| l3 =
      l0 * 2 ^ 18 + l1 * 2 ^ 12 + l2 * 2 ^ 6 + l3 := by
  rw [or3_eq_add h1 h2]
  have he : l0 * 2 ^ 18 + l1 * 2 ^ 12 + l2 * 2 ^ 6 =
      (l0 * 2 ^ 12 + l1 * 2 ^ 6 + l2) * 2 ^ 6 := by ring
  rw [he, lor_eq_add_of_lt (k := 6) (by omega)]

theorem lookup_nonneg_ne_pad {c l : Nat} (h : b64lookup c = l) : c ≠ padChar := by
  intro hc
  subst hc
  have hp : b64lookup padChar = -1 := by decide
  rw [hp] at h
  omega

theorem nonbase64_of_lookup {c l : Nat} (h : b64lookup c = l) :
    nonbase64 c = false := by
  simp only [nonbase64, Bool.and_eq_false_imp, decide_eq_true_eq]
  intro hc
  rw [h] at hc
  omega

/-- A group of four valid (non-padding) characters appends its three decoded
bytes and continues with the rest of the input. -/
theorem base64_push_validGroup {c0 c1 c2 c3 l0 l1 l2 l3 : Nat} (rest : List Nat)
    (h0 : b64lookup c0 = l0) (h1 : b64lookup c1 = l1)
    (h2 : b64lookup c2 = l2) (h3 : b64lookup c3 = l3)
    (hl0 : l0 < 64) (hl1 : l1 < 64) (hl2 : l2 < 64) (hl3 : l3 < 64) :
    base64_push (c0 :: c1 :: c2 :: c3 :: rest) =
      (base64_push rest).map
        (fun out => (l0 * 4 + l1 / 16) :: (l1 % 16 * 16 + l2 / 4) ::
                    (l2 % 4 * 64 + l3) :: out) := by
  have e0 := b64shift_of_lookup_eq h0 18 hl0 (by norm_num)
  have e1 := b64shift_of_lookup_eq h1 12 hl1 (by norm_num)
  have e2 := b64shift_of_lookup_eq h2 6 hl2 (by norm_num)
  have e3 := b64shift_of_lookup_eq h3 0 hl3 (by norm_num)
  have hval : b64shift c0 18 ||| b64shift c1 12 ||| b64shift c2 6 ||| b64shift c3 0 =
      l0 * 2 ^ 18 + l1 * 2 ^ 12 + l2 * 2 ^ 6 + l3 := by
    rw [e0, e1, e2, e3]
    have hz : l3 * 2 ^ 0 = l3 := by ring
    rw [hz]
    exact or4_eq_add hl1 hl2 hl3
  have hcond : ¬ ((l0 * 2 ^ 18 + l1 * 2 ^ 12 + l2 * 2 ^ 6 + l3) &&& 2147483648 ≠ 0) := by
    rw [and_two31_eq_zero (by omega)]
    exact fun h => h rfl
  simp only [base64_push]
  rw [hval]
  rw [if_neg hcond]
  have d0 : (l0 * 2 ^ 18 + l1 * 2 ^ 12 + l2 * 2 ^ 6 + l3) / 65536 % 256 =
      l0 * 4 + l1 / 16 := by omega
  have d1 : (l0 * 2 ^ 18 + l1 * 2 ^ 12 + l2 * 2 ^ 6 + l3) / 256 % 256 =
      l1 % 16 * 16 + l2 / 4 := by omega
  have d2 : (l0 * 2 ^ 18 + l1 * 2 ^ 12 + l2 * 2 ^ 6 + l3) % 256 =
      l2 % 4 * 64 + l3 := by omega
  rw [d0, d1, d2]
  cases base64_push rest <;> rfl

/-- A group ending in two padding characters emits one decoded byte and ends
the decode, ignoring any remaining input. -/
theorem base64_push_padGroup2 {c0 c1 l0 l1 : Nat} (rest : List Nat)
    (h0 : b64lookup c0 = l0) (h1 : b64lookup c1 = l1)
    (hl0 : l0 < 64) (hl1 : l1 < 64) :
    base64_push (c0 :: c1 :: padChar :: padChar :: rest) =
      .ok [l0 * 4 + l1 / 16] := by
  have e0 := b64shift_of_lookup_eq h0 18 hl0 (by norm_num)
  have e1 := b64shift_of_lookup_eq h1 12 hl1 (by norm_num)
  have hpadlk : b64lookup padChar = -1 := by decide
  have hbit : (b64shift c0 18 ||| b64shift c1 12 ||| b64shift padChar 6 |||
      b64shift padChar 0).testBit 31 = true := by
    rw [Nat.testBit_or, Nat.testBit_or]
    rw [testBit31_of_pad_shift hpadlk 6 (by norm_num)]
    simp
  have hcond := and_two31_ne_zero hbit
  have hnb0 := nonbase64_of_lookup h0
  have hnb1 := nonbase64_of_lookup h1
  have hnbp : nonbase64 padChar = false := by decide
  have hc0 := lookup_nonneg_ne_pad h0
  have hc1 := lookup_nonneg_ne_pad h1
  have hval2 : b64shift c0 18 ||| b64shift c1 12 = l0 * 2 ^ 18 + l1 * 2 ^ 12 := by
    rw [e0, e1]
    exact or2_eq_add hl1
  have dd : (l0 * 2 ^ 18 + l1 * 2 ^ 12) / 65536 % 256 = l0 * 4 + l1 / 16 := by
    omega
  simp only [base64_push]
  rw [if_pos hcond]
  rw [hnb0, hnb1, hnbp]
  rw [show (false || false || false || false) = false from rfl]
  rw [if_neg (by exact Bool.false_ne_true)]
  rw [if_pos trivial]
  rw [if_neg (by
    rintro (h | h | h)
    · exact hc0 h
    · exact hc1 h
    · exact h rfl)]
  rw [hval2, dd]

/-- A group ending in a single padding character emits two decoded bytes and
ends the decode, ignoring any remaining input. -/
theorem base64_push_padGroup1 {c0 c1 c2 l0 l1 l2 : Nat} (rest : List Nat)
    (h0 : b64lookup c0 = l0) (h1 : b64lookup c1 = l1) (h2 : b64lookup c2 = l2)
    (hl0 : l0 < 64) (hl1 : l1 < 64) (hl2 : l2 < 64) :
    base64_push (c0 :: c1 :: c2 :: padChar :: rest) =
      .ok [l0 * 4 + l1 / 16, l1 % 16 * 16 + l2 / 4] := by
  have e0 := b64shift_of_lookup_eq h0 18 hl0 (by norm_num)
  have e1 := b64shift_of_lookup_eq h1 12 hl1 (by norm_num)
  have e2 := b64shift_of_lookup_eq h2 6 hl2 (by norm_num)
  have hpadlk : b64lookup padChar = -1 := by decide
  have hbit : (b64shift c0 18 ||| b64shift c1 12 ||| b64shift c2 6 |||
      b64shift padChar 0).testBit 31 = true := by
    rw [Nat.testBit_or]
    rw [testBit31_of_pad_shift hpadlk 0 (by norm_num)]
    simp
  have hcond := and_two31_ne_zero hbit
  have hnb0 := nonbase64_of_lookup h0
  have hnb1 := nonbase64_of_lookup h1
  have hnb2 := nonbase64_of_lookup h2
  have hnbp : nonbase64 padChar = false := by decide
  have hc0 := lookup_nonneg_ne_pad h0
  have hc1 := lookup_nonneg_ne_pad h1
  have hc2 := lookup_nonneg_ne_pad h2
  have hval3 : b64shift c0 18 ||| b64shift c1 12 ||| b64shift c2 6 =
      l0 * 2 ^ 18 + l1 * 2 ^ 12 + l2 * 2 ^ 6 := by
    rw [e0, e1, e2]
    exact or3_eq_add hl1 hl2
  have dd0 : (l0 * 2 ^ 18 + l1 * 2 ^ 12 + l2 * 2 ^ 6) / 65536 % 256 =
      l0 * 4 + l1 / 16 := by omega
  have dd1 : (l0 * 2 ^ 18 + l1 * 2 ^ 12 + l2 * 2 ^ 6) / 256 % 256 =
      l1 % 16 * 16 + l2 / 4 := by omega
  simp only [base64_push]
  rw [if_pos hcond]
  rw [hnb0, hnb1, hnb2, hnbp]
  rw [show (false || false || false || false) = false from rfl]
  rw [if_neg (by exact Bool.false_ne_true)]
  rw [if_neg hc2]
  rw [if_neg (by
    rintro (h | h | h)
    · exact hc0 h
    · exact hc1 h
    · exact hc2 h)]
  rw [hval3, dd0, dd1]

/-- A nonempty input of fewer than four characters fails the
multiple-of-four check. -/
theorem base64_push_short : ∀ (s : List Nat), s ≠ [] → s.length < 4 →
    base64_push s = .error .notMultipleOf4
  | [], h, _ => absurd rfl h
  | [_], _, _ => rfl
  | [_, _], _, _ => rfl
  | [_, _, _], _, _ => rfl
  | _ :: _ :: _ :: _ :: _, _, h => absurd h (by simp)

theorem b64lookup_bounds (c : Nat) : -1 ≤ b64lookup c ∧ b64lookup c ≤ 63 := by
  unfold b64lookup
  split_ifs <;> omega

theorem b64lookup_toNat {c : Nat} (h : 0 ≤ b64lookup c) :
    b64lookup c = ((b64lookup c).toNat : Int) ∧ (b64lookup c).toNat < 64 := by
  have hb := b64lookup_bounds c
  omega

/-- A group containing padding in a pattern other than the two sanctioned
ones, all of whose characters are base64 characters or padding, fails with
the incorrect-padding error. -/
theorem base64_push_badPadding {c0 c1 c2 c3 : Nat} (rest : List Nat)
    (hv0 : nonbase64 c0 = false) (hv1 : nonbase64 c1 = false)
    (hv2 : nonbase64 c2 = false) (hv3 : nonbase64 c3 = false)
    (hpad : c0 = padChar ∨ c1 = padChar ∨ c2 = padChar ∨ c3 = padChar)
    (hns1 : ¬ (c2 = padChar ∧ c3 = padChar ∧ c0 ≠ padChar ∧ c1 ≠ padChar))
    (hns2 : ¬ (c3 = padChar ∧ c0 ≠ padChar ∧ c1 ≠ padChar ∧ c2 ≠ padChar)) :
    base64_push (c0 :: c1 :: c2 :: c3 :: rest) = .error .badPadding := by
  have hpadlk : b64lookup padChar = -1 := by decide
  have hbit : (b64shift c0 18 ||| b64shift c1 12 ||| b64shift c2 6 |||
      b64shift c3 0).testBit 31 = true := by
    simp only [Nat.testBit_or]
    rcases hpad with h | h | h | h <;> subst h
    · rw [testBit31_of_pad_shift hpadlk 18 (by norm_num)]
      simp
    · rw [testBit31_of_pad_shift hpadlk 12 (by norm_num)]
      simp
    · rw [testBit31_of_pad_shift hpadlk 6 (by norm_num)]
      simp
    · rw [testBit31_of_pad_shift hpadlk 0 (by norm_num)]
      simp
  have hcond := and_two31_ne_zero hbit
  simp only [base64_push]
  rw [if_pos hcond]
  rw [hv0, hv1, hv2, hv3]
  rw [show (false || false || false || false) = false from rfl]
  rw [if_neg (by exact Bool.false_ne_true)]
  by_cases hc2 : c2 = padChar
  · rw [if_pos hc2]
    rw [if_pos (by
      by_contra hno
      push_neg at hno
      exact hns1 ⟨hc2, hno.2.2, hno.1, hno.2.1⟩)]
  · rw [if_neg hc2]
    rw [if_pos (by
      rcases hpad with h | h | h | h
      · exact Or.inl h
      · exact Or.inr (Or.inl h)
      · exact absurd h hc2
      · by_contra hno
        push_neg at hno
        exact hns2 ⟨h, hno.1, hno.2.1, hno.2.2⟩)]

/-- Inputs made only of base64 alphabet characters (no padding) whose length
is not a multiple of four always fail: the loop reaches a final group of
fewer than four characters. -/
theorem base64_push_noPad_len : ∀ (s : List Nat),
    (∀ c ∈ s, 0 ≤ b64lookup c) → s.length % 4 ≠ 0 →
    base64_push s = .error .notMultipleOf4
  | [], _, hlen => absurd rfl hlen
  | [_], _, _ => rfl
  | [_, _], _, _ => rfl
  | [_, _, _], _, _ => rfl
  | c0 :: c1 :: c2 :: c3 :: r, hv, hlen => by
    have h0 := b64lookup_toNat (hv c0 (by simp))
    have h1 := b64lookup_toNat (hv c1 (by simp))
    have h2 := b64lookup_toNat (hv c2 (by simp))
    have h3 := b64lookup_toNat (hv c3 (by simp))
    rw [base64_push_validGroup r h0.1 h1.1 h2.1 h3.1 h0.2 h1.2 h2.2 h3.2]
    rw [base64_push_noPad_len r (fun c hc => hv c (by simp [hc]))
      (by simp at hlen ⊢; omega)]
    rfl

/-- Round trip at the level of three-byte groups: decoding the encoding of a
byte string recovers exactly that byte string. -/
theorem b64_decode_encode : ∀ (b : List Nat), (∀ x ∈ b, x < 256) →
    base64_push (b64encode b) = .ok b
  | [], _ => rfl
  | [b0], h => by
    have hb0 : b0 < 256 := h b0 (by simp)
    show base64_push
      (b64alpha (b0 / 4) :: b64alpha (b0 % 4 * 16) :: padChar :: padChar :: []) =
      .ok [b0]
    rw [base64_push_padGroup2 []
      (b64alpha_lookup _ (by omega)) (b64alpha_lookup _ (by omega))
      (by omega) (by omega)]
    have : b0 / 4 * 4 + b0 % 4 * 16 / 16 = b0 := by omega
    rw [this]
  | [b0, b1], h => by
    have hb0 : b0 < 256 := h b0 (by simp)
    have hb1 : b1 < 256 := h b1 (by simp)
    show base64_push
      (b64alpha (b0 / 4) :: b64alpha (b0 % 4 * 16 + b1 / 16) ::
       b64alpha (b1 % 16 * 4) :: padChar :: []) = .ok [b0, b1]
    rw [base64_push_padGroup1 []
      (b64alpha_lookup _ (by omega)) (b64alpha_lookup _ (by omega))
      (b64alpha_lookup _ (by omega)) (by omega) (by omega) (by omega)]
    have e0 : b0 / 4 * 4 + (b0 % 4 * 16 + b1 / 16) / 16 = b0 := by omega
    have e1 : (b0 % 4 * 16 + b1 / 16) % 16 * 16 + b1 % 16 * 4 / 4 = b1 := by
      omega
    rw [e0, e1]
  | b0 :: b1 :: b2 :: rest, h => by
    have hb0 : b0 < 256 := h b0 (by simp)
    have hb1 : b1 < 256 := h b1 (by simp)
    have hb2 : b2 < 256 := h b2 (by simp)
    have ih := b64_decode_encode rest (fun x hx => h x (by simp [hx]))
    show base64_push
      (b64alpha (b0 / 4) :: b64alpha (b0 % 4 * 16 + b1 / 16) ::
       b64alpha (b1 % 16 * 4 + b2 / 64) :: b64alpha (b2 % 64) ::
       b64encode rest) = .ok (b0 :: b1 :: b2 :: rest)
    rw [base64_push_validGroup (b64encode rest)
      (b64alpha_lookup _ (by omega)) (b64alpha_lookup _ (by omega))
      (b64alpha_lookup _ (by omega)) (b64alpha_lookup _ (by omega))
      (by omega) (by omega) (by omega) (by omega)]
    rw [ih]
    have e0 : b0 / 4 * 4 + (b0 % 4 * 16 + b1 / 16) / 16 = b0 := by omega
    have e1 : (b0 % 4 * 16 + b1 / 16) % 16 * 16 + (b1 % 16 * 4 + b2 / 64) / 4 =
        b1 := by omega
    have e2 : (b1 % 16 * 4 + b2 / 64) % 4 * 64 + b2 % 64 = b2 := by omega
    simp only [Except.map]
    rw [e0, e1, e2]

/-! ### Claim C4 and C5 theorems -/

/-- C4 counterexample: the claim asserts that any accumulated value whose
length is not a multiple of 4 fails, but the input AB==XYZ (length 7, not a
multiple of 4) succeeds: the sanctioned padding group AB== returns
immediately with one output byte and the trailing XYZ is never examined. -/
theorem c4_counterexample :
    (65 :: 66 :: 61 :: 61 :: [88, 89, 90]).length % 4 ≠ 0 ∧
    base64_push (65 :: 66 :: 61 :: 61 :: [88, 89, 90]) = .ok [0] := by
  constructor
  · decide
  · rfl

/-- C4 (amended): a 4-character group may contain == at positions 2-3
(producing one output byte) or a single = at position 3 (producing two
output bytes), and such a group terminates decoding, ignoring any remaining
accumulated input; an input consisting solely of base64 alphabet characters
(no padding) whose length is not a multiple of 4 fails; a group made of
base64-or-padding characters with padding in any other pattern fails with
the incorrect-padding error. -/
theorem c4_padding_rules :
    (∀ (c0 c1 l0 l1 : Nat) (rest : List Nat),
        b64lookup c0 = l0 → b64lookup c1 = l1 → l0 < 64 → l1 < 64 →
        base64_push (c0 :: c1 :: padChar :: padChar :: rest) =
          .ok [l0 * 4 + l1 / 16]) ∧
    (∀ (c0 c1 c2 l0 l1 l2 : Nat) (rest : List Nat),
        b64lookup c0 = l0 → b64lookup c1 = l1 → b64lookup c2 = l2 →
        l0 < 64 → l1 < 64 → l2 < 64 →
        base64_push (c0 :: c1 :: c2 :: padChar :: rest) =
          .ok [l0 * 4 + l1 / 16, l1 % 16 * 16 + l2 / 4]) ∧
    (∀ (s : List Nat), (∀ c ∈ s, 0 ≤ b64lookup c) → s.length % 4 ≠ 0 →
        base64_push s = .error .notMultipleOf4) ∧
    (∀ (c0 c1 c2 c3 : Nat) (rest : List Nat),
        nonbase64 c0 = false → nonbase64 c1 = false →
        nonbase64 c2 = false → nonbase64 c3 = false →
        (c0 = padChar ∨ c1 = padChar ∨ c2 = padChar ∨ c3 = padChar) →
        ¬ (c2 = padChar ∧ c3 = padChar ∧ c0 ≠ padChar ∧ c1 ≠ padChar) →
        ¬ (c3 = padChar ∧ c0 ≠ padChar ∧ c1 ≠ padChar ∧ c2 ≠ padChar) →
        base64_push (c0 :: c1 :: c2 :: c3 :: rest) = .error .badPadding) :=
  ⟨fun _ _ _ _ rest h0 h1 hl0 hl1 => base64_push_padGroup2 rest h0 h1 hl0 hl1,
   fun _ _ _ _ _ _ rest h0 h1 h2 hl0 hl1 hl2 =>
     base64_push_padGroup1 rest h0 h1 h2 hl0 hl1 hl2,
   fun s hv hlen => base64_push_noPad_len s hv hlen,
   fun _ _ _ _ rest hv0 hv1 hv2 hv3 hpad hns1 hns2 =>
     base64_push_badPadding rest hv0 hv1 hv2 hv3 hpad hns1 hns2⟩

/-- Witness for C4 (amended), instantiating each conjunct at a concrete
input. -/
theorem c4_padding_rules_witness :
    base64_push [65, 66, padChar, padChar, 88] = .ok [0] ∧
    base64_push [65, 66, 67, padChar] = .ok [0, 16] ∧
    base64_push [65] = .error .notMultipleOf4 ∧
    base64_push [padChar, 65, 66, 67] = .error .badPadding :=
  ⟨c4_padding_rules.1 65 66 0 1 [88] (by decide) (by decide) (by decide)
     (by decide),
   c4_padding_rules.2.1 65 66 67 0 1 2 [] (by decide) (by decide) (by decide)
     (by decide) (by decide) (by decide),
   c4_padding_rules.2.2.1 [65] (by decide) (by decide),
   c4_padding_rules.2.2.2 padChar 65 66 67 [] (by decide) (by decide)
     (by decide) (by decide) (by decide) (by decide) (by decide)⟩

/-- C5: for every byte string b, base64-encoding b with the standard
alphabet and padding and then running the decoder of the bytes-field path
yields putstring payloads whose concatenation is exactly b. -/
theorem c5_base64_roundtrip (b : List Nat) (h : ∀ x ∈ b, x < 256) :
    base64_push (b64encode b) = .ok b :=
  b64_decode_encode b h

/-- Witness for C5 at the byte string hello. -/
theorem c5_base64_roundtrip_witness :
    base64_push (b64encode [104, 101, 108, 108, 111]) =
      .ok [104, 101, 108, 108, 111] :=
  c5_base64_roundtrip [104, 101, 108, 108, 111] (by decide)

/-! ## Protobuf schema model

The descriptor system (upb_msgdef, upb_fielddef, upb_enumdef) is an
external collaborator; the parser only queries field types, repeatedness,
sub-messages, names and numbers.  Messages and enums are referenced by
index into the schema tables. -/

/-- Scalar and composite field types (upb_fieldtype_t as used by the
parser). -/
inductive FType
  | int32
  | int64
  | uint32
  | uint64
  | boolean
  | float
  | double
  | enum (e : Nat)
  | string
  | bytes
  | msg (m : Nat)
  deriving DecidableEq, Repr

/-- A field descriptor: proto name, JSON name, field number, type, and
whether the field is repeated. -/
structure FieldDef where
  name : List Nat
  jsonName : List Nat
  number : Nat
  type : FType
  isSeq : Bool
  deriving DecidableEq, Repr

/-- A message descriptor: its fields and whether it is a synthesized
map-entry message. -/
structure MsgDef where
  fields : List FieldDef
  mapentry : Bool
  deriving DecidableEq, Repr

/-- An enum descriptor: symbolic name to int32 value pairs. -/
structure EnumDef where
  vals : List (List Nat × Int)
  deriving DecidableEq, Repr

/-- The schema: message and enum tables, indexed by position. -/
structure Schema where
  msgs : List MsgDef
  enums : List EnumDef
  deriving Repr

/-- upb_fielddef_isstring: STRING and BYTES fields. -/
def fieldIsString (f : FieldDef) : Bool :=
  match f.type with
  | .string | .bytes => true
  | _ => false

/-- upb_fielddef_issubmsg. -/
def fieldIsSubmsg (f : FieldDef) : Bool :=
  match f.type with
  | .msg _ => true
  | _ => false

/-- upb_fielddef_msgsubdef: index of the sub-message descriptor (only
meaningful for message-typed fields, which is the only way it is used). -/
def fieldMsgSubdef (f : FieldDef) : Nat :=
  match f.type with
  | .msg m => m
  | _ => 0

/-- upb_fielddef_ismap: a repeated message field whose sub-message is a
map-entry message. -/
def fieldIsMap (sc : Schema) (f : FieldDef) : Bool :=
  match f.type with
  | .msg m => f.isSeq && ((sc.msgs.get? m).map (·.mapentry)).getD false
  | _ => false

/-- upb_msgdef_itof: look up a field by number. -/
def msgdefItof (sc : Schema) (m : Nat) (n : Nat) : Option FieldDef :=
  ((sc.msgs.get? m).map (·.fields)).getD [] |>.find? (·.number = n)

/-- Name-table lookup used by end_membername: the table maps both the JSON
name and (when different) the proto name of every field of the message to
that field. -/
def lookupFieldByName (sc : Schema) (m : Nat) (key : List Nat) : Option FieldDef :=
  ((sc.msgs.get? m).map (·.fields)).getD [] |>.find?
    (fun f => f.jsonName = key || f.name = key)

/-- upb_enumdef_ntoi: look up an enum value by symbolic name. -/
def enumNtoi (sc : Schema) (e : Nat) (key : List Nat) : Option Int :=
  (((sc.enums.get? e).map (·.vals)).getD [] |>.find? (·.1 = key)).map (·.2)

/-! ## Number parsing (parser.rl lines 603-705)

parse_number NUL-terminates the accumulated text and converts it with
strtol, strtoul or strtod according to the field type.  The conversions are
modelled after the C99 semantics of those functions on an LP64 platform
(long and unsigned long are 64 bits); base 0 is used by the source, so the
models include the hexadecimal and octal prefix rules. -/

/-- isspace for the default C locale (the characters skipped by strtol). -/
def isSpaceC (c : Nat) : Bool := c = 32 || (9 ≤ c && c ≤ 13)

/-- Decimal digit test. -/
def isDigitC (c : Nat) : Bool := 48 ≤ c && c ≤ 57

/-- Value of a digit character in the given base, if valid. -/
def digitValIn (base : Nat) (c : Nat) : Option Nat :=
  let v : Option Nat :=
    if 48 ≤ c ∧ c ≤ 57 then some (c - 48)
    else if 97 ≤ c ∧ c ≤ 122 then some (c - 97 + 10)
    else if 65 ≤ c ∧ c ≤ 90 then some (c - 65 + 10)
    else none
  match v with
  | some v => if v < base then some v else none
  | none => none

/-- Scan a maximal run of digits in the given base, returning the
accumulated magnitude and the number of characters consumed. -/
def scanDigits (base : Nat) (s : List Nat) (acc : Nat) : Nat × Nat :=
  match s with
  | [] => (acc, 0)
  | c :: r =>
    match digitValIn base c with
    | none => (acc, 0)
    | some v =>
      let p := scanDigits base r (acc * base + v)
      (p.1, p.2 + 1)

/-- Result of the common strtol/strtoul scanning phase: magnitude, sign,
offset of the end pointer, number of digits converted. -/
structure StrtoOut where
  mag : Nat
  neg : Bool
  consumed : Nat
  ndigits : Nat
  deriving DecidableEq, Repr

/-- The scanning phase shared by strtol and strtoul with base 0: optional
whitespace, optional sign, then hexadecimal (0x prefix), octal (leading 0)
or decimal digits.  If no digits are converted the end pointer equals the
start pointer. -/
def strto_scan (s : List Nat) : StrtoOut :=
  let nws := (s.takeWhile isSpaceC).length
  let s1 := s.drop nws
  let neg := s1.headD 0 = 45
  let nsign : Nat := if s1.headD 0 = 45 ∨ s1.headD 0 = 43 then 1 else 0
  let s2 := s1.drop nsign
  let hexHead := s2.headD 0 = 48 ∧
    ((s2.drop 1).headD 0 = 120 ∨ (s2.drop 1).headD 0 = 88) ∧
    (digitValIn 16 ((s2.drop 2).headD 0)).isSome
  if hexHead then
    let p := scanDigits 16 (s2.drop 2) 0
    ⟨p.1, neg, nws + nsign + 2 + p.2, p.2⟩
  else if s2.headD 0 = 48 then
    let p := scanDigits 8 s2 0
    ⟨p.1, neg, nws + nsign + p.2, p.2⟩
  else
    let p := scanDigits 10 s2 0
    if p.2 = 0 then ⟨0, false, 0, 0⟩
    else ⟨p.1, neg, nws + nsign + p.2, p.2⟩

/-- strtol with base 0 on LP64: value clamped to [LONG_MIN, LONG_MAX],
offset of the end pointer, and the ERANGE flag (errno is modelled as clean
before the call). -/
def strtolM (s : List Nat) : Int × Nat × Bool :=
  let o := strto_scan s
  if o.neg then
    if o.mag > 9223372036854775808 then (-9223372036854775808, o.consumed, true)
    else (-(o.mag : Int), o.consumed, false)
  else
    if o.mag > 9223372036854775807 then (9223372036854775807, o.consumed, true)
    else ((o.mag : Int), o.consumed, false)

/-- strtoul with base 0 on LP64.  Per C99, a leading minus sign negates the
converted magnitude in the unsigned type (reduction modulo 2^64); ERANGE is
raised only when the magnitude itself exceeds ULONG_MAX. -/
def strtoulM (s : List Nat) : Nat × Nat × Bool :=
  let o := strto_scan s
  if o.mag > 18446744073709551615 then (18446744073709551615, o.consumed, true)
  else if o.neg then
    ((18446744073709551616 - o.mag) % 18446744073709551616, o.consumed, false)
  else (o.mag, o.consumed, false)

/-- The end-pointer offset of strtod on a decimal floating literal:
whitespace, sign, digits with an optional fraction part, optional exponent
(consumed only when it has at least one digit).  Hexadecimal floats and
inf/nan spellings are not modelled: the inputs reaching this function come
from the JSON number machine, which produces none of those. -/
def strtodEnd (s : List Nat) : Nat :=
  let nws := (s.takeWhile isSpaceC).length
  let s1 := s.drop nws
  let nsign : Nat := if s1.headD 0 = 45 ∨ s1.headD 0 = 43 then 1 else 0
  let s2 := s1.drop nsign
  let ints := (s2.takeWhile isDigitC).length
  let s3 := s2.drop ints
  let fr : Nat :=
    if s3.headD 0 = 46 then 1 + ((s3.drop 1).takeWhile isDigitC).length
    else 0
  if ints = 0 ∧ fr ≤ 1 then 0
  else
    let s4 := s3.drop fr
    let ex : Nat :=
      if s4.headD 0 = 101 ∨ s4.headD 0 = 69 then
        let es : Nat :=
          if (s4.drop 1).headD 0 = 45 ∨ (s4.drop 1).headD 0 = 43 then 1 else 0
        let ed := (((s4.drop 1).drop es).takeWhile isDigitC).length
        if ed = 0 then 0 else 1 + es + ed
      else 0
    nws + nsign + ints + fr + ex

/-- What parse_number emits (or that it fails with the
error-parsing-number message).  Double and float emissions carry the
literal text, standing for the value strtod computes from it; the nothing
case is the release-mode fallthrough of the default branch for
non-numeric field types. -/
inductive NumOut
  | int32 (v : Int)
  | int64 (v : Int)
  | uint32 (v : Nat)
  | uint64 (v : Nat)
  | double (text : List Nat)
  | float (text : List Nat)
  | nothing
  | err
  deriving DecidableEq, Repr

/-- The conversion dispatch of parse_number, applied to the accumulated
text after the NUL terminator has been appended (acc includes that NUL;
myend is the offset of the NUL, and the conversion must consume exactly the
characters before it). -/
def parse_number_conv (t : FType) (acc : List Nat) : NumOut :=
  let myend := acc.length - 1
  match t with
  | .enum _ | .int32 =>
    let r := strtolM acc
    if r.1 > 2147483647 ∨ r.1 < -2147483648 ∨ r.2.2 = true ∨ r.2.1 ≠ myend then
      .err
    else .int32 r.1
  | .int64 =>
    let r := strtolM acc
    if r.1 > 9223372036854775807 ∨ r.1 < -9223372036854775808 ∨
        r.2.2 = true ∨ r.2.1 ≠ myend then
      .err
    else .int64 r.1
  | .uint32 =>
    let r := strtoulM acc
    if r.1 > 4294967295 ∨ r.2.2 = true ∨ r.2.1 ≠ myend then .err
    else .uint32 r.1
  | .uint64 =>
    let r := strtoulM acc
    if r.1 > 18446744073709551615 ∨ r.2.2 = true ∨ r.2.1 ≠ myend then .err
    else .uint64 r.1
  | .double =>
    if strtodEnd acc ≠ myend then .err else .double acc
  | .float =>
    if strtodEnd acc ≠ myend then .err else .float acc
  | _ => .nothing

/-! ### Characterization of the integer conversions on JSON integer
literals

The number machine only ever hands parse_number a syntactically valid JSON
number; for the integer branches the accepted ones are exactly the integer
literals (an optional minus, then 0 or a nonzero-led digit string). -/

/-- The numeric value of a decimal digit string. -/
def digitsVal (ds : List Nat) : Nat :=
  ds.foldl (fun a c => a * 10 + (c - 48)) 0

/-- A canonical JSON natural-number literal: 0, or digits with no leading
zero. -/
def isCanonNat (ds : List Nat) : Prop :=
  ds = [48] ∨ (ds ≠ [] ∧ (∀ c ∈ ds, 48 ≤ c ∧ c ≤ 57) ∧ 49 ≤ ds.headD 0)

/-- A JSON integer literal: canonical digits with an optional minus sign. -/
def isJsonIntLit (s : List Nat) : Prop :=
  if s.headD 0 = 45 then isCanonNat (s.drop 1) else isCanonNat s

/-- The mathematical value of a JSON integer literal. -/
def jsonIntVal (s : List Nat) : Int :=
  if s.headD 0 = 45 then -(digitsVal (s.drop 1) : Int) else (digitsVal s : Int)

theorem scanDigits_digits_nul : ∀ (ds : List Nat) (acc : Nat),
    (∀ c ∈ ds, 48 ≤ c ∧ c ≤ 57) →
    scanDigits 10 (ds ++ [0]) acc =
      (ds.foldl (fun a c => a * 10 + (c - 48)) acc, ds.length)
  | [], _, _ => rfl
  | c :: r, acc, h => by
    have hc := h c (by simp)
    have hdv : digitValIn 10 c = some (c - 48) := by
      unfold digitValIn
      rw [if_pos hc]
      show (if c - 48 < 10 then some (c - 48) else none) = some (c - 48)
      rw [if_pos (by omega)]
    show scanDigits 10 (c :: (r ++ [0])) acc = _
    simp only [scanDigits, hdv]
    rw [scanDigits_digits_nul r (acc * 10 + (c - 48))
      (fun x hx => h x (by simp [hx]))]
    simp

theorem strto_scan_canon_pos (ds : List Nat) (h : isCanonNat ds) :
    strto_scan (ds ++ [0]) = ⟨digitsVal ds, false, ds.length, ds.length⟩ := by
  rcases h with h | ⟨hne, hdig, hhead⟩
  · subst h
    decide
  · obtain ⟨d, t, rfl⟩ : ∃ d t, ds = d :: t := by
      cases ds with
      | nil => exact absurd rfl hne
      | cons d t => exact ⟨d, t, rfl⟩
    have hd := hdig d (by simp)
    have hh : 49 ≤ d := by simpa using hhead
    have hsp : isSpaceC d = false := by
      simp only [isSpaceC, Bool.or_eq_false_iff, decide_eq_false_iff_not,
        Bool.and_eq_false_iff]
      omega
    unfold strto_scan
    simp only [List.cons_append, List.takeWhile_cons, hsp, if_false,
      Bool.false_eq_true, List.length_nil, List.drop_zero, List.headD_cons]
    rw [if_neg (by omega : ¬ (d = 45 ∨ d = 43)), List.drop_zero]
    rw [if_neg (by
      rintro ⟨h48, -⟩
      simp only [List.headD_cons] at h48
      omega)]
    simp only [List.headD_cons]
    rw [if_neg (by omega : ¬ d = 48)]
    have hscan := scanDigits_digits_nul (d :: t) 0 hdig
    simp only [List.cons_append] at hscan
    rw [hscan]
    rw [if_neg (by simp)]
    simp only [List.length_cons, digitsVal]
    rw [decide_eq_false (by omega : ¬ d = 45)]
    simp

theorem strto_scan_canon_neg (ds : List Nat) (h : isCanonNat ds) :
    strto_scan (45 :: ds ++ [0]) =
      ⟨digitsVal ds, true, ds.length + 1, ds.length⟩ := by
  rcases h with h | ⟨hne, hdig, hhead⟩
  · subst h
    decide
  · obtain ⟨d, t, rfl⟩ : ∃ d t, ds = d :: t := by
      cases ds with
      | nil => exact absurd rfl hne
      | cons d t => exact ⟨d, t, rfl⟩
    have hd := hdig d (by simp)
    have hh : 49 ≤ d := by simpa using hhead
    unfold strto_scan
    have hsp : isSpaceC 45 = false := by decide
    simp only [List.cons_append, List.takeWhile_cons, hsp, if_false,
      Bool.false_eq_true, List.length_nil, List.drop_zero, List.headD_cons,
      true_or, if_true, List.drop_succ_cons]
    rw [if_neg (by
      rintro ⟨h48, -⟩
      omega)]
    rw [if_neg (by omega : ¬ d = 48)]
    have hscan := scanDigits_digits_nul (d :: t) 0 hdig
    simp only [List.cons_append] at hscan
    rw [hscan]
    rw [if_neg (by simp)]
    simp only [List.length_cons, digitsVal]
    simp
    omega

/-- strtol on a NUL-terminated positive canonical literal. -/
theorem strtolM_canon_pos (ds : List Nat) (h : isCanonNat ds) :
    strtolM (ds ++ [0]) =
      if digitsVal ds > 9223372036854775807
      then (9223372036854775807, ds.length, true)
      else ((digitsVal ds : Int), ds.length, false) := by
  unfold strtolM
  rw [strto_scan_canon_pos ds h]
  simp

/-- strtol on a NUL-terminated negative canonical literal. -/
theorem strtolM_canon_neg (ds : List Nat) (h : isCanonNat ds) :
    strtolM (45 :: ds ++ [0]) =
      if digitsVal ds > 9223372036854775808
      then (-9223372036854775808, ds.length + 1, true)
      else (-(digitsVal ds : Int), ds.length + 1, false) := by
  unfold strtolM
  rw [strto_scan_canon_neg ds h]
  simp

/-- strtoul on a NUL-terminated positive canonical literal. -/
theorem strtoulM_canon_pos (ds : List Nat) (h : isCanonNat ds) :
    strtoulM (ds ++ [0]) =
      if digitsVal ds > 18446744073709551615
      then (18446744073709551615, ds.length, true)
      else (digitsVal ds, ds.length, false) := by
  unfold strtoulM
  rw [strto_scan_canon_pos ds h]
  simp

/-- strtoul on a NUL-terminated negative canonical literal: the magnitude
is negated modulo 2^64 without any range error. -/
theorem strtoulM_canon_neg (ds : List Nat) (h : isCanonNat ds) :
    strtoulM (45 :: ds ++ [0]) =
      if digitsVal ds > 18446744073709551615
      then (18446744073709551615, ds.length + 1, true)
      else ((18446744073709551616 - digitsVal ds) % 18446744073709551616,
            ds.length + 1, false) := by
  unfold strtoulM
  rw [strto_scan_canon_neg ds h]
  simp

theorem jsonIntLit_cases (s : List Nat) (h : isJsonIntLit s) :
    (∃ ds, s = 45 :: ds ∧ isCanonNat ds ∧
      jsonIntVal s = -(digitsVal ds : Int)) ∨
    (isCanonNat s ∧ jsonIntVal s = (digitsVal s : Int)) := by
  unfold isJsonIntLit at h
  by_cases hh : s.headD 0 = 45
  · rw [if_pos hh] at h
    left
    cases s with
    | nil => simp [List.headD] at hh
    | cons c r =>
      simp only [List.headD_cons] at hh
      subst hh
      exact ⟨r, rfl, by simpa using h, by simp [jsonIntVal]⟩
  · rw [if_neg hh] at h
    right
    refine ⟨h, ?_⟩
    unfold jsonIntVal
    rw [if_neg hh]

theorem parse_number_int32_lit (s : List Nat) (h : isJsonIntLit s) :
    parse_number_conv .int32 (s ++ [0]) =
      if -2147483648 ≤ jsonIntVal s ∧ jsonIntVal s ≤ 2147483647
      then .int32 (jsonIntVal s) else .err := by
  rcases jsonIntLit_cases s h with ⟨ds, rfl, hc, hv⟩ | ⟨hc, hv⟩ <;> rw [hv]
  · simp only [parse_number_conv]
    rw [strtolM_canon_neg ds hc]
    by_cases hbig : digitsVal ds > 9223372036854775808
    · rw [if_pos hbig]
      rw [if_neg (show ¬ (-2147483648 ≤ -(digitsVal ds : Int) ∧
          -(digitsVal ds : Int) ≤ 2147483647) by omega)]
      simp
    · rw [if_neg hbig]
      by_cases hr : -2147483648 ≤ -(digitsVal ds : Int) ∧
          -(digitsVal ds : Int) ≤ 2147483647
      · rw [if_pos hr]
        rw [if_neg (by simp; omega)]
      · rw [if_neg hr]
        rw [if_pos (by simp; omega)]
  · simp only [parse_number_conv]
    rw [strtolM_canon_pos s hc]
    by_cases hbig : digitsVal s > 9223372036854775807
    · rw [if_pos hbig]
      rw [if_neg (show ¬ (-2147483648 ≤ (digitsVal s : Int) ∧
          (digitsVal s : Int) ≤ 2147483647) by omega)]
      simp
    · rw [if_neg hbig]
      by_cases hr : -2147483648 ≤ (digitsVal s : Int) ∧
          (digitsVal s : Int) ≤ 2147483647
      · rw [if_pos hr]
        rw [if_neg (by simp; omega)]
      · rw [if_neg hr]
        rw [if_pos (by simp; omega)]

theorem parse_number_int64_lit (s : List Nat) (h : isJsonIntLit s) :
    parse_number_conv .int64 (s ++ [0]) =
      if -9223372036854775808 ≤ jsonIntVal s ∧
          jsonIntVal s ≤ 9223372036854775807
      then .int64 (jsonIntVal s) else .err := by
  rcases jsonIntLit_cases s h with ⟨ds, rfl, hc, hv⟩ | ⟨hc, hv⟩ <;> rw [hv]
  · simp only [parse_number_conv]
    rw [strtolM_canon_neg ds hc]
    by_cases hbig : digitsVal ds > 9223372036854775808
    · rw [if_pos hbig]
      rw [if_neg (show ¬ (-9223372036854775808 ≤ -(digitsVal ds : Int) ∧
          -(digitsVal ds : Int) ≤ 9223372036854775807) by omega)]
      simp
    · rw [if_neg hbig]
      rw [if_pos (show -9223372036854775808 ≤ -(digitsVal ds : Int) ∧
          -(digitsVal ds : Int) ≤ 9223372036854775807 by omega)]
      rw [if_neg (by simp; omega)]
  · simp only [parse_number_conv]
    rw [strtolM_canon_pos s hc]
    by_cases hbig : digitsVal s > 9223372036854775807
    · rw [if_pos hbig]
      rw [if_neg (show ¬ (-9223372036854775808 ≤ (digitsVal s : Int) ∧
          (digitsVal s : Int) ≤ 9223372036854775807) by omega)]
      simp
    · rw [if_neg hbig]
      rw [if_pos (show -9223372036854775808 ≤ (digitsVal s : Int) ∧
          (digitsVal s : Int) ≤ 9223372036854775807 by omega)]
      rw [if_neg (by simp; omega)]

theorem parse_number_uint32_lit (s : List Nat) (h : isJsonIntLit s) :
    parse_number_conv .uint32 (s ++ [0]) =
      if 0 ≤ jsonIntVal s ∧ jsonIntVal s ≤ 4294967295
      then .uint32 (jsonIntVal s).toNat
      else if -18446744073709551615 ≤ jsonIntVal s ∧
          jsonIntVal s ≤ -18446744069414584321
      then .uint32 (18446744073709551616 + jsonIntVal s).toNat
      else .err := by
  rcases jsonIntLit_cases s h with ⟨ds, rfl, hc, hv⟩ | ⟨hc, hv⟩ <;> rw [hv]
  · simp only [parse_number_conv]
    rw [strtoulM_canon_neg ds hc]
    by_cases hbig : digitsVal ds > 18446744073709551615
    · rw [if_pos hbig]
      rw [if_neg (show ¬ (0 ≤ -(digitsVal ds : Int) ∧
          -(digitsVal ds : Int) ≤ 4294967295) by omega)]
      rw [if_neg (show ¬ (-18446744073709551615 ≤ -(digitsVal ds : Int) ∧
          -(digitsVal ds : Int) ≤ -18446744069414584321) by omega)]
      simp
    · rw [if_neg hbig]
      by_cases hz : digitsVal ds = 0
      · rw [if_pos (show 0 ≤ -(digitsVal ds : Int) ∧
            -(digitsVal ds : Int) ≤ 4294967295 by omega)]
        rw [if_neg (by simp; omega)]
        have : (18446744073709551616 - digitsVal ds) % 18446744073709551616 =
            (-(digitsVal ds : Int)).toNat := by omega
        rw [this]
      · rw [if_neg (show ¬ (0 ≤ -(digitsVal ds : Int) ∧
            -(digitsVal ds : Int) ≤ 4294967295) by omega)]
        by_cases hin : digitsVal ds ≥ 18446744069414584321
        · rw [if_pos (show -18446744073709551615 ≤ -(digitsVal ds : Int) ∧
              -(digitsVal ds : Int) ≤ -18446744069414584321 by omega)]
          rw [if_neg (by simp; omega)]
          have : (18446744073709551616 - digitsVal ds) % 18446744073709551616 =
              (18446744073709551616 + -(digitsVal ds : Int)).toNat := by omega
          rw [this]
        · rw [if_neg (show ¬ (-18446744073709551615 ≤ -(digitsVal ds : Int) ∧
              -(digitsVal ds : Int) ≤ -18446744069414584321) by omega)]
          rw [if_pos (by simp; omega)]
  · simp only [parse_number_conv]
    rw [strtoulM_canon_pos s hc]
    by_cases hbig : digitsVal s > 18446744073709551615
    · rw [if_pos hbig]
      rw [if_neg (show ¬ (0 ≤ (digitsVal s : Int) ∧
          (digitsVal s : Int) ≤ 4294967295) by omega)]
      rw [if_neg (show ¬ (-18446744073709551615 ≤ (digitsVal s : Int) ∧
          (digitsVal s : Int) ≤ -18446744069414584321) by omega)]
      simp
    · rw [if_neg hbig]
      by_cases hr : digitsVal s ≤ 4294967295
      · rw [if_pos (show 0 ≤ (digitsVal s : Int) ∧
            (digitsVal s : Int) ≤ 4294967295 by omega)]
        rw [if_neg (by simp; omega)]
        have : digitsVal s = ((digitsVal s : Int)).toNat := by omega
        rw [← this]
      · rw [if_neg (show ¬ (0 ≤ (digitsVal s : Int) ∧
            (digitsVal s : Int) ≤ 4294967295) by omega)]
        rw [if_neg (show ¬ (-18446744073709551615 ≤ (digitsVal s : Int) ∧
            (digitsVal s : Int) ≤ -18446744069414584321) by omega)]
        rw [if_pos (by simp; omega)]

theorem parse_number_uint64_lit (s : List Nat) (h : isJsonIntLit s) :
    parse_number_conv .uint64 (s ++ [0]) =
      if 0 ≤ jsonIntVal s ∧ jsonIntVal s ≤ 18446744073709551615
      then .uint64 (jsonIntVal s).toNat
      else if -18446744073709551615 ≤ jsonIntVal s ∧ jsonIntVal s < 0
      then .uint64 (18446744073709551616 + jsonIntVal s).toNat
      else .err := by
  rcases jsonIntLit_cases s h with ⟨ds, rfl, hc, hv⟩ | ⟨hc, hv⟩ <;> rw [hv]
  · simp only [parse_number_conv]
    rw [strtoulM_canon_neg ds hc]
    by_cases hbig : digitsVal ds > 18446744073709551615
    · rw [if_pos hbig]
      rw [if_neg (show ¬ (0 ≤ -(digitsVal ds : Int) ∧
          -(digitsVal ds : Int) ≤ 18446744073709551615) by omega)]
      rw [if_neg (show ¬ (-18446744073709551615 ≤ -(digitsVal ds : Int) ∧
          -(digitsVal ds : Int) < 0) by omega)]
      simp
    · rw [if_neg hbig]
      by_cases hz : digitsVal ds = 0
      · rw [if_pos (show 0 ≤ -(digitsVal ds : Int) ∧
            -(digitsVal ds : Int) ≤ 18446744073709551615 by omega)]
        rw [if_neg (by simp; omega)]
        have : (18446744073709551616 - digitsVal ds) % 18446744073709551616 =
            (-(digitsVal ds : Int)).toNat := by omega
        rw [this]
      · rw [if_neg (show ¬ (0 ≤ -(digitsVal ds : Int) ∧
            -(digitsVal ds : Int) ≤ 18446744073709551615) by omega)]
        rw [if_pos (show -18446744073709551615 ≤ -(digitsVal ds : Int) ∧
            -(digitsVal ds : Int) < 0 by omega)]
        rw [if_neg (by simp; omega)]
        have : (18446744073709551616 - digitsVal ds) % 18446744073709551616 =
            (18446744073709551616 + -(digitsVal ds : Int)).toNat := by omega
        rw [this]
  · simp only [parse_number_conv]
    rw [strtoulM_canon_pos s hc]
    by_cases hbig : digitsVal s > 18446744073709551615
    · rw [if_pos hbig]
      rw [if_neg (show ¬ (0 ≤ (digitsVal s : Int) ∧
          (digitsVal s : Int) ≤ 18446744073709551615) by omega)]
      rw [if_neg (show ¬ (-18446744073709551615 ≤ (digitsVal s : Int) ∧
          (digitsVal s : Int) < 0) by omega)]
      simp
    · rw [if_neg hbig]
      rw [if_pos (show 0 ≤ (digitsVal s : Int) ∧
          (digitsVal s : Int) ≤ 18446744073709551615 by omega)]
      rw [if_neg (by simp; omega)]
      have : digitsVal s = ((digitsVal s : Int)).toNat := by omega
      rw [← this]

instance (ds : List Nat) : Decidable (isCanonNat ds) := by
  unfold isCanonNat
  infer_instance

instance (s : List Nat) : Decidable (isJsonIntLit s) := by
  unfold isJsonIntLit
  split <;> infer_instance

/-- Every value emitted by parse_number lies within the range of the target
integer type, for arbitrary accumulated input. -/
theorem parse_number_conv_range (t : FType) (acc : List Nat) :
    (∀ v, parse_number_conv t acc = .int32 v →
      -2147483648 ≤ v ∧ v ≤ 2147483647) ∧
    (∀ v, parse_number_conv t acc = .int64 v →
      -9223372036854775808 ≤ v ∧ v ≤ 9223372036854775807) ∧
    (∀ v, parse_number_conv t acc = .uint32 v → v ≤ 4294967295) ∧
    (∀ v, parse_number_conv t acc = .uint64 v → v ≤ 18446744073709551615) := by
  refine ⟨fun v hv => ?_, fun v hv => ?_, fun v hv => ?_, fun v hv => ?_⟩ <;>
    cases t <;>
    simp only [parse_number_conv] at hv <;>
    first
      | (simp at hv; done)
      | (split at hv <;>
          first
            | (simp at hv; done)
            | (simp only [NumOut.int32.injEq, NumOut.int64.injEq,
                 NumOut.uint32.injEq, NumOut.uint64.injEq] at hv
               subst hv
               push_neg at *
               omega))

/-- C2 counterexample: the number literal -1 parsed into a uint64 field has
a value outside the range of uint64, yet the conversion succeeds, emitting
18446744073709551615 (strtoul negates the magnitude modulo 2^64 and raises
no range error), instead of failing with the error-parsing-number path. -/
theorem c2_counterexample :
    isJsonIntLit [45, 49] ∧ jsonIntVal [45, 49] = -1 ∧
    parse_number_conv .uint64 ([45, 49] ++ [0]) =
      .uint64 18446744073709551615 := by
  refine ⟨by decide, by decide, ?_⟩
  rfl

/-- C2 (amended): every value emitted for an integer-typed field lies
within that range of the type; a JSON integer literal whose value is
outside the range of a signed type, or a positive literal outside the
range of an unsigned type, fails with the error-parsing-number path, but a
negative literal into an unsigned field is reduced modulo 2^64 by strtoul
and accepted whenever the reduced value fits the type; a conversion that
leaves characters before the NUL terminator unconsumed also fails. -/
theorem c2_integer_ranges :
    (∀ (t : FType) (acc : List Nat),
      (∀ v, parse_number_conv t acc = .int32 v →
        -2147483648 ≤ v ∧ v ≤ 2147483647) ∧
      (∀ v, parse_number_conv t acc = .int64 v →
        -9223372036854775808 ≤ v ∧ v ≤ 9223372036854775807) ∧
      (∀ v, parse_number_conv t acc = .uint32 v → v ≤ 4294967295) ∧
      (∀ v, parse_number_conv t acc = .uint64 v →
        v ≤ 18446744073709551615)) ∧
    (∀ s, isJsonIntLit s →
      parse_number_conv .int32 (s ++ [0]) =
        (if -2147483648 ≤ jsonIntVal s ∧ jsonIntVal s ≤ 2147483647
         then .int32 (jsonIntVal s) else .err) ∧
      parse_number_conv .int64 (s ++ [0]) =
        (if -9223372036854775808 ≤ jsonIntVal s ∧
            jsonIntVal s ≤ 9223372036854775807
         then .int64 (jsonIntVal s) else .err) ∧
      parse_number_conv .uint32 (s ++ [0]) =
        (if 0 ≤ jsonIntVal s ∧ jsonIntVal s ≤ 4294967295
         then .uint32 (jsonIntVal s).toNat
         else if -18446744073709551615 ≤ jsonIntVal s ∧
             jsonIntVal s ≤ -18446744069414584321
         then .uint32 (18446744073709551616 + jsonIntVal s).toNat
         else .err) ∧
      parse_number_conv .uint64 (s ++ [0]) =
        (if 0 ≤ jsonIntVal s ∧ jsonIntVal s ≤ 18446744073709551615
         then .uint64 (jsonIntVal s).toNat
         else if -18446744073709551615 ≤ jsonIntVal s ∧ jsonIntVal s < 0
         then .uint64 (18446744073709551616 + jsonIntVal s).toNat
         else .err)) ∧
    (∀ acc : List Nat, (strtolM acc).2.1 ≠ acc.length - 1 →
      parse_number_conv .int32 acc = .err ∧
      parse_number_conv .int64 acc = .err) ∧
    (∀ acc : List Nat, (strtoulM acc).2.1 ≠ acc.length - 1 →
      parse_number_conv .uint32 acc = .err ∧
      parse_number_conv .uint64 acc = .err) := by
  refine ⟨parse_number_conv_range, ?_, ?_, ?_⟩
  · intro s hs
    exact ⟨parse_number_int32_lit s hs, parse_number_int64_lit s hs,
      parse_number_uint32_lit s hs, parse_number_uint64_lit s hs⟩
  · intro acc hend
    constructor <;>
      · simp only [parse_number_conv]
        rw [if_pos (Or.inr (Or.inr (Or.inr hend)))]
  · intro acc hend
    constructor <;>
      · simp only [parse_number_conv]
        rw [if_pos (Or.inr (Or.inr hend))]

/-- Witness for C2 (amended): the literal 12345 into an int32 field emits
12345; the truncated strtol conversion of 1e6 leaves the exponent
unconsumed and fails. -/
theorem c2_integer_ranges_witness :
    parse_number_conv .int32 ([49, 50, 51, 52, 53] ++ [0]) =
      .int32 12345 ∧
    parse_number_conv .int32 [49, 101, 54, 0] = .err := by
  constructor
  · rw [(c2_integer_ranges.2.1 [49, 50, 51, 52, 53] (by decide)).1]
    decide
  · exact (c2_integer_ranges.2.2.1 [49, 101, 54, 0] (by decide)).1

/-! ## Accumulate buffer (parser.rl lines 148-161 and 297-388)

This model keeps the pointer structure of the C code explicit: the logical
accumulated pointer either aliases an input slice or points at the owned
accumulate buffer.  size_t arithmetic is modelled with the explicit bound
SIZE_MAX. -/

/-- SIZE_MAX for the 64-bit size_t used by the parser. -/
def SIZE_MAX : Nat := 18446744073709551615

/-- checked_add: fails when a + b would overflow size_t. -/
def checked_add (a b : Nat) : Option Nat :=
  if SIZE_MAX - a < b then none else some (a + b)

/-- saturating_multiply: size_t multiplication that returns SIZE_MAX on
overflow (detected by dividing back). -/
def saturating_multiply (a b : Nat) : Nat :=
  let ret := a * b % 18446744073709551616
  if b ≠ 0 ∧ ret / b ≠ a then SIZE_MAX else ret

theorem lt_saturating_multiply_two {ns : Nat} (hp : 0 < ns)
    (hm : ns < SIZE_MAX) : ns < saturating_multiply ns 2 := by
  unfold SIZE_MAX at hm
  unfold saturating_multiply
  simp only []
  split_ifs with hc
  · unfold SIZE_MAX
    omega
  · simp only [ne_eq, not_and, Decidable.not_not] at hc
    have h2 := hc (by omega)
    rcases Nat.lt_or_ge (ns * 2) 18446744073709551616 with hsm | hsm
    · rw [Nat.mod_eq_of_lt hsm] at h2 ⊢
      omega
    · have hmod : ns * 2 % 18446744073709551616 =
          ns * 2 - 18446744073709551616 := by
        omega
      rw [hmod] at h2
      omega

/-- The growth loop of accumulate_realloc: double (saturating) until the
size is at least need.  The extra 0 < ns and ns < SIZE_MAX guards only
exclude information-free stuck cases: callers always start from at least
128, and need comes from checked_add so need ≤ SIZE_MAX, under which the
loop condition agrees exactly with the C while loop. -/
def growSize (need : Nat) (ns : Nat) : Nat :=
  if h : ns < need ∧ 0 < ns ∧ ns < SIZE_MAX then
    growSize need (saturating_multiply ns 2)
  else ns
termination_by SIZE_MAX - ns
decreasing_by
  obtain ⟨ha, hb, hc0⟩ := h
  have hlt := lt_saturating_multiply_two hb hc0
  unfold SIZE_MAX at *
  omega

/-- What the accumulated pointer points at: a slice inside some input
buffer, or the owned accumulate buffer. -/
inductive AccPtr
  | aliased (bytes : List Nat)
  | owned
  deriving DecidableEq, Repr

/-- The accumulator fields of upb_json_parser. -/
structure AccSt where
  accumulated : Option AccPtr
  accumulated_len : Nat
  accumulate_buf : List Nat
  accumulate_buf_size : Nat
  deriving Repr

/-- The logical accumulated contents (accumulate_getptr dereferenced). -/
def accContents (st : AccSt) : List Nat :=
  match st.accumulated with
  | none => []
  | some (.aliased bs) => bs.take st.accumulated_len
  | some .owned => st.accumulate_buf.take st.accumulated_len

/-- memcpy into a buffer at an offset. -/
def writeBytes (l : List Nat) (off : Nat) (data : List Nat) : List Nat :=
  l.take off ++ data ++ l.drop (off + data.length)

/-- accumulate_realloc: grow the owned buffer to growSize need
(max old 128); realloc preserves the prefix contents (the fresh tail is
modelled as zeros).  Allocation is modelled as always succeeding
(out-of-memory is outside this model). -/
def accumulate_realloc (st : AccSt) (need : Nat) : AccSt :=
  let new_size := growSize need (max st.accumulate_buf_size 128)
  { st with
    accumulate_buf :=
      st.accumulate_buf ++ List.replicate (new_size - st.accumulate_buf.length) 0,
    accumulate_buf_size := new_size }

inductive AccErr
  | integerOverflow   -- "Integer overflow."
  deriving DecidableEq, Repr

/-- The growth, copy and append steps of accumulate_append, once the
combined length need has been checked: grow the owned buffer if needed,
copy previously aliased content into it, then append the new slice. -/
def accumulate_append_body (st : AccSt) (buf : List Nat) (len need : Nat) :
    AccSt :=
  let st1 := if need > st.accumulate_buf_size
             then accumulate_realloc st need else st
  -- if (p->accumulated != p->accumulate_buf) copy the aliased bytes in and
  -- point accumulated at the owned buffer
  let st2 := if st1.accumulated = some .owned then st1
             else
               { st1 with
                 accumulate_buf :=
                   writeBytes st1.accumulate_buf 0 (accContents st1),
                 accumulated := some .owned }
  { st2 with
    accumulate_buf :=
      writeBytes st2.accumulate_buf st2.accumulated_len (buf.take len),
    accumulated_len := st2.accumulated_len + len }

/-- accumulate_append: adopt the slice by reference when the accumulator is
empty and aliasing is allowed; otherwise check the combined length with
checked_add, failing on overflow, and run the growth-copy-append body. -/
def accumulate_append (st : AccSt) (buf : List Nat) (len : Nat)
    (can_alias : Bool) : Except AccErr AccSt :=
  if st.accumulated.isNone ∧ can_alias = true then
    .ok { st with accumulated := some (.aliased buf), accumulated_len := len }
  else
    match checked_add st.accumulated_len len with
    | none => .error .integerOverflow
    | some need => .ok (accumulate_append_body st buf len need)

/-- Well-formedness of an accumulator state: the buffer list realizes the
buffer size, an empty accumulator has length zero, an aliased accumulator
length matches its slice, and an owned accumulator fits the buffer. -/
def AccWF (st : AccSt) : Prop :=
  st.accumulate_buf.length = st.accumulate_buf_size ∧
  (st.accumulated.isNone → st.accumulated_len = 0) ∧
  (∀ bs, st.accumulated = some (.aliased bs) → st.accumulated_len = bs.length) ∧
  (st.accumulated = some .owned → st.accumulated_len ≤ st.accumulate_buf_size) ∧
  st.accumulated_len ≤ SIZE_MAX

theorem growSize_ge_self (need : Nat) : ∀ ns, ns ≤ growSize need ns := by
  have key : ∀ k ns, SIZE_MAX - ns ≤ k → ns ≤ growSize need ns := by
    intro k
    induction k with
    | zero =>
      intro ns hk
      rw [growSize]
      rw [dif_neg (by unfold SIZE_MAX at *; omega)]
    | succ k ih =>
      intro ns hk
      rw [growSize]
      split_ifs with hg
      · obtain ⟨h1, h2, h3⟩ := hg
        have hlt := lt_saturating_multiply_two h2 h3
        have := ih (saturating_multiply ns 2) (by unfold SIZE_MAX at *; omega)
        omega
      · exact le_refl ns
  exact fun ns => key (SIZE_MAX - ns) ns (le_refl _)

theorem growSize_ge_need (need : Nat) (hneed : need ≤ SIZE_MAX) :
    ∀ ns, 0 < ns → need ≤ growSize need ns := by
  have key : ∀ k ns, SIZE_MAX - ns ≤ k → 0 < ns → need ≤ growSize need ns := by
    intro k
    induction k with
    | zero =>
      intro ns hk hp
      rw [growSize]
      rw [dif_neg (by unfold SIZE_MAX at *; omega)]
      unfold SIZE_MAX at *
      omega
    | succ k ih =>
      intro ns hk hp
      rw [growSize]
      split_ifs with hg
      · obtain ⟨h1, h2, h3⟩ := hg
        have hlt := lt_saturating_multiply_two h2 h3
        exact ih (saturating_multiply ns 2) (by unfold SIZE_MAX at *; omega)
          (by omega)
      · push_neg at hg
        rcases Nat.lt_or_ge ns need with hlt | hge
        · have := hg hlt hp
          unfold SIZE_MAX at *
          omega
        · exact hge
  exact fun ns hp => key (SIZE_MAX - ns) ns (le_refl _) hp

theorem writeBytes_length (l : List Nat) (off : Nat) (data : List Nat)
    (h : off + data.length ≤ l.length) :
    (writeBytes l off data).length = l.length := by
  simp [writeBytes]
  omega

theorem writeBytes_take (l : List Nat) (off : Nat) (data : List Nat)
    (h : off ≤ l.length) :
    (writeBytes l off data).take (off + data.length) = l.take off ++ data := by
  unfold writeBytes
  rw [List.take_left' (by simp; omega)]

/-- The logical contents of a well-formed accumulator have exactly
accumulated_len bytes. -/
theorem accContents_length (st : AccSt) (hwf : AccWF st) :
    (accContents st).length = st.accumulated_len := by
  obtain ⟨hw1, hw2, hw3, hw4, hw5⟩ := hwf
  unfold accContents
  cases hacc : st.accumulated with
  | none => simp [hw2 (by simp [hacc])]
  | some a =>
    cases a with
    | aliased bs =>
      simp only [List.length_take]
      rw [hw3 bs hacc]
      simp
    | owned =>
      simp only [List.length_take]
      have := hw4 hacc
      omega

theorem accContents_owned {st : AccSt} (h : st.accumulated = some .owned) :
    accContents st = st.accumulate_buf.take st.accumulated_len := by
  unfold accContents
  rw [h]

/-- The contract of the growth-copy-append body: the result is owned, its
contents are the old contents followed by the slice, the length fields add
up, and the buffer size follows the geometric growth formula. -/
theorem accumulate_append_body_spec (st : AccSt) (buf : List Nat)
    (hwf : AccWF st)
    (hneedmax : st.accumulated_len + buf.length ≤ SIZE_MAX) :
    accContents (accumulate_append_body st buf buf.length
        (st.accumulated_len + buf.length)) = accContents st ++ buf ∧
    (accumulate_append_body st buf buf.length
        (st.accumulated_len + buf.length)).accumulated = some .owned ∧
    (accumulate_append_body st buf buf.length
        (st.accumulated_len + buf.length)).accumulated_len =
      st.accumulated_len + buf.length ∧
    (accumulate_append_body st buf buf.length
        (st.accumulated_len + buf.length)).accumulate_buf_size =
      (if st.accumulated_len + buf.length > st.accumulate_buf_size
       then growSize (st.accumulated_len + buf.length)
              (max st.accumulate_buf_size 128)
       else st.accumulate_buf_size) ∧
    st.accumulated_len + buf.length ≤
      (accumulate_append_body st buf buf.length
        (st.accumulated_len + buf.length)).accumulate_buf_size := by
  have hclen := accContents_length st hwf
  obtain ⟨hw1, hw2, hw3, hw4, hw5⟩ := hwf
  simp only [accumulate_append_body]
  set st1 := if st.accumulated_len + buf.length > st.accumulate_buf_size
             then accumulate_realloc st (st.accumulated_len + buf.length)
             else st with hst1
  have h1size : st1.accumulate_buf_size =
      (if st.accumulated_len + buf.length > st.accumulate_buf_size
       then growSize (st.accumulated_len + buf.length)
              (max st.accumulate_buf_size 128)
       else st.accumulate_buf_size) := by
    rw [hst1]
    split_ifs <;> simp [accumulate_realloc]
  have h1need : st.accumulated_len + buf.length ≤ st1.accumulate_buf_size := by
    rw [h1size]
    split_ifs with hgt
    · exact growSize_ge_need _ hneedmax _ (by omega)
    · omega
  have h1buflen : st1.accumulate_buf.length = st1.accumulate_buf_size := by
    rw [hst1, h1size]
    split_ifs with hgt
    · simp only [accumulate_realloc, List.length_append,
        List.length_replicate]
      have hge := growSize_ge_self (st.accumulated_len + buf.length)
        (max st.accumulate_buf_size 128)
      omega
    · exact hw1
  have h1acc : st1.accumulated = st.accumulated := by
    rw [hst1]; split_ifs <;> rfl
  have h1len : st1.accumulated_len = st.accumulated_len := by
    rw [hst1]; split_ifs <;> rfl
  have h1contents : accContents st1 = accContents st := by
    rw [hst1]
    split_ifs with hgt
    · unfold accContents accumulate_realloc
      simp only []
      cases hacc : st.accumulated with
      | none => rfl
      | some a =>
        cases a with
        | aliased bs => rfl
        | owned =>
          have hle : st.accumulated_len ≤ st.accumulate_buf.length := by
            rw [hw1]; exact hw4 hacc
          rw [List.take_append_of_le_length hle]
    · rfl
  by_cases hown : st1.accumulated = some AccPtr.owned
  · rw [if_pos hown]
    refine ⟨?_, hown, ?_, ?_, ?_⟩
    · simp only [hown]
      show (writeBytes st1.accumulate_buf st1.accumulated_len
          (buf.take buf.length)).take (st1.accumulated_len + buf.length) =
        accContents st ++ buf
      simp only [List.take_length]
      rw [writeBytes_take _ _ _ (by rw [h1buflen, h1len]; omega)]
      rw [← h1contents, accContents_owned hown]
    · show st1.accumulated_len + buf.length = st.accumulated_len + buf.length
      rw [h1len]
    · show st1.accumulate_buf_size = _
      rw [h1size]
    · show st.accumulated_len + buf.length ≤ st1.accumulate_buf_size
      exact h1need
  · rw [if_neg hown]
    have hc1len : (accContents st1).length = st1.accumulated_len := by
      rw [h1contents, h1len, hclen]
    refine ⟨?_, rfl, ?_, ?_, ?_⟩
    · show (writeBytes
          (writeBytes st1.accumulate_buf 0 (accContents st1))
          st1.accumulated_len (buf.take buf.length)).take
          (st1.accumulated_len + buf.length) = accContents st ++ buf
      simp only [List.take_length]
      rw [writeBytes_take _ _ _ (by
        rw [writeBytes_length _ _ _ (by
          rw [h1buflen, hc1len, h1len]
          omega)]
        rw [h1buflen, h1len]
        omega)]
      have hinner : (writeBytes st1.accumulate_buf 0
          (accContents st1)).take st1.accumulated_len = accContents st1 := by
        unfold writeBytes
        simp only [List.take_zero, List.nil_append, Nat.zero_add]
        rw [List.take_left' hc1len]
      rw [hinner, h1contents]
    · show st1.accumulated_len + buf.length = st.accumulated_len + buf.length
      rw [h1len]
    · show st1.accumulate_buf_size = _
      rw [h1size]
    · show st.accumulated_len + buf.length ≤ st1.accumulate_buf_size
      exact h1need

/-- C7: accumulate_append adopts the slice by reference (no copy, buffer
untouched) when the accumulator is empty and aliasing is allowed;
otherwise it fails with the integer-overflow error when the combined
length overflows size_t, else it grows the owned buffer geometrically from
128 bytes by saturating doubling until it is at least the combined length,
copies previously aliased content into the owned buffer, and appends the
new slice. -/
theorem c7_accumulate_append (st : AccSt) (buf : List Nat) (can_alias : Bool)
    (hwf : AccWF st) :
    (st.accumulated = none → can_alias = true →
      accumulate_append st buf buf.length can_alias =
        .ok { st with accumulated := some (.aliased buf),
                      accumulated_len := buf.length }) ∧
    (¬ (st.accumulated = none ∧ can_alias = true) →
      SIZE_MAX - st.accumulated_len < buf.length →
      accumulate_append st buf buf.length can_alias =
        .error .integerOverflow) ∧
    (¬ (st.accumulated = none ∧ can_alias = true) →
      ¬ (SIZE_MAX - st.accumulated_len < buf.length) →
      ∃ st2, accumulate_append st buf buf.length can_alias = .ok st2 ∧
        accContents st2 = accContents st ++ buf ∧
        st2.accumulated = some .owned ∧
        st2.accumulated_len = st.accumulated_len + buf.length ∧
        st2.accumulate_buf_size =
          (if st.accumulated_len + buf.length > st.accumulate_buf_size
           then growSize (st.accumulated_len + buf.length)
                  (max st.accumulate_buf_size 128)
           else st.accumulate_buf_size) ∧
        st.accumulated_len + buf.length ≤ st2.accumulate_buf_size) := by
  have hnone : ∀ (hno : ¬ (st.accumulated = none ∧ can_alias = true)),
      ¬ (st.accumulated.isNone ∧ can_alias = true) := by
    rintro hno ⟨h1, h2⟩
    exact hno ⟨by
      cases heq : st.accumulated with
      | none => rfl
      | some a => rw [heq] at h1; simp at h1, h2⟩
  refine ⟨?_, ?_, ?_⟩
  · intro hn hca
    unfold accumulate_append
    rw [if_pos (by simp [hn, hca])]
  · intro hno hov
    unfold accumulate_append checked_add
    rw [if_neg (hnone hno), if_pos hov]
  · intro hno hov
    have happ : accumulate_append st buf buf.length can_alias =
        .ok (accumulate_append_body st buf buf.length
          (st.accumulated_len + buf.length)) := by
      unfold accumulate_append checked_add
      rw [if_neg (hnone hno), if_neg hov]
    obtain ⟨hc, ho, hl, hs, hle⟩ := accumulate_append_body_spec st buf hwf
      (by
        have := hwf.2.2.2.2
        unfold SIZE_MAX at *
        omega)
    exact ⟨_, happ, hc, ho, hl, hs, hle⟩

theorem c7_accumulate_append_witness :
    AccWF ⟨some (.aliased [1, 2, 3]), 3, [], 0⟩ ∧
    accumulate_append ⟨none, 0, [], 0⟩ [7, 8] 2 true =
      .ok ⟨some (.aliased [7, 8]), 2, [], 0⟩ ∧
    ∃ st2, accumulate_append ⟨some (.aliased [1, 2, 3]), 3, [], 0⟩ [9] 1
        false = .ok st2 ∧
      accContents st2 = [1, 2, 3, 9] ∧ st2.accumulated = some .owned ∧
      st2.accumulated_len = 4 ∧ st2.accumulate_buf_size = 128 := by
  have hwfA : AccWF ⟨some (.aliased [1, 2, 3]), 3, [], 0⟩ := by
    refine ⟨rfl, by simp, ?_, by simp, by decide⟩
    intro bs h
    simp only [Option.some.injEq, AccPtr.aliased.injEq] at h
    simp [← h]
  have hwf0 : AccWF ⟨none, 0, [], 0⟩ := by
    refine ⟨rfl, fun _ => rfl, ?_, by simp, by decide⟩
    intro bs h
    simp at h
  have h1 := (c7_accumulate_append ⟨none, 0, [], 0⟩ [7, 8] true hwf0).1
    rfl rfl
  have h3 := (c7_accumulate_append ⟨some (.aliased [1, 2, 3]), 3, [], 0⟩
      [9] false hwfA).2.2
    (by rintro ⟨_, h⟩; simp at h)
    (by show ¬ (SIZE_MAX - 3 < 1); unfold SIZE_MAX; omega)
  obtain ⟨st2, happ, hc, ho, hl, hs, _⟩ := h3
  refine ⟨hwfA, h1, st2, happ, by rw [hc]; rfl, ho, hl, ?_⟩
  rw [hs, if_pos (by decide)]
  show growSize 4 (max 0 128) = 128
  unfold growSize
  rw [dif_neg (by decide)]
  decide

/-! ## Multi-part text and input capture (parser.rl lines 391-519)

Pointers into the current input buffer are modelled as offsets; the
suspend_capture sentinel address is a distinguished constructor. -/

/-- p->multipart_state. -/
inductive MPState
  | inactive
  | accumulate
  | pushEagerly
  deriving DecidableEq, Repr

/-- The capture pointer: an offset into the current input buffer, or the
address of the suspend_capture sentinel recorded across a buffer seam. -/
inductive CapPtr
  | idx (i : Nat)
  | suspended
  deriving DecidableEq, Repr

/-- One upb_sink_putstring call: selector, payload, and whether the
bufhandle was forwarded (can_alias). -/
structure PutStr where
  sel : Nat
  bytes : List Nat
  aliased : Bool
  deriving DecidableEq, Repr

inductive CapErr
  | internalInactive   -- "Internal error: unexpected state MULTIPART_INACTIVE"
  | integerOverflow    -- "Integer overflow."
  deriving DecidableEq, Repr

/-- The multipart and capture fields of upb_json_parser, together with the
observable putstring events and reported errors. -/
structure CapSt where
  acc : AccSt
  multipart : MPState
  string_selector : Nat
  capture : Option CapPtr
  events : List PutStr
  errors : List CapErr
  deriving Repr

/-- multipart_startaccum (assertions are release no-ops, so the accumulator
is NOT cleared here). -/
def multipart_startaccum (p : CapSt) : CapSt :=
  { p with multipart := .accumulate }

def multipart_start (p : CapSt) (sel : Nat) : CapSt :=
  { p with multipart := .pushEagerly, string_selector := sel }

/-- multipart_text: dispatch a text segment according to the multipart
state.  Returns the C bool result together with the updated parser. -/
def multipart_text (p : CapSt) (buf : List Nat) (can_alias : Bool) :
    Bool × CapSt :=
  match p.multipart with
  | .inactive => (false, { p with errors := p.errors ++ [.internalInactive] })
  | .accumulate =>
      match accumulate_append p.acc buf buf.length can_alias with
      | .ok a => (true, { p with acc := a })
      | .error _ =>
          (false, { p with errors := p.errors ++ [.integerOverflow] })
  | .pushEagerly =>
      (true, { p with events :=
        p.events ++ [⟨p.string_selector, buf, can_alias⟩] })

def accumulate_clear (st : AccSt) : AccSt :=
  { st with accumulated := none, accumulated_len := 0 }

def multipart_end (p : CapSt) : CapSt :=
  { p with multipart := .inactive, acc := accumulate_clear p.acc }

/-- capture_begin: record the capture start offset. -/
def capture_begin (p : CapSt) (ptr : Nat) : CapSt :=
  { p with capture := some (.idx ptr) }

/-- The input region between the capture start and the current position. -/
def sliceBetween (buf : List Nat) (c ptr : Nat) : List Nat :=
  (buf.drop c).take (ptr - c)

/-- capture_end: forward the captured slice with can_alias=true and clear
the capture on success.  (Calling it without an active offset capture only
trips a release no-op assertion in C; that unreachable case is modelled as
failure without effect.) -/
def capture_end (p : CapSt) (buf : List Nat) (ptr : Nat) : Bool × CapSt :=
  match p.capture with
  | some (.idx c) =>
      let r := multipart_text p (sliceBetween buf c ptr) true
      if r.1 then (true, { r.2 with capture := none }) else (false, r.2)
  | _ => (false, p)

/-- capture_suspend (parser.rl lines 495-512): at a buffer seam, forward a
pending capture with can_alias=false; on success record the
suspend_capture sentinel, on failure rewind the input position to the
capture start.  Returns the updated parser and the new input position.
(The sentinel case is unreachable here: capture_resume replaces the
sentinel with an offset before any parsing runs.) -/
def capture_suspend (p : CapSt) (buf : List Nat) (ptr : Nat) :
    CapSt × Nat :=
  match p.capture with
  | none => (p, ptr)
  | some .suspended => (p, ptr)
  | some (.idx c) =>
      let r := multipart_text p (sliceBetween buf c ptr) false
      if r.1 then ({ r.2 with capture := some .suspended }, ptr)
      else (r.2, c)

/-- capture_resume: at the start of a new buffer, re-anchor a pending
capture at the given position (the start of the new buffer). -/
def capture_resume (p : CapSt) (ptr : Nat) : CapSt :=
  match p.capture with
  | none => p
  | some _ => { p with capture := some (.idx ptr) }

theorem multipart_text_accum_eq (p : CapSt) (s : List Nat) (ca : Bool)
    (hmp : p.multipart = .accumulate) :
    multipart_text p s ca =
      match accumulate_append p.acc s s.length ca with
      | .ok a => (true, { p with acc := a })
      | .error _ =>
          (false, { p with errors := p.errors ++ [.integerOverflow] }) := by
  unfold multipart_text
  rw [hmp]

/-- In accumulate mode, forwarding a slice that does not overflow the
combined length succeeds. -/
theorem multipart_text_accum_true (p : CapSt) (s : List Nat)
    (hmp : p.multipart = .accumulate)
    (hov : ¬ (SIZE_MAX - p.acc.accumulated_len < s.length)) :
    (multipart_text p s false).1 = true := by
  rw [multipart_text_accum_eq p s false hmp]
  unfold accumulate_append checked_add
  rw [if_neg (by simp), if_neg hov]

/-- In accumulate mode a successful forward with can_alias=false always
lands in the owned buffer (never aliases the input) and appends the slice
to the accumulated contents. -/
theorem multipart_text_accum_spec (p : CapSt) (s : List Nat)
    (hmp : p.multipart = .accumulate) (hwf : AccWF p.acc)
    (hsucc : (multipart_text p s false).1 = true) :
    accContents (multipart_text p s false).2.acc = accContents p.acc ++ s ∧
    (multipart_text p s false).2.acc.accumulated = some .owned := by
  rw [multipart_text_accum_eq p s false hmp] at hsucc ⊢
  cases happ : accumulate_append p.acc s s.length false with
  | error e => rw [happ] at hsucc; simp at hsucc
  | ok a =>
    show accContents a = accContents p.acc ++ s ∧ a.accumulated = some .owned
    unfold accumulate_append at happ
    rw [if_neg (by simp)] at happ
    unfold checked_add at happ
    by_cases hov : SIZE_MAX - p.acc.accumulated_len < s.length
    · rw [if_pos hov] at happ
      simp at happ
    · rw [if_neg hov] at happ
      have hmax : p.acc.accumulated_len + s.length ≤ SIZE_MAX := by
        have := hwf.2.2.2.2
        unfold SIZE_MAX at *
        omega
      obtain ⟨hc, ho, _, _, _⟩ := accumulate_append_body_spec p.acc s hwf hmax
      have ha : a = accumulate_append_body p.acc s s.length
          (p.acc.accumulated_len + s.length) := by
        simp only [] at happ
        cases happ
        rfl
      rw [ha]
      exact ⟨hc, ho⟩

/-- A failed multipart_text leaves the accumulator, the events and the
capture pointer untouched (it only records an error). -/
theorem multipart_text_fail_frame (p : CapSt) (s : List Nat) (ca : Bool) :
    (multipart_text p s ca).2.acc = p.acc ∨
      (multipart_text p s ca).1 = true := by
  unfold multipart_text
  cases p.multipart with
  | inactive => exact .inl rfl
  | accumulate =>
    cases accumulate_append p.acc s s.length ca with
    | ok a => exact .inr rfl
    | error e => exact .inl rfl
  | pushEagerly => exact .inr rfl

theorem multipart_text_fail_same (p : CapSt) (s : List Nat) (ca : Bool)
    (hfail : (multipart_text p s ca).1 = false) :
    (multipart_text p s ca).2.acc = p.acc ∧
    (multipart_text p s ca).2.events = p.events ∧
    (multipart_text p s ca).2.capture = p.capture := by
  unfold multipart_text at hfail ⊢
  cases hm : p.multipart with
  | inactive => exact ⟨rfl, rfl, rfl⟩
  | accumulate =>
    rw [hm] at hfail
    cases happ : accumulate_append p.acc s s.length ca with
    | ok a => rw [happ] at hfail; simp at hfail
    | error e => exact ⟨rfl, rfl, rfl⟩
  | pushEagerly =>
    rw [hm] at hfail
    simp at hfail

/-- C8: at a buffer seam with an active capture, capture_suspend forwards
the partial slice with can_alias=false — in accumulate mode the resulting
accumulator therefore owns a copy of old contents plus slice and never
aliases the dying buffer — and records the suspend sentinel without moving
the input position; capture_resume then re-anchors the capture at the
start of the next buffer.  If the forward fails, the returned input
position is rewound to the capture start (so the consumed count excludes
the partial token), the capture offset and parser data are unchanged, and
the next call re-scans the token. -/
theorem c8_capture_suspend (p : CapSt) (buf : List Nat) (ptr c : Nat)
    (hcap : p.capture = some (.idx c)) (hwf : AccWF p.acc) :
    ((multipart_text p (sliceBetween buf c ptr) false).1 = true →
      capture_suspend p buf ptr =
        ({ (multipart_text p (sliceBetween buf c ptr) false).2 with
            capture := some .suspended }, ptr) ∧
      (p.multipart = .accumulate →
        accContents (capture_suspend p buf ptr).1.acc =
          accContents p.acc ++ sliceBetween buf c ptr ∧
        (capture_suspend p buf ptr).1.acc.accumulated = some .owned) ∧
      capture_resume (capture_suspend p buf ptr).1 0 =
        { (multipart_text p (sliceBetween buf c ptr) false).2 with
            capture := some (.idx 0) }) ∧
    ((multipart_text p (sliceBetween buf c ptr) false).1 = false →
      (capture_suspend p buf ptr).2 = c ∧
      (capture_suspend p buf ptr).1.capture = some (.idx c) ∧
      (capture_suspend p buf ptr).1.events = p.events ∧
      (capture_suspend p buf ptr).1.acc = p.acc) := by
  have hu2 : capture_suspend p buf ptr =
      (if (multipart_text p (sliceBetween buf c ptr) false).1 = true
       then ({ (multipart_text p (sliceBetween buf c ptr) false).2 with
               capture := some .suspended }, ptr)
       else ((multipart_text p (sliceBetween buf c ptr) false).2, c)) := by
    unfold capture_suspend
    rw [hcap]
  constructor
  · intro hsucc
    rw [hu2, if_pos hsucc]
    refine ⟨rfl, ?_, ?_⟩
    · intro hmp
      exact multipart_text_accum_spec p _ hmp hwf hsucc
    · rfl
  · intro hfail
    rw [hu2, if_neg (by rw [hfail]; simp)]
    obtain ⟨ha, he, hcp⟩ :=
      multipart_text_fail_same p (sliceBetween buf c ptr) false hfail
    refine ⟨rfl, ?_, he, ha⟩
    show (multipart_text p (sliceBetween buf c ptr) false).2.capture =
      some (.idx c)
    rw [hcp, hcap]

/-- A capture suspended mid-token in accumulate mode over the buffer
"hi". -/
def capSuccExample : CapSt :=
  ⟨⟨none, 0, [], 0⟩, .accumulate, 0, some (.idx 0), [], []⟩

/-- A capture suspended while multipart is inactive: the forward fails. -/
def capFailExample : CapSt :=
  ⟨⟨none, 0, [], 0⟩, .inactive, 0, some (.idx 0), [], []⟩

theorem c8_capture_suspend_witness :
    ((capture_suspend capSuccExample [104, 105] 2).1.capture =
        some .suspended ∧
      (capture_suspend capSuccExample [104, 105] 2).2 = 2 ∧
      accContents (capture_suspend capSuccExample [104, 105] 2).1.acc =
        [104, 105] ∧
      (capture_suspend capSuccExample [104, 105] 2).1.acc.accumulated =
        some .owned ∧
      (capture_resume
        (capture_suspend capSuccExample [104, 105] 2).1 0).capture =
        some (.idx 0)) ∧
    ((capture_suspend capFailExample [104, 105] 2).2 = 0 ∧
      (capture_suspend capFailExample [104, 105] 2).1.capture =
        some (.idx 0)) := by
  have hwf0 : AccWF ⟨none, 0, [], 0⟩ := by
    refine ⟨rfl, fun _ => rfl, ?_, by simp, by decide⟩
    intro bs h
    simp at h
  have hS := c8_capture_suspend capSuccExample [104, 105] 2 0 rfl hwf0
  have hsucc : (multipart_text capSuccExample
      (sliceBetween [104, 105] 0 2) false).1 = true :=
    multipart_text_accum_true capSuccExample _ rfl (by decide)
  obtain ⟨heq, hacc, hres⟩ := hS.1 hsucc
  obtain ⟨hcontents, howned⟩ := hacc rfl
  have hF := c8_capture_suspend capFailExample [104, 105] 2 0 rfl hwf0
  obtain ⟨hfc, hfcap, _, _⟩ := hF.2 rfl
  refine ⟨⟨?_, ?_, ?_, howned, ?_⟩, hfc, hfcap⟩
  · rw [heq]
  · rw [heq]
  · rw [hcontents]
    rfl
  · rw [hres]

/-! ## JSON name table construction (parser.rl lines 1340-1387 and 1423-1442)

upb_json_parsermethod_new initializes an empty name_tables inttable and
calls the recursive add_jsonname_table on the root message descriptor.
Message descriptors are schema indices; m->name_tables is a list of
(descriptor, string table) pairs in insertion order.  The C recursion is
bounded only by the memoization check, so the model takes a fuel
parameter; the claim theorem shows the result is fuel-independent beyond
an explicit bound, which is the termination statement. -/

/-- The field list of a message descriptor (empty for an out-of-range
index, over which the iteration is vacuous). -/
def msgFields (sc : Schema) (md : Nat) : List FieldDef :=
  ((sc.msgs.get? md).map (·.fields)).getD []

/-- upb_inttable_lookupptr(&m->name_tables, md, NULL). -/
def hasTable (nt : List (Nat × List (List Nat × FieldDef))) (md : Nat) :
    Bool :=
  nt.any (·.1 = md)

/-- The descriptor keys of the name_tables table, in insertion order. -/
def ntKeys (nt : List (Nat × List (List Nat × FieldDef))) : List Nat :=
  nt.map (·.1)

/-- The string-table entries inserted for one field: the JSON name, and
the raw field name when it differs (strcmp(buf, name) != 0). -/
def fieldNameEntries (f : FieldDef) : List (List Nat × FieldDef) :=
  (f.jsonName, f) :: (if f.name ≠ f.jsonName then [(f.name, f)] else [])

/-- upb_strtable_insert into the table registered for md. -/
def tableInsert (nt : List (Nat × List (List Nat × FieldDef))) (md : Nat)
    (es : List (List Nat × FieldDef)) :
    List (Nat × List (List Nat × FieldDef)) :=
  nt.map (fun e => if e.1 = md then (e.1, e.2 ++ es) else e)

/-- The field loop of add_jsonname_table, parameterized by the recursive
call used for sub-message fields. -/
def addFieldsWith
    (step : List (Nat × List (List Nat × FieldDef)) → Nat →
      List (Nat × List (List Nat × FieldDef))) (md : Nat) :
    List (Nat × List (List Nat × FieldDef)) → List FieldDef →
      List (Nat × List (List Nat × FieldDef))
  | nt, [] => nt
  | nt, f :: rest =>
      let nt1 := tableInsert nt md (fieldNameEntries f)
      let nt2 := if fieldIsSubmsg f then step nt1 (fieldMsgSubdef f) else nt1
      addFieldsWith step md nt2 rest

/-- add_jsonname_table: return early when md already has a table,
otherwise register an empty table for md and run the field loop, recursing
into sub-message descriptors. -/
def add_jsonname_table (sc : Schema) :
    Nat → List (Nat × List (List Nat × FieldDef)) → Nat →
      List (Nat × List (List Nat × FieldDef))
  | 0, nt, _ => nt
  | fuel + 1, nt, md =>
      if hasTable nt md then nt
      else
        addFieldsWith (fun nt2 md2 => add_jsonname_table sc fuel nt2 md2) md
          (nt ++ [(md, [])]) (msgFields sc md)

/-- The name_tables built by upb_json_parsermethod_new: the recursion
started on the root descriptor with an empty table. -/
def parsermethod_new_tables (sc : Schema) (md : Nat) (fuel : Nat) :
    List (Nat × List (List Nat × FieldDef)) :=
  add_jsonname_table sc fuel [] md

/-- All sub-message descriptor references appearing in the schema. -/
def allSubmsgRefs (sc : Schema) : List Nat :=
  (sc.msgs.flatMap (·.fields)).filterMap
    (fun f => if fieldIsSubmsg f then some (fieldMsgSubdef f) else none)

/-- One hop of the descriptor reference graph: b is the sub-message
descriptor of some field of a. -/
def MsgEdge (sc : Schema) (a b : Nat) : Prop :=
  ∃ f, f ∈ msgFields sc a ∧ fieldIsSubmsg f = true ∧ fieldMsgSubdef f = b

/-- Reachability in the descriptor reference graph. -/
def Reach (sc : Schema) : Nat → Nat → Prop :=
  Relation.ReflTransGen (MsgEdge sc)

theorem subdef_mem_allSubmsgRefs (sc : Schema) (b : Nat) (f : FieldDef)
    (hf : f ∈ msgFields sc b) (hs : fieldIsSubmsg f = true) :
    fieldMsgSubdef f ∈ allSubmsgRefs sc := by
  unfold msgFields at hf
  cases hg : sc.msgs.get? b with
  | none => rw [hg] at hf; simp at hf
  | some m =>
    rw [hg] at hf
    simp at hf
    unfold allSubmsgRefs
    rw [List.mem_filterMap]
    refine ⟨f, ?_, by rw [if_pos hs]⟩
    rw [List.mem_flatMap]
    exact ⟨m, List.get?_mem hg, hf⟩

theorem ntKeys_tableInsert (nt : List (Nat × List (List Nat × FieldDef)))
    (md : Nat) (es : List (List Nat × FieldDef)) :
    ntKeys (tableInsert nt md es) = ntKeys nt := by
  unfold ntKeys tableInsert
  rw [List.map_map]
  apply List.map_congr_left
  intro e _
  by_cases h : e.1 = md <;> simp [h]

theorem ntKeys_append (nt nt2 : List (Nat × List (List Nat × FieldDef))) :
    ntKeys (nt ++ nt2) = ntKeys nt ++ ntKeys nt2 := by
  unfold ntKeys
  rw [List.map_append]

theorem hasTable_iff (nt : List (Nat × List (List Nat × FieldDef)))
    (md : Nat) : hasTable nt md = true ↔ md ∈ ntKeys nt := by
  unfold hasTable ntKeys
  rw [List.any_eq_true]
  constructor
  · rintro ⟨e, he, hd⟩
    rw [List.mem_map]
    exact ⟨e, he, by simpa using hd⟩
  · intro h
    rw [List.mem_map] at h
    obtain ⟨e, he, hd⟩ := h
    exact ⟨e, he, by simpa using hd⟩

theorem ntKeys_mono_addFieldsWith
    (step : List (Nat × List (List Nat × FieldDef)) → Nat →
      List (Nat × List (List Nat × FieldDef)))
    (hstep : ∀ nt m x, x ∈ ntKeys nt → x ∈ ntKeys (step nt m)) (md : Nat) :
    ∀ fs nt x, x ∈ ntKeys nt → x ∈ ntKeys (addFieldsWith step md nt fs) := by
  intro fs
  induction fs with
  | nil => intro nt x hx; exact hx
  | cons f rest ih =>
    intro nt x hx
    show x ∈ ntKeys (addFieldsWith step md
      (if fieldIsSubmsg f then
        step (tableInsert nt md (fieldNameEntries f)) (fieldMsgSubdef f)
       else tableInsert nt md (fieldNameEntries f)) rest)
    apply ih
    have h1 : x ∈ ntKeys (tableInsert nt md (fieldNameEntries f)) := by
      rw [ntKeys_tableInsert]; exact hx
    by_cases hsub : fieldIsSubmsg f
    · rw [if_pos hsub]
      exact hstep _ _ _ h1
    · rw [if_neg hsub]
      exact h1

theorem ntKeys_mono_add (sc : Schema) :
    ∀ fuel nt md x, x ∈ ntKeys nt →
      x ∈ ntKeys (add_jsonname_table sc fuel nt md) := by
  intro fuel
  induction fuel with
  | zero => intro nt md x hx; exact hx
  | succ n ih =>
    intro nt md x hx
    unfold add_jsonname_table
    by_cases ht : hasTable nt md
    · rw [if_pos ht]; exact hx
    · rw [if_neg ht]
      apply ntKeys_mono_addFieldsWith _ (fun nt2 m2 x2 h2 => ih nt2 m2 x2 h2)
      rw [ntKeys_append]
      exact List.mem_append_left _ hx

theorem ntKeys_nodup_addFieldsWith
    (step : List (Nat × List (List Nat × FieldDef)) → Nat →
      List (Nat × List (List Nat × FieldDef)))
    (hstep : ∀ nt m, (ntKeys nt).Nodup → (ntKeys (step nt m)).Nodup)
    (md : Nat) :
    ∀ fs nt, (ntKeys nt).Nodup →
      (ntKeys (addFieldsWith step md nt fs)).Nodup := by
  intro fs
  induction fs with
  | nil => intro nt h; exact h
  | cons f rest ih =>
    intro nt h
    show (ntKeys (addFieldsWith step md
      (if fieldIsSubmsg f then
        step (tableInsert nt md (fieldNameEntries f)) (fieldMsgSubdef f)
       else tableInsert nt md (fieldNameEntries f)) rest)).Nodup
    apply ih
    have h1 : (ntKeys (tableInsert nt md (fieldNameEntries f))).Nodup := by
      rw [ntKeys_tableInsert]; exact h
    by_cases hsub : fieldIsSubmsg f
    · rw [if_pos hsub]
      exact hstep _ _ h1
    · rw [if_neg hsub]
      exact h1

theorem ntKeys_nodup_add (sc : Schema) :
    ∀ fuel nt md, (ntKeys nt).Nodup →
      (ntKeys (add_jsonname_table sc fuel nt md)).Nodup := by
  intro fuel
  induction fuel with
  | zero => intro nt md h; exact h
  | succ n ih =>
    intro nt md h
    unfold add_jsonname_table
    by_cases ht : hasTable nt md
    · rw [if_pos ht]; exact h
    · rw [if_neg ht]
      apply ntKeys_nodup_addFieldsWith _ (fun nt2 m2 h2 => ih nt2 m2 h2)
      rw [ntKeys_append]
      have hmd : md ∉ ntKeys nt := by
        intro hmem
        exact ht ((hasTable_iff nt md).mpr hmem)
      rw [show ntKeys [(md, [])] = [md] from rfl]
      exact List.Nodup.append h (List.nodup_singleton md)
        (by simpa [List.disjoint_singleton] using hmd)

theorem sound_addFieldsWith (sc : Schema)
    (step : List (Nat × List (List Nat × FieldDef)) → Nat →
      List (Nat × List (List Nat × FieldDef)))
    (hstep : ∀ nt m b, b ∈ ntKeys (step nt m) →
      b ∈ ntKeys nt ∨ Reach sc m b) (md : Nat) :
    ∀ fs nt b, (∀ f, f ∈ fs → f ∈ msgFields sc md) →
      b ∈ ntKeys (addFieldsWith step md nt fs) →
      b ∈ ntKeys nt ∨ Reach sc md b := by
  intro fs
  induction fs with
  | nil => intro nt b _ hb; exact .inl hb
  | cons f rest ih =>
    intro nt b hsub hb
    have hb2 := ih _ b (fun g hg => hsub g (List.mem_cons_of_mem f hg)) hb
    rcases hb2 with hb2 | hb2
    · by_cases hsubf : fieldIsSubmsg f
      · rw [if_pos hsubf] at hb2
        rcases hstep _ _ _ hb2 with hb3 | hb3
        · rw [ntKeys_tableInsert] at hb3
          exact .inl hb3
        · refine .inr (Relation.ReflTransGen.head ?_ hb3)
          exact ⟨f, hsub f (List.mem_cons_self f rest), hsubf, rfl⟩
      · rw [if_neg hsubf, ntKeys_tableInsert] at hb2
        exact .inl hb2
    · exact .inr hb2

theorem sound_add (sc : Schema) :
    ∀ fuel nt md b, b ∈ ntKeys (add_jsonname_table sc fuel nt md) →
      b ∈ ntKeys nt ∨ Reach sc md b := by
  intro fuel
  induction fuel with
  | zero => intro nt md b hb; exact .inl hb
  | succ n ih =>
    intro nt md b hb
    unfold add_jsonname_table at hb
    by_cases ht : hasTable nt md
    · rw [if_pos ht] at hb; exact .inl hb
    · rw [if_neg ht] at hb
      have := sound_addFieldsWith sc _
        (fun nt2 m2 b2 h2 => ih nt2 m2 b2 h2) md (msgFields sc md) _ b
        (fun _ hg => hg) hb
      rcases this with h | h
      · rw [ntKeys_append] at h
        rcases List.mem_append.mp h with h | h
        · exact .inl h
        · simp only [ntKeys, List.map_cons, List.map_nil,
            List.mem_singleton] at h
          exact .inr (h ▸ Relation.ReflTransGen.refl)
      · exact .inr h

/-- Count of candidate descriptors that do not yet have a table. -/
def missCount (C : List Nat)
    (nt : List (Nat × List (List Nat × FieldDef))) : Nat :=
  (C.filter (fun m => ! hasTable nt m)).length

theorem length_filter_mono {α : Type} (l : List α) (p q : α → Bool)
    (h : ∀ a, p a = true → q a = true) :
    (l.filter p).length ≤ (l.filter q).length := by
  induction l with
  | nil => exact Nat.le_refl 0
  | cons a t ih =>
    by_cases hp : p a = true
    · rw [List.filter_cons_of_pos hp, List.filter_cons_of_pos (h a hp)]
      simpa using ih
    · rw [List.filter_cons_of_neg (by simpa using hp)]
      by_cases hq : q a = true
      · rw [List.filter_cons_of_pos hq]
        exact Nat.le_succ_of_le ih
      · rw [List.filter_cons_of_neg (by simpa using hq)]
        exact ih

theorem length_filter_lt {α : Type} (l : List α) (p q : α → Bool)
    (h : ∀ a, p a = true → q a = true) (a : α) (ha : a ∈ l)
    (hpa : p a = false) (hqa : q a = true) :
    (l.filter p).length < (l.filter q).length := by
  induction l with
  | nil => simp at ha
  | cons b t ih =>
    rcases List.mem_cons.mp ha with rfl | hat
    · rw [List.filter_cons_of_neg (by simp [hpa]),
        List.filter_cons_of_pos hqa]
      exact Nat.lt_succ_of_le (length_filter_mono t p q h)
    · by_cases hp : p b = true
      · rw [List.filter_cons_of_pos hp, List.filter_cons_of_pos (h b hp)]
        simpa using ih hat
      · rw [List.filter_cons_of_neg (by simpa using hp)]
        by_cases hq : q b = true
        · rw [List.filter_cons_of_pos hq]
          exact Nat.lt_succ_of_le (Nat.le_of_lt (ih hat))
        · rw [List.filter_cons_of_neg (by simpa using hq)]
          exact ih hat

theorem missCount_le (C : List Nat)
    (nt nt2 : List (Nat × List (List Nat × FieldDef)))
    (h : ∀ x, x ∈ ntKeys nt → x ∈ ntKeys nt2) :
    missCount C nt2 ≤ missCount C nt := by
  apply length_filter_mono
  intro m hm
  simp only [Bool.not_eq_true'] at hm ⊢
  cases htm : hasTable nt m with
  | false => rfl
  | true =>
    have h2 := (hasTable_iff nt2 m).mpr (h m ((hasTable_iff nt m).mp htm))
    rw [h2] at hm
    exact Bool.noConfusion hm

theorem missCount_lt_of_new (C : List Nat)
    (nt nt2 : List (Nat × List (List Nat × FieldDef))) (md : Nat)
    (hmem : md ∈ C) (hmono : ∀ x, x ∈ ntKeys nt → x ∈ ntKeys nt2)
    (hold : hasTable nt md = false) (hnew : hasTable nt2 md = true) :
    missCount C nt2 < missCount C nt := by
  apply length_filter_lt C _ _ ?_ md hmem (by simp [hnew]) (by simp [hold])
  intro m hm
  simp only [Bool.not_eq_true'] at hm ⊢
  cases htm : hasTable nt m with
  | false => rfl
  | true =>
    have h2 := (hasTable_iff nt2 m).mpr (hmono m ((hasTable_iff nt m).mp htm))
    rw [h2] at hm
    exact Bool.noConfusion hm

theorem addFieldsWith_cons
    (step : List (Nat × List (List Nat × FieldDef)) → Nat →
      List (Nat × List (List Nat × FieldDef)))
    (md : Nat) (nt : List (Nat × List (List Nat × FieldDef)))
    (f : FieldDef) (rest : List FieldDef) :
    addFieldsWith step md nt (f :: rest) =
      addFieldsWith step md
        (if fieldIsSubmsg f then
          step (tableInsert nt md (fieldNameEntries f)) (fieldMsgSubdef f)
         else tableInsert nt md (fieldNameEntries f)) rest := rfl

theorem hasTable_congr (nt nt2 : List (Nat × List (List Nat × FieldDef)))
    (h : ntKeys nt = ntKeys nt2) (m : Nat) :
    hasTable nt m = hasTable nt2 m := by
  have h1 := hasTable_iff nt m
  have h2 := hasTable_iff nt2 m
  rw [h] at h1
  cases hv : hasTable nt2 m with
  | false =>
    cases hw : hasTable nt m with
    | false => rfl
    | true =>
      have := h2.mpr (h1.mp hw)
      rw [hv] at this
      exact Bool.noConfusion this
  | true => exact h1.mpr (h2.mp hv)

theorem missCount_congr (C : List Nat)
    (nt nt2 : List (Nat × List (List Nat × FieldDef)))
    (h : ntKeys nt = ntKeys nt2) : missCount C nt = missCount C nt2 := by
  unfold missCount
  rw [List.filter_congr]
  intro m _
  rw [hasTable_congr nt nt2 h m]

theorem missCount_pos (C : List Nat)
    (nt : List (Nat × List (List Nat × FieldDef))) (md : Nat)
    (hmd : md ∈ C) (ht : hasTable nt md = false) : 1 ≤ missCount C nt := by
  unfold missCount
  exact List.length_pos_of_mem
    (List.mem_filter.mpr ⟨hmd, by simp [ht]⟩)

/-- The field-loop invariant for completeness: after processing fs, every
sub-message reference of fs has a table, and every newly created table (of
this loop or its recursive calls) is closed under sub-message references
in the final result. -/
theorem addFields_complete (sc : Schema) (C : List Nat) (md : Nat)
    (step : List (Nat × List (List Nat × FieldDef)) → Nat →
      List (Nat × List (List Nat × FieldDef)))
    (hmono : ∀ nt m x, x ∈ ntKeys nt → x ∈ ntKeys (step nt m))
    (K : Nat)
    (hstep : ∀ nt m, m ∈ C → missCount C nt ≤ K →
      m ∈ ntKeys (step nt m) ∧
      (∀ b, b ∈ ntKeys (step nt m) → b ∉ ntKeys nt →
        ∀ f, f ∈ msgFields sc b → fieldIsSubmsg f = true →
          fieldMsgSubdef f ∈ ntKeys (step nt m))) :
    ∀ fs nt, (∀ f, f ∈ fs → fieldIsSubmsg f = true → fieldMsgSubdef f ∈ C) →
      missCount C nt ≤ K →
      (∀ f, f ∈ fs → fieldIsSubmsg f = true →
        fieldMsgSubdef f ∈ ntKeys (addFieldsWith step md nt fs)) ∧
      (∀ b, b ∈ ntKeys (addFieldsWith step md nt fs) → b ∉ ntKeys nt →
        ∀ f, f ∈ msgFields sc b → fieldIsSubmsg f = true →
          fieldMsgSubdef f ∈ ntKeys (addFieldsWith step md nt fs)) := by
  intro fs
  induction fs with
  | nil =>
    intro nt _ _
    refine ⟨fun f hf => absurd hf (List.not_mem_nil f), ?_⟩
    intro b hb hbn
    exact absurd hb hbn
  | cons f rest ih =>
    intro nt hrefs hK
    have hkins : ntKeys (tableInsert nt md (fieldNameEntries f)) =
        ntKeys nt := ntKeys_tableInsert nt md (fieldNameEntries f)
    have hK1 : missCount C (tableInsert nt md (fieldNameEntries f)) ≤ K :=
      Nat.le_trans (Nat.le_of_eq (missCount_congr C _ _ hkins)) hK
    by_cases hsub : fieldIsSubmsg f
    · rw [addFieldsWith_cons, if_pos hsub]
      have hdC : fieldMsgSubdef f ∈ C :=
        hrefs f (List.mem_cons_self f rest) hsub
      have hstep1 := hstep (tableInsert nt md (fieldNameEntries f))
        (fieldMsgSubdef f) hdC hK1
      have hmono2 : ∀ x, x ∈ ntKeys nt →
          x ∈ ntKeys (step (tableInsert nt md (fieldNameEntries f))
            (fieldMsgSubdef f)) := by
        intro x hx
        apply hmono
        rw [hkins]
        exact hx
      have hK2 : missCount C (step (tableInsert nt md (fieldNameEntries f))
          (fieldMsgSubdef f)) ≤ K :=
        Nat.le_trans (missCount_le C nt _ hmono2) hK
      have ihr := ih (step (tableInsert nt md (fieldNameEntries f))
          (fieldMsgSubdef f))
        (fun g hg hs => hrefs g (List.mem_cons_of_mem f hg) hs) hK2
      refine ⟨?_, ?_⟩
      · intro g hg hsg
        rcases List.mem_cons.mp hg with rfl | hgr
        · exact ntKeys_mono_addFieldsWith step hmono md rest _ _ hstep1.1
        · exact ihr.1 g hgr hsg
      · intro b hb hbn
        by_cases hb2 : b ∈ ntKeys (step (tableInsert nt md
            (fieldNameEntries f)) (fieldMsgSubdef f))
        · have hbn1 : b ∉ ntKeys (tableInsert nt md (fieldNameEntries f)) := by
            rw [hkins]
            exact hbn
          intro f2 hf2 hs2
          exact ntKeys_mono_addFieldsWith step hmono md rest _ _
            (hstep1.2 b hb2 hbn1 f2 hf2 hs2)
        · exact ihr.2 b hb hb2
    · rw [addFieldsWith_cons, if_neg hsub]
      have ihr := ih (tableInsert nt md (fieldNameEntries f))
        (fun g hg hs => hrefs g (List.mem_cons_of_mem f hg) hs) hK1
      refine ⟨?_, ?_⟩
      · intro g hg hsg
        rcases List.mem_cons.mp hg with rfl | hgr
        · exact absurd hsg (by simpa using hsub)
        · exact ihr.1 g hgr hsg
      · intro b hb hbn
        have hbn1 : b ∉ ntKeys (tableInsert nt md (fieldNameEntries f)) := by
          rw [hkins]
          exact hbn
        exact ihr.2 b hb hbn1

/-- Completeness of the memoized DFS: with enough fuel, md receives a
table and every table created by this call is closed under sub-message
references. -/
theorem add_complete (sc : Schema) (C : List Nat)
    (hC : ∀ b f, f ∈ msgFields sc b → fieldIsSubmsg f = true →
      fieldMsgSubdef f ∈ C) :
    ∀ fuel nt md, md ∈ C → missCount C nt + 1 ≤ fuel →
      md ∈ ntKeys (add_jsonname_table sc fuel nt md) ∧
      (∀ b, b ∈ ntKeys (add_jsonname_table sc fuel nt md) → b ∉ ntKeys nt →
        ∀ f, f ∈ msgFields sc b → fieldIsSubmsg f = true →
          fieldMsgSubdef f ∈ ntKeys (add_jsonname_table sc fuel nt md)) := by
  intro fuel
  induction fuel with
  | zero => intro nt md _ hfuel; omega
  | succ n ih =>
    intro nt md hmd hfuel
    by_cases ht : hasTable nt md
    · unfold add_jsonname_table
      rw [if_pos ht]
      refine ⟨(hasTable_iff nt md).mp ht, ?_⟩
      intro b hb hbn
      exact absurd hb hbn
    · have htf : hasTable nt md = false := by
        cases hv : hasTable nt md
        · rfl
        · exact absurd hv ht
      have hmono1 : ∀ x, x ∈ ntKeys nt → x ∈ ntKeys (nt ++ [(md, [])]) := by
        intro x hx
        rw [ntKeys_append]
        exact List.mem_append_left _ hx
      have hnew : hasTable (nt ++ [(md, [])]) md = true := by
        rw [hasTable_iff, ntKeys_append]
        exact List.mem_append_right _ (by simp [ntKeys])
      have hlt : missCount C (nt ++ [(md, [])]) < missCount C nt :=
        missCount_lt_of_new C nt _ md hmd hmono1 htf hnew
      have hstep : ∀ nt2 m, m ∈ C →
          missCount C nt2 ≤ missCount C (nt ++ [(md, [])]) →
          m ∈ ntKeys (add_jsonname_table sc n nt2 m) ∧
          (∀ b, b ∈ ntKeys (add_jsonname_table sc n nt2 m) →
            b ∉ ntKeys nt2 →
            ∀ f, f ∈ msgFields sc b → fieldIsSubmsg f = true →
              fieldMsgSubdef f ∈ ntKeys (add_jsonname_table sc n nt2 m)) := by
        intro nt2 m hm hle
        exact ih nt2 m hm (by omega)
      have hloop := addFields_complete sc C md
        (fun nt2 md2 => add_jsonname_table sc n nt2 md2)
        (fun nt2 m2 x hx => ntKeys_mono_add sc n nt2 m2 x hx)
        (missCount C (nt ++ [(md, [])])) hstep (msgFields sc md)
        (nt ++ [(md, [])]) (fun f hf hs => hC md f hf hs) (Nat.le_refl _)
      unfold add_jsonname_table
      rw [if_neg ht]
      have hmdin : md ∈ ntKeys (nt ++ [(md, [])]) := by
        rw [ntKeys_append]
        exact List.mem_append_right _ (by simp [ntKeys])
      refine ⟨?_, ?_⟩
      · exact ntKeys_mono_addFieldsWith _
          (fun nt2 m2 x hx => ntKeys_mono_add sc n nt2 m2 x hx) md
          (msgFields sc md) _ md hmdin
      · intro b hb hbn
        by_cases hb1 : b ∈ ntKeys (nt ++ [(md, [])])
        · rw [ntKeys_append] at hb1
          rcases List.mem_append.mp hb1 with hb1 | hb1
          · exact absurd hb1 hbn
          · have hbmd : b = md := by simpa [ntKeys] using hb1
            subst hbmd
            intro f2 hf2 hs2
            exact hloop.1 f2 hf2 hs2
        · exact hloop.2 b hb hb1

/-- The field loop is insensitive to which recursive call it uses, as long
as the two agree below the missing-count budget. -/
theorem addFields_congr (C : List Nat) (md : Nat)
    (step1 step2 : List (Nat × List (List Nat × FieldDef)) → Nat →
      List (Nat × List (List Nat × FieldDef)))
    (hmono : ∀ nt m x, x ∈ ntKeys nt → x ∈ ntKeys (step1 nt m))
    (K : Nat)
    (hagree : ∀ nt m, m ∈ C → missCount C nt ≤ K → step1 nt m = step2 nt m) :
    ∀ fs nt, (∀ f, f ∈ fs → fieldIsSubmsg f = true → fieldMsgSubdef f ∈ C) →
      missCount C nt ≤ K →
      addFieldsWith step1 md nt fs = addFieldsWith step2 md nt fs := by
  intro fs
  induction fs with
  | nil => intro nt _ _; rfl
  | cons f rest ih =>
    intro nt hrefs hK
    have hkins : ntKeys (tableInsert nt md (fieldNameEntries f)) =
        ntKeys nt := ntKeys_tableInsert nt md (fieldNameEntries f)
    have hK1 : missCount C (tableInsert nt md (fieldNameEntries f)) ≤ K :=
      Nat.le_trans (Nat.le_of_eq (missCount_congr C _ _ hkins)) hK
    rw [addFieldsWith_cons, addFieldsWith_cons]
    by_cases hsub : fieldIsSubmsg f
    · rw [if_pos hsub, if_pos hsub]
      have heq : step1 (tableInsert nt md (fieldNameEntries f))
          (fieldMsgSubdef f) =
          step2 (tableInsert nt md (fieldNameEntries f))
            (fieldMsgSubdef f) :=
        hagree _ _ (hrefs f (List.mem_cons_self f rest) hsub) hK1
      rw [← heq]
      apply ih
      · intro g hg hs
        exact hrefs g (List.mem_cons_of_mem f hg) hs
      · refine Nat.le_trans (missCount_le C nt _ ?_) hK
        intro x hx
        apply hmono
        rw [hkins]
        exact hx
    · rw [if_neg hsub, if_neg hsub]
      apply ih
      · intro g hg hs
        exact hrefs g (List.mem_cons_of_mem f hg) hs
      · exact hK1

/-- The DFS result does not depend on the fuel once it exceeds the number
of candidate descriptors still missing a table: this is the termination
argument for add_jsonname_table. -/
theorem add_fuel_congr (sc : Schema) (C : List Nat)
    (hC : ∀ b f, f ∈ msgFields sc b → fieldIsSubmsg f = true →
      fieldMsgSubdef f ∈ C) :
    ∀ k fuel1 fuel2 nt md, missCount C nt ≤ k → md ∈ C →
      missCount C nt + 1 ≤ fuel1 → missCount C nt + 1 ≤ fuel2 →
      add_jsonname_table sc fuel1 nt md =
        add_jsonname_table sc fuel2 nt md := by
  intro k
  induction k with
  | zero =>
    intro fuel1 fuel2 nt md hk hmd h1 h2
    cases fuel1 with
    | zero => omega
    | succ a =>
      cases fuel2 with
      | zero => omega
      | succ b =>
        have ht : hasTable nt md = true := by
          cases hv : hasTable nt md
          · exact absurd (missCount_pos C nt md hmd hv) (by omega)
          · rfl
        unfold add_jsonname_table
        rw [if_pos ht, if_pos ht]
  | succ k ih =>
    intro fuel1 fuel2 nt md hk hmd h1 h2
    cases fuel1 with
    | zero => omega
    | succ a =>
      cases fuel2 with
      | zero => omega
      | succ b =>
        by_cases ht : hasTable nt md
        · unfold add_jsonname_table
          rw [if_pos ht, if_pos ht]
        · have htf : hasTable nt md = false := by
            cases hv : hasTable nt md
            · rfl
            · exact absurd hv ht
          have hmono1 : ∀ x, x ∈ ntKeys nt →
              x ∈ ntKeys (nt ++ [(md, [])]) := by
            intro x hx
            rw [ntKeys_append]
            exact List.mem_append_left _ hx
          have hnew : hasTable (nt ++ [(md, [])]) md = true := by
            rw [hasTable_iff, ntKeys_append]
            exact List.mem_append_right _ (by simp [ntKeys])
          have hlt : missCount C (nt ++ [(md, [])]) < missCount C nt :=
            missCount_lt_of_new C nt _ md hmd hmono1 htf hnew
          unfold add_jsonname_table
          rw [if_neg ht, if_neg ht]
          apply addFields_congr C md
            (fun nt2 md2 => add_jsonname_table sc a nt2 md2)
            (fun nt2 md2 => add_jsonname_table sc b nt2 md2)
            (fun nt2 m2 x hx => ntKeys_mono_add sc a nt2 m2 x hx)
            (missCount C (nt ++ [(md, [])]))
            ?_ (msgFields sc md) (nt ++ [(md, [])])
            (fun f hf hs => hC md f hf hs) (Nat.le_refl _)
          intro nt2 m hm hle
          exact ih a b nt2 m (by omega) hm (by omega) (by omega)

/-- C10: the memoized DFS of add_jsonname_table terminates on every
schema, cyclic ones included — the result stabilizes once the fuel
exceeds the number of sub-message references plus the root, which is the
meaning of termination for the fuel model — and in the resulting
name_tables every descriptor has at most one table and the tabled
descriptors are exactly those reachable from the root. -/
theorem c10_jsonname_tables (sc : Schema) (md : Nat) (fuel : Nat)
    (hfuel : (allSubmsgRefs sc).length + 2 ≤ fuel) :
    parsermethod_new_tables sc md fuel =
      parsermethod_new_tables sc md ((allSubmsgRefs sc).length + 2) ∧
    (ntKeys (parsermethod_new_tables sc md fuel)).Nodup ∧
    (∀ b, b ∈ ntKeys (parsermethod_new_tables sc md fuel) ↔
      Reach sc md b) := by
  have hC : ∀ b f, f ∈ msgFields sc b → fieldIsSubmsg f = true →
      fieldMsgSubdef f ∈ md :: allSubmsgRefs sc :=
    fun b f hf hs =>
      List.mem_cons_of_mem md (subdef_mem_allSubmsgRefs sc b f hf hs)
  have hmdC : md ∈ md :: allSubmsgRefs sc := List.mem_cons_self md _
  have hmiss : missCount (md :: allSubmsgRefs sc) [] =
      (allSubmsgRefs sc).length + 1 := by
    unfold missCount hasTable
    simp
  refine ⟨?_, ?_, ?_⟩
  · exact add_fuel_congr sc (md :: allSubmsgRefs sc) hC
      (missCount (md :: allSubmsgRefs sc) []) fuel
      ((allSubmsgRefs sc).length + 2) [] md (Nat.le_refl _) hmdC
      (by omega) (by omega)
  · exact ntKeys_nodup_add sc fuel [] md List.nodup_nil
  · intro b
    constructor
    · intro hb
      rcases sound_add sc fuel [] md b hb with h | h
      · simp [ntKeys] at h
      · exact h
    · intro hr
      obtain ⟨h1, h2⟩ := add_complete sc (md :: allSubmsgRefs sc) hC fuel
        [] md hmdC (by omega)
      induction hr with
      | refl => exact h1
      | tail hab hbc ihab =>
        obtain ⟨f, hf, hs, hd⟩ := hbc
        exact hd ▸ h2 _ ihab (by simp [ntKeys]) f hf hs

/-- A schema with a single message whose field recurses into itself. -/
def recSchema : Schema := ⟨[⟨[⟨[97], [97], 1, .msg 0, false⟩], false⟩], []⟩

theorem c10_jsonname_tables_witness :
    (allSubmsgRefs recSchema).length + 2 ≤ 3 ∧
    ntKeys (parsermethod_new_tables recSchema 0 3) = [0] ∧
    (ntKeys (parsermethod_new_tables recSchema 0 3)).Nodup ∧
    Reach recSchema 0 0 := by
  have h := c10_jsonname_tables recSchema 0 3 (by decide)
  exact ⟨by decide, by rfl, h.2.1, (h.2.2 0).mp (by decide)⟩


/-! ## The streaming parser machine (parser.rl lines 522-1294)

The Ragel grammar (lines 1147-1243) is hand-compiled into an explicit
automaton: `CState` is the set of DFA states (including states that only
ever appear as fcall return addresses on the Ragel stack), and `stepByte`
processes one input byte, running the semantic actions of the source.

Modelling conventions:
  - pointers into the input buffer are byte offsets; sink selectors are
    represented by the fielddef they are derived from (`Option FieldDef`,
    none only on paths that are unreachable in well-formed runs, where the
    C code would read an unset pointer);
  - an action chain triggered by one byte (Ragel fhold/fret reprocessing)
    is executed inside that byte's step;
  - the `>` action of the object ws (start_object) is modelled as firing
    when the opening brace is consumed; no observable difference because
    ws consumes no other action;
  - the bufhandle argument of putstring (can_alias ? p->handle : NULL) is
    a buffer-management hint and is not part of the modelled event;
  - Ragel pending leaving actions (%) are modelled as dedicated states
    (valAfterLit, valAfterObj, strHexEnd, and the stack tokens
    memAfterValue, valAfterNum) that fire the action when the next byte
    arrives, exactly like the generated code;
  - UPB_ASSERT is a release no-op: asserted-unreachable branches are
    modelled with an internalDecoder error rather than undefined
    behavior, and multipart_startaccum does not clear the accumulator. -/

namespace M

/-- One sink event.  The fielddef stands for the selector derived from
it. -/
inductive Event
  | startmsg
  | endmsg
  | startsubmsg (f : Option FieldDef)
  | endsubmsg (f : Option FieldDef)
  | startseq (f : Option FieldDef)
  | endseq (f : Option FieldDef)
  | startstr (f : Option FieldDef) (size_hint : Nat)
  | putstring (f : Option FieldDef) (bytes : List Nat)
  | endstr (f : Option FieldDef)
  | putbool (f : Option FieldDef) (v : Bool)
  | putint32 (f : Option FieldDef) (v : Int)
  | putint64 (f : Option FieldDef) (v : Int)
  | putuint32 (f : Option FieldDef) (v : Nat)
  | putuint64 (f : Option FieldDef) (v : Nat)
  | putdouble (f : Option FieldDef) (text : List Nat)
  | putfloat (f : Option FieldDef) (text : List Nat)
  deriving DecidableEq, Repr

/-- The reported errors (upb_status_seterr* calls). -/
inductive PErr
  | internalInactive     -- "Internal error: unexpected state MULTIPART_INACTIVE"
  | integerOverflow      -- "Integer overflow."
  | nestingTooDeep       -- "Nesting too deep"
  | errorParsingNumber   -- "error parsing number: %s"
  | boolForNonBool       -- "Boolean value specified for non-bool field"
  | stringForNonString   -- "String specified for non-string/non-enum field"
  | enumUnknown          -- "Enum value unknown"
  | noSuchField          -- "No such field"
  | mapBoolKey           -- "Map bool key not 'true' or 'false'"
  | invalidMapKeyType    -- "Invalid field type for map key"
  | mapentryNoKey        -- "mapentry message has no key"
  | mapentryNoValue      -- "mapentry message has no value"
  | objectForNonMessage  -- "Object specified for non-message/group field"
  | arrayForNonRepeated  -- "Array specified for non-repeated field"
  | b64NotMultipleOf4    -- "Base64 input for bytes field not a multiple of 4"
  | b64NonBase64         -- "Non-base64 characters in bytes field"
  | b64BadPadding        -- "Incorrect base64 padding for field"
  | internalDecoder      -- "Internal error in JSON decoder"
  | parseError           -- "Parse error at ..."
  deriving DecidableEq, Repr

/-- upb_jsonparser_frame. -/
structure Frame where
  m : Nat
  f : Option FieldDef
  is_map : Bool
  is_mapentry : Bool
  mapfield : Option FieldDef
  deriving DecidableEq, Repr

inductive LitTag
  | tru
  | fls
  | nul
  deriving DecidableEq, Repr

/-- The DFA states of the hand-compiled Ragel machine. -/
inductive CState
  | mainWs0                      -- main: ws before the top-level object
  | mainWs1                      -- main: ws after the top-level object
  | objBody (ctx : Bool)         -- inside "{", first member or "}" (ctx: top level?)
  | memExpectName (ctx : Bool)   -- after ",", member name required
  | memColon (ctx : Bool)        -- after member name, ws then ":"
  | memValue (ctx : Bool)        -- after ":", ws then value2
  | memWs2 (ctx : Bool)          -- after a member's value, ws then "," or "}"
  | memNameClose (ctx : Bool)    -- stack token: closing quote of a member name
  | memAfterValue (ctx : Bool)   -- stack token: pending end_member
  | strBody (inText : Bool)      -- string_machine body
  | strEsc                       -- after backslash
  | strHex (k : Nat)             -- hex digits of \:u, k consumed so far
  | strHexEnd                    -- pending end_hex
  | valStrClose                  -- stack token: closing quote of a string value
  | valAfterNum                  -- stack token: pending end_number
  | valAfterVal                  -- value complete, next char frets
  | valAfterObj                  -- pending end_subobject
  | valAfterLit (tag : LitTag)   -- pending putbool / null
  | valLit (rest : List Nat) (tag : LitTag)
  | numMinus
  | numZero
  | numInt
  | numFrac0
  | numFrac
  | numExp0
  | numExpSign
  | numExp
  | arrBody                      -- after "[", first element or "]"
  | arrElemStart                 -- after "," in an array
  | arrAfterElem                 -- after an element (also used as stack token)
  | jammed                       -- Ragel error state (no transition)
  | failed                       -- a semantic action returned false (goto error)
  deriving DecidableEq, Repr

/-- The full machine state: DFA state, Ragel call stack, upb frame stack
(top held separately so it is always present), multipart/capture state,
and the observable events and errors. -/
structure MSt where
  control : CState
  rstack : List CState
  top : Frame
  below : List Frame
  multipart : MPState
  string_selector : Option FieldDef
  acc : AccSt
  capture : Option CapPtr
  digit : Nat
  events : List Event
  errors : List PErr
  deriving Repr

def jam (s : MSt) : MSt := { s with control := .jammed }
def fail (s : MSt) : MSt := { s with control := .failed }
def emit (e : Event) (s : MSt) : MSt := { s with events := s.events ++ [e] }
def pErr (e : PErr) (s : MSt) : MSt := { s with errors := s.errors ++ [e] }
def pushFrame (fr : Frame) (s : MSt) : MSt :=
  { s with below := s.top :: s.below, top := fr }
def popFrame (s : MSt) : MSt :=
  match s.below with
  | [] => s
  | b :: rest => { s with top := b, below := rest }
def setTopF (f : Option FieldDef) (s : MSt) : MSt :=
  { s with top := { s.top with f := f } }

/-- check_stack: (p->top + 1) == p->limit, with limit = stack + 64. -/
def check_stack (s : MSt) : Bool × MSt :=
  if s.below.length + 1 = 64 then (false, pErr .nestingTooDeep s)
  else (true, s)

def multipart_startaccum (s : MSt) : MSt := { s with multipart := .accumulate }
def multipart_start (s : MSt) (sel : Option FieldDef) : MSt :=
  { s with multipart := .pushEagerly, string_selector := sel }
def multipart_text (s : MSt) (bs : List Nat) (can_alias : Bool) :
    Bool × MSt :=
  match s.multipart with
  | .inactive => (false, pErr .internalInactive s)
  | .accumulate =>
      match accumulate_append s.acc bs bs.length can_alias with
      | .ok a => (true, { s with acc := a })
      | .error _ => (false, pErr .integerOverflow s)
  | .pushEagerly => (true, emit (.putstring s.string_selector bs) s)
def multipart_end (s : MSt) : MSt :=
  { s with multipart := .inactive, acc := accumulate_clear s.acc }

def capture_begin (s : MSt) (pos : Nat) : MSt :=
  { s with capture := some (.idx pos) }
def capture_end (s : MSt) (buf : List Nat) (pos : Nat) : Bool × MSt :=
  match s.capture with
  | some (.idx c) =>
      match multipart_text s (sliceBetween buf c pos) true with
      | (true, s1) => (true, { s1 with capture := none })
      | (false, s1) => (false, s1)
  | _ => (false, s)
def capture_suspend (s : MSt) (buf : List Nat) (pos : Nat) : MSt × Nat :=
  match s.capture with
  | some (.idx c) =>
      match multipart_text s (sliceBetween buf c pos) false with
      | (true, s1) => ({ s1 with capture := some .suspended }, pos)
      | (false, s1) => (s1, c)
  | _ => (s, pos)
def capture_resume (s : MSt) : MSt :=
  match s.capture with
  | none => s
  | some _ => { s with capture := some (.idx 0) }

def escape_char (c : Nat) : Nat :=
  if c = 114 then 13
  else if c = 116 then 9
  else if c = 110 then 10
  else if c = 102 then 12
  else if c = 98 then 8
  else if c = 47 then 47
  else if c = 34 then 34
  else if c = 92 then 92
  else 120

def escape (s : MSt) (c : Nat) : Bool × MSt :=
  multipart_text s [escape_char c] false

def hexVal (c : Nat) : Nat :=
  if 48 ≤ c ∧ c ≤ 57 then c - 48
  else if 97 ≤ c ∧ c ≤ 102 then c - 97 + 10
  else c - 65 + 10

/-- The UTF-8 encoding of end_hex (codepoints up to 0xFFFF, no surrogate
pairing). -/
def utf8bytes (cp : Nat) : List Nat :=
  if cp ≤ 127 then [cp]
  else if cp ≤ 2047 then [cp / 64 % 32 + 192, cp % 64 + 128]
  else [cp / 4096 % 16 + 224, cp / 64 % 64 + 128, cp % 64 + 128]

def end_hex (s : MSt) : Bool × MSt :=
  multipart_text s (utf8bytes s.digit) false

def parser_putbool (s : MSt) (v : Bool) : Bool × MSt :=
  match s.top.f with
  | some f =>
      if f.type = .boolean then (true, emit (.putbool (some f) v) s)
      else (false, pErr .boolForNonBool s)
  | none => (false, pErr .boolForNonBool s)

def start_stringval (s : MSt) : Bool × MSt :=
  match s.top.f with
  | none => (false, pErr .internalDecoder s)
  | some f =>
    if fieldIsString f then
      match check_stack s with
      | (false, s1) => (false, s1)
      | (true, s1) =>
        let s2 := emit (.startstr (some f) 0) s1
        let s3 := pushFrame
          { m := s2.top.m, f := some f, is_map := false,
            is_mapentry := false, mapfield := none } s2
        if f.type = .string then (true, multipart_start s3 (some f))
        else (true, multipart_startaccum s3)
    else
      match f.type with
      | .enum _ => (true, multipart_startaccum s)
      | _ => (false, pErr .stringForNonString s)

/-- The per-group decode loop of base64_push: the list of putstring
payloads emitted (one per group, emitted before any error is detected)
and the error, if any. -/
def base64_push_groups : List Nat → List (List Nat) × Option PErr
  | [] => ([], none)
  | c0 :: c1 :: c2 :: c3 :: rest =>
      let val := b64shift c0 18 ||| b64shift c1 12 ||| b64shift c2 6 |||
        b64shift c3 0
      if val &&& 2147483648 ≠ 0 then
        if nonbase64 c0 ∨ nonbase64 c1 ∨ nonbase64 c2 ∨ nonbase64 c3 then
          ([], some .b64NonBase64)
        else if c2 = 61 then
          if c0 = 61 ∨ c1 = 61 ∨ c3 ≠ 61 then ([], some .b64BadPadding)
          else
            let v := b64shift c0 18 ||| b64shift c1 12
            ([[v / 65536 % 256]], none)
        else
          if c0 = 61 ∨ c1 = 61 ∨ c2 = 61 then ([], some .b64BadPadding)
          else
            let v := b64shift c0 18 ||| b64shift c1 12 ||| b64shift c2 6
            ([[v / 65536 % 256, v / 256 % 256]], none)
      else
        let r := base64_push_groups rest
        ([val / 65536 % 256, val / 256 % 256, val % 256] :: r.1, r.2)
  | _ => ([], some .b64NotMultipleOf4)

def end_stringval (sc : Schema) (s : MSt) : Bool × MSt :=
  match s.top.f with
  | none => (false, pErr .internalDecoder s)
  | some f =>
    match f.type with
    | .bytes =>
        let r := base64_push_groups (accContents s.acc)
        let s1 := r.1.foldl (fun a o => emit (.putstring (some f) o) a) s
        match r.2 with
        | some e => (false, pErr e s1)
        | none =>
            let s2 := popFrame s1
            let s3 := emit (.endstr (some f)) s2
            (true, multipart_end s3)
    | .string =>
        let s2 := popFrame s
        let s3 := emit (.endstr (some f)) s2
        (true, multipart_end s3)
    | .enum e =>
        match enumNtoi sc e (accContents s.acc) with
        | some v => (true, multipart_end (emit (.putint32 (some f) v) s))
        | none => (false, multipart_end (pErr .enumUnknown s))
    | _ => (false, multipart_end (pErr .internalDecoder s))

def start_member (s : MSt) : MSt := multipart_startaccum s

/-- parse_number: append the NUL terminator to the accumulated text, then
convert according to the field type. -/
def parse_number_m (s : MSt) : Bool × MSt :=
  match multipart_text s [0] false with
  | (false, s1) => (false, s1)
  | (true, s1) =>
    let t := match s1.top.f with
             | some f => f.type
             | none => .boolean
    match parse_number_conv t (accContents s1.acc) with
    | .int32 v => (true, multipart_end (emit (.putint32 s1.top.f v) s1))
    | .int64 v => (true, multipart_end (emit (.putint64 s1.top.f v) s1))
    | .uint32 v => (true, multipart_end (emit (.putuint32 s1.top.f v) s1))
    | .uint64 v => (true, multipart_end (emit (.putuint64 s1.top.f v) s1))
    | .double text => (true, multipart_end (emit (.putdouble s1.top.f text) s1))
    | .float text => (true, multipart_end (emit (.putfloat s1.top.f text) s1))
    | .nothing => (true, multipart_end s1)
    | .err => (false, multipart_end (pErr .errorParsingNumber s1))

def start_number (s : MSt) (pos : Nat) : MSt :=
  capture_begin (multipart_startaccum s) pos

def end_number (s : MSt) (buf : List Nat) (pos : Nat) : Bool × MSt :=
  match capture_end s buf pos with
  | (false, s1) => (false, s1)
  | (true, s1) => parse_number_m s1

def parse_mapentry_key (sc : Schema) (s : MSt) : Bool × MSt :=
  let buf := accContents s.acc
  let s0 := setTopF (msgdefItof sc s.top.m 1) s
  match s0.top.f with
  | none => (false, pErr .mapentryNoKey s0)
  | some kf =>
    match kf.type with
    | .int32 | .int64 | .uint32 | .uint64 => parse_number_m s0
    | .boolean =>
        if buf = [116, 114, 117, 101] then
          match parser_putbool s0 true with
          | (false, s1) => (false, s1)
          | (true, s1) => (true, multipart_end s1)
        else if buf = [102, 97, 108, 115, 101] then
          match parser_putbool s0 false with
          | (false, s1) => (false, s1)
          | (true, s1) => (true, multipart_end s1)
        else (false, pErr .mapBoolKey s0)
    | .string | .bytes =>
        let s1 := emit (.startstr (some kf) buf.length) s0
        let s2 := emit (.putstring (some kf) buf) s1
        let s3 := emit (.endstr (some kf)) s2
        (true, multipart_end s3)
    | _ => (false, pErr .invalidMapKeyType s0)

def handle_mapentry (sc : Schema) (s : MSt) : Bool × MSt :=
  match check_stack s with
  | (false, s1) => (false, s1)
  | (true, s1) =>
    match s1.top.mapfield with
    | none => (false, pErr .internalDecoder s1)
    | some mapf =>
      let entrym := fieldMsgSubdef mapf
      let s2 := setTopF (some mapf) s1
      let s3 := emit (.startsubmsg (some mapf)) s2
      let s4 := pushFrame
        { m := entrym, f := none, is_map := false,
          is_mapentry := false, mapfield := some mapf } s3
      let s5 := emit .startmsg s4
      -- parser.rl line 941: the bool result of parse_mapentry_key is
      -- discarded by the source
      let s6 := (parse_mapentry_key sc s5).2
      let s7 := setTopF (msgdefItof sc entrym 2) s6
      let s8 := { s7 with top :=
        { s7.top with is_mapentry := true, mapfield := some mapf } }
      match s8.top.f with
      | none => (false, pErr .mapentryNoValue s8)
      | some _ => (true, s8)

def end_membername (sc : Schema) (s : MSt) : Bool × MSt :=
  if s.top.is_map then handle_mapentry sc s
  else
    match lookupFieldByName sc s.top.m (accContents s.acc) with
    | some f => (true, multipart_end (setTopF (some f) s))
    | none => (false, pErr .noSuchField s)

def end_member (s : MSt) : MSt :=
  let s1 :=
    if s.top.is_mapentry then
      let mapf := s.top.mapfield
      let s1 := emit .endmsg s
      let s2 := popFrame s1
      emit (.endsubmsg mapf) s2
    else s
  setTopF none s1

def start_subobject (sc : Schema) (s : MSt) : Bool × MSt :=
  match s.top.f with
  | none => (false, pErr .internalDecoder s)
  | some f =>
    if fieldIsMap sc f then
      match check_stack s with
      | (false, s1) => (false, s1)
      | (true, s1) =>
        let s2 := emit (.startseq (some f)) s1
        (true, pushFrame
          { m := fieldMsgSubdef f, f := none, is_map := true,
            is_mapentry := false, mapfield := some f } s2)
    else if fieldIsSubmsg f then
      match check_stack s with
      | (false, s1) => (false, s1)
      | (true, s1) =>
        let s2 := emit (.startsubmsg (some f)) s1
        (true, pushFrame
          { m := fieldMsgSubdef f, f := none, is_map := false,
            is_mapentry := false, mapfield := none } s2)
    else (false, pErr .objectForNonMessage s)

def end_subobject (s : MSt) : MSt :=
  if s.top.is_map then
    let s1 := popFrame s
    emit (.endseq s1.top.f) s1
  else
    let s1 := popFrame s
    emit (.endsubmsg s1.top.f) s1

def start_array (s : MSt) : Bool × MSt :=
  match s.top.f with
  | none => (false, pErr .internalDecoder s)
  | some f =>
    if ¬ f.isSeq then (false, pErr .arrayForNonRepeated s)
    else
      match check_stack s with
      | (false, s1) => (false, s1)
      | (true, s1) =>
        let s2 := emit (.startseq (some f)) s1
        (true, pushFrame
          { m := s2.top.m, f := some f, is_map := false,
            is_mapentry := false, mapfield := none } s2)

def end_array (s : MSt) : MSt :=
  let s1 := popFrame s
  emit (.endseq s1.top.f) s1

def start_object (s : MSt) : MSt :=
  if s.top.is_map then s else emit .startmsg s

def end_object (s : MSt) : MSt :=
  if s.top.is_map then s else emit .endmsg s

/-- After a member's value and its end_member: ws, "," or "}". -/
def memberTail (ctx : Bool) (c : Nat) (s : MSt) : MSt :=
  if isSpaceC c then { s with control := .memWs2 ctx }
  else if c = 44 then { s with control := .memExpectName ctx }
  else if c = 125 then
    let s1 := end_object s
    { s1 with control := if ctx then .mainWs1 else .valAfterObj }
  else jam s

/-- After an array element: ws, "," or "]". -/
def arrTail (c : Nat) (s : MSt) : MSt :=
  if isSpaceC c then { s with control := .arrAfterElem }
  else if c = 44 then { s with control := .arrElemStart }
  else if c = 93 then
    let s1 := end_array s
    { s1 with control := .valAfterVal }
  else jam s

/-- The value_machine fret: pop the caller state and reprocess the byte
there, firing the caller's pending leaving action. -/
def valueRet (c : Nat) (s : MSt) : MSt :=
  match s.rstack with
  | .memAfterValue ctx :: rs =>
      let s1 := end_member { s with rstack := rs }
      memberTail ctx c s1
  | .arrAfterElem :: rs => arrTail c { s with rstack := rs }
  | _ => jam s

/-- The string_machine fret on the closing quote: pop the caller and
consume the quote there, firing its @ action. -/
def strFret (sc : Schema) (s : MSt) : MSt :=
  match s.rstack with
  | .memNameClose ctx :: rs =>
      match end_membername sc { s with rstack := rs } with
      | (true, s1) => { s1 with control := .memColon ctx }
      | (false, s1) => fail s1
  | .valStrClose :: rs =>
      match end_stringval sc { s with rstack := rs } with
      | (true, s1) => { s1 with control := .valAfterVal }
      | (false, s1) => fail s1
  | _ => jam s

/-- One byte of the string_machine body (also used to resume after a
pending end_hex). -/
def strBodyChar (sc : Schema) (buf : List Nat) (pos : Nat) (c : Nat)
    (inText : Bool) (s : MSt) : MSt :=
  if c = 34 then
    if inText then
      match capture_end s buf pos with
      | (false, s1) => fail s1
      | (true, s1) => strFret sc s1
    else strFret sc s
  else if c = 92 then
    if inText then
      match capture_end s buf pos with
      | (false, s1) => fail s1
      | (true, s1) => { s1 with control := .strEsc }
    else { s with control := .strEsc }
  else
    if inText then { s with control := .strBody true }
    else { capture_begin s pos with control := .strBody true }

/-- The number_machine fret: end_number fires, then the value_machine
frets on the same byte. -/
def numFret (buf : List Nat) (pos : Nat) (c : Nat) (s : MSt) : MSt :=
  match s.rstack with
  | .valAfterNum :: rs =>
      match end_number { s with rstack := rs } buf pos with
      | (false, s1) => fail s1
      | (true, s1) => valueRet c s1
  | _ => jam s

/-- First byte of a value (the caller has pushed the value_machine return
address). -/
def valStartDispatch (sc : Schema) (pos : Nat) (c : Nat) (s : MSt) : MSt :=
  if isDigitC c ∨ c = 45 then
    let s1 := start_number s pos
    let s2 := { s1 with rstack := .valAfterNum :: s1.rstack }
    if c = 45 then { s2 with control := .numMinus }
    else if c = 48 then { s2 with control := .numZero }
    else { s2 with control := .numInt }
  else if c = 34 then
    match start_stringval s with
    | (false, s1) => fail s1
    | (true, s1) =>
        { s1 with rstack := .valStrClose :: s1.rstack,
                  control := .strBody false }
  else if c = 123 then
    match start_subobject sc s with
    | (false, s1) => fail s1
    | (true, s1) => { start_object s1 with control := .objBody false }
  else if c = 91 then
    match start_array s with
    | (false, s1) => fail s1
    | (true, s1) => { s1 with control := .arrBody }
  else if c = 116 then { s with control := .valLit [114, 117, 101] .tru }
  else if c = 102 then { s with control := .valLit [97, 108, 115, 101] .fls }
  else if c = 110 then { s with control := .valLit [117, 108, 108] .nul }
  else jam s

/-- Process one input byte. -/
def stepByte (sc : Schema) (buf : List Nat) (pos : Nat) (c : Nat)
    (s : MSt) : MSt :=
  match s.control with
  | .jammed => s
  | .failed => s
  | .mainWs0 =>
      if isSpaceC c then s
      else if c = 123 then { start_object s with control := .objBody true }
      else jam s
  | .mainWs1 => if isSpaceC c then s else jam s
  | .objBody ctx =>
      if isSpaceC c then s
      else if c = 34 then
        let s1 := start_member s
        { s1 with rstack := .memNameClose ctx :: s1.rstack,
                  control := .strBody false }
      else if c = 125 then
        let s1 := end_object s
        { s1 with control := if ctx then .mainWs1 else .valAfterObj }
      else jam s
  | .memExpectName ctx =>
      if isSpaceC c then s
      else if c = 34 then
        let s1 := start_member s
        { s1 with rstack := .memNameClose ctx :: s1.rstack,
                  control := .strBody false }
      else jam s
  | .memColon ctx =>
      if isSpaceC c then s
      else if c = 58 then { s with control := .memValue ctx }
      else jam s
  | .memValue ctx =>
      if isSpaceC c then s
      else if c = 93 ∨ c = 125 then jam s
      else valStartDispatch sc pos c
        { s with rstack := .memAfterValue ctx :: s.rstack }
  | .memWs2 ctx =>
      if isSpaceC c then s
      else if c = 44 then { s with control := .memExpectName ctx }
      else if c = 125 then
        let s1 := end_object s
        { s1 with control := if ctx then .mainWs1 else .valAfterObj }
      else jam s
  | .strBody inText => strBodyChar sc buf pos c inText s
  | .strEsc =>
      if c = 117 then { s with control := .strHex 0 }
      else if c = 114 ∨ c = 116 ∨ c = 98 ∨ c = 102 ∨ c = 110 ∨ c = 34 ∨
          c = 47 ∨ c = 92 then
        match escape s c with
        | (false, s1) => fail s1
        | (true, s1) => { s1 with control := .strBody false }
      else jam s
  | .strHex k =>
      if (48 ≤ c ∧ c ≤ 57) ∨ (97 ≤ c ∧ c ≤ 102) ∨ (65 ≤ c ∧ c ≤ 70) then
        let d := if k = 0 then hexVal c else s.digit * 16 + hexVal c
        if k = 3 then { s with digit := d, control := .strHexEnd }
        else { s with digit := d, control := .strHex (k + 1) }
      else jam s
  | .strHexEnd =>
      match end_hex s with
      | (false, s1) => fail s1
      | (true, s1) => strBodyChar sc buf pos c false s1
  | .valLit rest tag =>
      match rest with
      | [] => jam s
      | [r] => if c = r then { s with control := .valAfterLit tag } else jam s
      | r :: rest2 =>
          if c = r then { s with control := .valLit rest2 tag } else jam s
  | .valAfterLit tag =>
      match tag with
      | .tru =>
          match parser_putbool s true with
          | (false, s1) => fail s1
          | (true, s1) => valueRet c s1
      | .fls =>
          match parser_putbool s false with
          | (false, s1) => fail s1
          | (true, s1) => valueRet c s1
      | .nul => valueRet c s
  | .valAfterVal => valueRet c s
  | .valAfterObj => valueRet c (end_subobject s)
  | .numMinus =>
      if c = 48 then { s with control := .numZero }
      else if 49 ≤ c ∧ c ≤ 57 then { s with control := .numInt }
      else jam s
  | .numZero =>
      if c = 46 then { s with control := .numFrac0 }
      else if c = 101 ∨ c = 69 then { s with control := .numExp0 }
      else numFret buf pos c s
  | .numInt =>
      if isDigitC c then s
      else if c = 46 then { s with control := .numFrac0 }
      else if c = 101 ∨ c = 69 then { s with control := .numExp0 }
      else numFret buf pos c s
  | .numFrac0 => if isDigitC c then { s with control := .numFrac } else jam s
  | .numFrac =>
      if isDigitC c then s
      else if c = 101 ∨ c = 69 then { s with control := .numExp0 }
      else numFret buf pos c s
  | .numExp0 =>
      if isDigitC c then { s with control := .numExp }
      else if c = 43 ∨ c = 45 then { s with control := .numExpSign }
      else jam s
  | .numExpSign =>
      if isDigitC c then { s with control := .numExp } else jam s
  | .numExp => if isDigitC c then s else numFret buf pos c s
  | .arrBody =>
      if isSpaceC c then s
      else if c = 93 then
        let s1 := end_array s
        { s1 with control := .valAfterVal }
      else if c = 125 then jam s
      else valStartDispatch sc pos c
        { s with rstack := .arrAfterElem :: s.rstack }
  | .arrElemStart =>
      if isSpaceC c then s
      else if c = 93 ∨ c = 125 then jam s
      else valStartDispatch sc pos c
        { s with rstack := .arrAfterElem :: s.rstack }
  | .arrAfterElem => arrTail c s
  | .memNameClose _ => jam s
  | .memAfterValue _ => jam s
  | .valStrClose => jam s
  | .valAfterNum => jam s

/-- The Ragel exec loop: process bytes until exhausted or stopped. -/
def runList (sc : Schema) (buf : List Nat) : MSt → Nat → List Nat →
    MSt × Nat
  | s, pos, [] => (s, pos)
  | s, pos, c :: rest =>
      let s1 := stepByte sc buf pos c s
      if s1.control = .jammed ∨ s1.control = .failed then (s1, pos)
      else runList sc buf s1 (pos + 1) rest

/-- The parse bytessink callback (parser.rl lines 1247-1281): resume a
suspended capture, run the exec loop, then report a parse error on a
Ragel jam or suspend the capture when the buffer was fully consumed.
Returns the new state and the consumed byte count. -/
def parse (sc : Schema) (s : MSt) (buf : List Nat) : MSt × Nat :=
  if s.control = .jammed ∨ s.control = .failed then (s, 0)
  else
    let s0 := capture_resume s
    let r := runList sc buf s0 0 buf
    if r.1.control = .failed then r
    else if r.1.control = .jammed then (pErr .parseError r.1, r.2)
    else capture_suspend r.1 buf buf.length

/-- Deliver a document in successive chunks. -/
def parseChunks (sc : Schema) : MSt → List (List Nat) → MSt
  | s, [] => s
  | s, b :: rest => parseChunks sc (parse sc s b).1 rest

/-- json_parser_reset: the initial state over the root message. -/
def initSt (m : Nat) : MSt :=
  { control := .mainWs0, rstack := [],
    top := { m := m, f := none, is_map := false, is_mapentry := false,
             mapfield := none },
    below := [], multipart := .inactive, string_selector := none,
    acc := { accumulated := none, accumulated_len := 0, accumulate_buf := [],
             accumulate_buf_size := 0 },
    capture := none, digit := 0, events := [], errors := [] }

/-- The end-of-input bytessink callback (parser.rl lines 1283-1294): it
ignores its arguments and always reports success. -/
def end_cb (_ : MSt) : Bool := true

end M


/-! ## Concrete schemas and documents for the machine-level claims -/

/-- msg 0 \x7b string a = 1; \x7d -/
def strField : FieldDef := ⟨[97], [97], 1, .string, false⟩
def strSchema : Schema := ⟨[⟨[strField], false⟩], []⟩

/-- The truncated document \x7b"a":"x" (no closing brace). -/
def c9Doc : List Nat := [123, 34, 97, 34, 58, 34, 120, 34]

/-- C9: the end-of-input callback always returns true and inspects no
parser state; a truncated but so-far-valid document is fully consumed
with no reported error, and end() then still reports success. -/
theorem c9_end_always_true :
    (∀ s, M.end_cb s = true) ∧
    (M.parse strSchema (M.initSt 0) c9Doc).2 = c9Doc.length ∧
    (M.parse strSchema (M.initSt 0) c9Doc).1.errors = [] ∧
    M.end_cb (M.parse strSchema (M.initSt 0) c9Doc).1 = true := by
  refine ⟨fun s => rfl, ?_, ?_, rfl⟩
  · decide
  · decide

/-- The map<bool, string> schema: msg 0 \x7b map<bool,string> m = 1; \x7d with
entry message 1 \x7b bool key = 1; string value = 2; \x7d. -/
def c6KeyField : FieldDef := ⟨[107, 101, 121], [107, 101, 121], 1, .boolean, false⟩
def c6ValField : FieldDef :=
  ⟨[118, 97, 108, 117, 101], [118, 97, 108, 117, 101], 2, .string, false⟩
def c6MapField : FieldDef := ⟨[109], [109], 1, .msg 1, true⟩
def c6Schema : Schema :=
  ⟨[⟨[c6MapField], false⟩, ⟨[c6KeyField, c6ValField], true⟩], []⟩

/-- The document \x7b"m":\x7b"bad":"x"\x7d\x7d: a bool map key that is neither true
nor false. -/
def c6Doc : List Nat :=
  [123, 34, 109, 34, 58, 123, 34, 98, 97, 100, 34, 58, 34, 120, 34, 125, 125]

/-- The machine state just before end_membername runs for the key "bad":
the first 10 bytes consumed, then the capture flushed as end_text does on
the closing quote at index 10. -/
def c6KeySt : M.MSt :=
  (M.capture_end
    (M.runList c6Schema c6Doc (M.capture_resume (M.initSt 0)) 0
      (c6Doc.take 10)).1 c6Doc 10).2

/-- C6 (code bug): with a bool-keyed map, a member name that is not
exactly "true" or "false" makes parse_mapentry_key return false with the
map-bool-key error, but handle_mapentry (parser.rl line 941) discards
that result and returns true, so end_membername succeeds and the machine
keeps emitting events for the entry and consumes the whole document.  The
spec text (callbacks return false and the state machine stops) holds for
the inner key parser but not for the member-name callback. -/
theorem c6_map_bool_key_not_fatal :
    (M.parse_mapentry_key c6Schema c6KeySt).1 = false ∧
    (M.end_membername c6Schema c6KeySt).1 = true ∧
    (M.parse c6Schema (M.initSt 0) c6Doc).1.errors = [.mapBoolKey] ∧
    (M.parse c6Schema (M.initSt 0) c6Doc).2 = c6Doc.length ∧
    (M.parse c6Schema (M.initSt 0) c6Doc).1.control = .mainWs1 ∧
    (M.parse c6Schema (M.initSt 0) c6Doc).1.events =
      [.startmsg, .startseq (some c6MapField), .startsubmsg (some c6MapField),
       .startmsg, .startstr (some c6ValField) 0,
       .putstring (some c6ValField) [120], .endstr (some c6ValField),
       .endmsg, .endsubmsg (some c6MapField), .endseq (some c6MapField),
       .endmsg] := by
  refine ⟨?_, ?_, ?_, ?_, ?_, ?_⟩ <;> decide


/-! ## Frame-stack depth (claim C3)

depth counts the live upb_jsonparser_frame slots (p->top - p->stack + 1).
check_stack refuses a push exactly when all 64 slots are live. -/

namespace M

def depth (s : MSt) : Nat := s.below.length + 1

theorem depth_emit (e : Event) (s : MSt) : depth (emit e s) = depth s := rfl

theorem depth_pErr (e : PErr) (s : MSt) : depth (pErr e s) = depth s := rfl

theorem depth_setTopF (f : Option FieldDef) (s : MSt) :
    depth (setTopF f s) = depth s := rfl

theorem depth_pushFrame (fr : Frame) (s : MSt) :
    depth (pushFrame fr s) = depth s + 1 := by
  unfold pushFrame depth
  simp

theorem depth_popFrame (s : MSt) : depth (popFrame s) ≤ depth s := by
  unfold popFrame depth
  split
  · exact Nat.le_refl _
  · rename_i b rest heq
    rw [heq]
    simp

theorem depth_check_stack (s : MSt) :
    depth (check_stack s).2 = depth s := by
  unfold check_stack
  split <;> rfl

theorem check_stack_true_iff (s : MSt) :
    (check_stack s).1 = true ↔ depth s ≠ 64 := by
  unfold check_stack depth
  split <;> rename_i hc <;> simp [hc]

theorem check_stack_at_limit (s : MSt) (h : depth s = 64) :
    check_stack s = (false, pErr .nestingTooDeep s) := by
  unfold check_stack
  rw [if_pos (show s.below.length + 1 = 64 from h)]

theorem depth_multipart_text (s : MSt) (bs : List Nat) (ca : Bool) :
    depth (multipart_text s bs ca).2 = depth s := by
  unfold multipart_text
  split
  · rfl
  · split <;> rfl
  · rfl

theorem depth_capture_end (s : MSt) (buf : List Nat) (pos : Nat) :
    depth (capture_end s buf pos).2 = depth s := by
  unfold capture_end
  split
  · rename_i c heq
    split <;> rename_i s1 heq2 <;>
      (have h := depth_multipart_text s (sliceBetween buf c pos) true
       rw [heq2] at h
       exact h)
  · rfl

theorem depth_capture_suspend (s : MSt) (buf : List Nat) (pos : Nat) :
    depth (capture_suspend s buf pos).1 = depth s := by
  unfold capture_suspend
  split
  · rename_i c heq
    split <;> rename_i s1 heq2 <;>
      (have h := depth_multipart_text s (sliceBetween buf c pos) false
       rw [heq2] at h
       exact h)
  · rfl

theorem depth_escape (s : MSt) (c : Nat) :
    depth (escape s c).2 = depth s := depth_multipart_text _ _ _

theorem depth_end_hex (s : MSt) : depth (end_hex s).2 = depth s :=
  depth_multipart_text _ _ _

theorem depth_parser_putbool (s : MSt) (v : Bool) :
    depth (parser_putbool s v).2 = depth s := by
  unfold parser_putbool
  split
  · split <;> rfl
  · rfl

theorem depth_multipart_start_eq (s : MSt) (sel : Option FieldDef) :
    depth (multipart_start s sel) = depth s := rfl

theorem depth_multipart_startaccum_eq (s : MSt) :
    depth (multipart_startaccum s) = depth s := rfl

theorem depth_multipart_end_eq (s : MSt) :
    depth (multipart_end s) = depth s := rfl

theorem depth_start_stringval (s : MSt) (h : depth s ≤ 64) :
    depth (start_stringval s).2 ≤ 64 := by
  unfold start_stringval
  split
  · exact h
  · rename_i f heq
    split
    · split
      · rename_i s1 heq2
        have hd := depth_check_stack s
        rw [heq2] at hd
        simp only [] at hd
        show depth s1 ≤ 64
        omega
      · rename_i s1 heq2
        have hd := depth_check_stack s
        rw [heq2] at hd
        simp only [] at hd
        have hne := (check_stack_true_iff s).mp (by rw [heq2])
        split
        · show depth s1 + 1 ≤ 64
          omega
        · show depth s1 + 1 ≤ 64
          omega
    · split
      · exact h
      · exact h

theorem depth_foldl_emit (f : Option FieldDef) (outs : List (List Nat)) :
    ∀ s : MSt, depth (outs.foldl
      (fun a o => emit (.putstring f o) a) s) = depth s := by
  induction outs with
  | nil => intro s; rfl
  | cons o rest ih => intro s; exact ih (emit (.putstring f o) s)

theorem depth_end_stringval (sc : Schema) (s : MSt) (h : depth s ≤ 64) :
    depth (end_stringval sc s).2 ≤ 64 := by
  unfold end_stringval
  split
  · exact h
  · rename_i f heq
    split
    · simp only []
      split
      · rename_i e heq3
        show depth (pErr e ((base64_push_groups (accContents s.acc)).1.foldl
          (fun a o => emit (.putstring (some f) o) a) s)) ≤ 64
        rw [depth_pErr, depth_foldl_emit]
        exact h
      · show depth (multipart_end (emit (.endstr (some f))
          (popFrame ((base64_push_groups (accContents s.acc)).1.foldl
            (fun a o => emit (.putstring (some f) o) a) s)))) ≤ 64
        rw [depth_multipart_end_eq, depth_emit]
        exact Nat.le_trans (depth_popFrame _)
          (by rw [depth_foldl_emit]; exact h)
    · show depth (multipart_end (emit (.endstr (some f)) (popFrame s))) ≤ 64
      rw [depth_multipart_end_eq, depth_emit]
      exact Nat.le_trans (depth_popFrame _) h
    · split
      · rename_i v heq3
        show depth (multipart_end (emit (.putint32 (some f) v) s)) ≤ 64
        rw [depth_multipart_end_eq, depth_emit]
        exact h
      · show depth (multipart_end (pErr .enumUnknown s)) ≤ 64
        rw [depth_multipart_end_eq, depth_pErr]
        exact h
    · show depth (multipart_end (pErr .internalDecoder s)) ≤ 64
      rw [depth_multipart_end_eq, depth_pErr]
      exact h

theorem depth_parse_number_m (s : MSt) :
    depth (parse_number_m s).2 = depth s := by
  unfold parse_number_m
  split
  · rename_i s1 heq
    have hd := depth_multipart_text s [0] false
    rw [heq] at hd
    exact hd
  · rename_i s1 heq
    have hd := depth_multipart_text s [0] false
    rw [heq] at hd
    simp only [] at hd
    simp only []
    split <;> ((try split) <;> exact hd)

theorem depth_end_number (s : MSt) (buf : List Nat) (pos : Nat) :
    depth (end_number s buf pos).2 = depth s := by
  unfold end_number
  split
  · rename_i s1 heq
    have hd := depth_capture_end s buf pos
    rw [heq] at hd
    exact hd
  · rename_i s1 heq
    have hd := depth_capture_end s buf pos
    rw [heq] at hd
    simp only [] at hd
    rw [depth_parse_number_m]
    exact hd

theorem depth_parse_mapentry_key (sc : Schema) (s : MSt) :
    depth (parse_mapentry_key sc s).2 = depth s := by
  unfold parse_mapentry_key
  simp only []
  split
  · rfl
  · rename_i kf heq
    split
    · exact depth_parse_number_m _
    · exact depth_parse_number_m _
    · exact depth_parse_number_m _
    · exact depth_parse_number_m _
    · split
      · split
        · rename_i s1 heq2
          have hd := depth_parser_putbool (setTopF (msgdefItof sc s.top.m 1) s)
            true
          rw [heq2] at hd
          exact hd
        · rename_i s1 heq2
          have hd := depth_parser_putbool (setTopF (msgdefItof sc s.top.m 1) s)
            true
          rw [heq2] at hd
          exact hd
      · split
        · split
          · rename_i s1 heq2
            have hd := depth_parser_putbool
              (setTopF (msgdefItof sc s.top.m 1) s) false
            rw [heq2] at hd
            exact hd
          · rename_i s1 heq2
            have hd := depth_parser_putbool
              (setTopF (msgdefItof sc s.top.m 1) s) false
            rw [heq2] at hd
            exact hd
        · rfl
    · rfl
    · rfl
    · rfl

theorem depth_handle_mapentry (sc : Schema) (s : MSt) (h : depth s ≤ 64) :
    depth (handle_mapentry sc s).2 ≤ 64 := by
  unfold handle_mapentry
  split
  · rename_i s1 heq
    have hd := depth_check_stack s
    rw [heq] at hd
    simp only [] at hd
    show depth s1 ≤ 64
    omega
  · rename_i s1 heq
    have hd := depth_check_stack s
    rw [heq] at hd
    simp only [] at hd
    have hne := (check_stack_true_iff s).mp (by rw [heq])
    split
    · show depth s1 ≤ 64
      omega
    · rename_i mapf heq2
      have hkey := depth_parse_mapentry_key sc
        (emit .startmsg (pushFrame
          { m := fieldMsgSubdef mapf, f := none, is_map := false,
            is_mapentry := false, mapfield := some mapf }
          (emit (.startsubmsg (some mapf)) (setTopF (some mapf) s1))))
      have hkey2 : depth (parse_mapentry_key sc
          (emit .startmsg (pushFrame
            { m := fieldMsgSubdef mapf, f := none, is_map := false,
              is_mapentry := false, mapfield := some mapf }
            (emit (.startsubmsg (some mapf)) (setTopF (some mapf) s1))))).2 =
          depth s1 + 1 := by
        rw [hkey]
        rfl
      simp only []
      split
      · show depth (parse_mapentry_key sc
          (emit .startmsg (pushFrame
            { m := fieldMsgSubdef mapf, f := none, is_map := false,
              is_mapentry := false, mapfield := some mapf }
            (emit (.startsubmsg (some mapf)) (setTopF (some mapf) s1))))).2 ≤ 64
        omega
      · show depth (parse_mapentry_key sc
          (emit .startmsg (pushFrame
            { m := fieldMsgSubdef mapf, f := none, is_map := false,
              is_mapentry := false, mapfield := some mapf }
            (emit (.startsubmsg (some mapf)) (setTopF (some mapf) s1))))).2 ≤ 64
        omega

theorem depth_end_membername (sc : Schema) (s : MSt) (h : depth s ≤ 64) :
    depth (end_membername sc s).2 ≤ 64 := by
  unfold end_membername
  split
  · exact depth_handle_mapentry sc s h
  · split
    · exact h
    · exact h

theorem depth_end_member (s : MSt) : depth (end_member s) ≤ depth s := by
  unfold end_member
  split
  · show depth (popFrame (emit .endmsg s)) ≤ depth s
    exact depth_popFrame _
  · rw [depth_setTopF]

theorem depth_start_subobject (sc : Schema) (s : MSt) (h : depth s ≤ 64) :
    depth (start_subobject sc s).2 ≤ 64 := by
  unfold start_subobject
  split
  · exact h
  · rename_i f heq
    split
    · split
      · rename_i s1 heq2
        have hd := depth_check_stack s
        rw [heq2] at hd
        simp only [] at hd
        show depth s1 ≤ 64
        omega
      · rename_i s1 heq2
        have hd := depth_check_stack s
        rw [heq2] at hd
        simp only [] at hd
        have hne := (check_stack_true_iff s).mp (by rw [heq2])
        show depth s1 + 1 ≤ 64
        omega
    · split
      · split
        · rename_i s1 heq2
          have hd := depth_check_stack s
          rw [heq2] at hd
          simp only [] at hd
          show depth s1 ≤ 64
          omega
        · rename_i s1 heq2
          have hd := depth_check_stack s
          rw [heq2] at hd
          simp only [] at hd
          have hne := (check_stack_true_iff s).mp (by rw [heq2])
          show depth s1 + 1 ≤ 64
          omega
      · exact h

theorem depth_end_subobject (s : MSt) : depth (end_subobject s) ≤ depth s := by
  unfold end_subobject
  split <;>
    (show depth (popFrame s) ≤ depth s
     exact depth_popFrame _)

theorem depth_start_array (s : MSt) (h : depth s ≤ 64) :
    depth (start_array s).2 ≤ 64 := by
  unfold start_array
  split
  · exact h
  · rename_i f heq
    split
    · exact h
    · split
      · rename_i s1 heq2
        have hd := depth_check_stack s
        rw [heq2] at hd
        simp only [] at hd
        show depth s1 ≤ 64
        omega
      · rename_i s1 heq2
        have hd := depth_check_stack s
        rw [heq2] at hd
        simp only [] at hd
        have hne := (check_stack_true_iff s).mp (by rw [heq2])
        show depth s1 + 1 ≤ 64
        omega

theorem depth_end_array (s : MSt) : depth (end_array s) ≤ depth s := by
  unfold end_array
  show depth (popFrame s) ≤ depth s
  exact depth_popFrame _

theorem depth_start_object (s : MSt) : depth (start_object s) = depth s := by
  unfold start_object
  split <;> rfl

theorem depth_end_object (s : MSt) : depth (end_object s) = depth s := by
  unfold end_object
  split <;> rfl

theorem depth_memberTail (ctx : Bool) (c : Nat) (s : MSt)
    (h : depth s ≤ 64) : depth (memberTail ctx c s) ≤ 64 := by
  unfold memberTail
  split
  · exact h
  split
  · exact h
  split
  · show depth (end_object s) ≤ 64
    rw [depth_end_object]
    exact h
  · exact h

theorem depth_arrTail (c : Nat) (s : MSt) (h : depth s ≤ 64) :
    depth (arrTail c s) ≤ 64 := by
  unfold arrTail
  split
  · exact h
  split
  · exact h
  split
  · show depth (end_array s) ≤ 64
    exact Nat.le_trans (depth_end_array s) h
  · exact h

theorem depth_valueRet (c : Nat) (s : MSt) (h : depth s ≤ 64) :
    depth (valueRet c s) ≤ 64 := by
  unfold valueRet
  split
  · rename_i ctx rs heq
    apply depth_memberTail
    refine Nat.le_trans (depth_end_member _) ?_
    show depth s ≤ 64
    exact h
  · rename_i rs heq
    apply depth_arrTail
    show depth s ≤ 64
    exact h
  · exact h

theorem depth_strFret (sc : Schema) (s : MSt) (h : depth s ≤ 64) :
    depth (strFret sc s) ≤ 64 := by
  unfold strFret
  split
  · rename_i ctx rs heq
    split
    · rename_i s1 heq2
      have hm := depth_end_membername sc { s with rstack := rs } h
      rw [heq2] at hm
      exact hm
    · rename_i s1 heq2
      have hm := depth_end_membername sc { s with rstack := rs } h
      rw [heq2] at hm
      exact hm
  · rename_i rs heq
    split
    · rename_i s1 heq2
      have hm := depth_end_stringval sc { s with rstack := rs } h
      rw [heq2] at hm
      exact hm
    · rename_i s1 heq2
      have hm := depth_end_stringval sc { s with rstack := rs } h
      rw [heq2] at hm
      exact hm
  · exact h

theorem depth_strBodyChar (sc : Schema) (buf : List Nat) (pos c : Nat)
    (inText : Bool) (s : MSt) (h : depth s ≤ 64) :
    depth (strBodyChar sc buf pos c inText s) ≤ 64 := by
  unfold strBodyChar
  split
  · split
    · split
      · rename_i s1 heq
        have hce := depth_capture_end s buf pos
        rw [heq] at hce
        simp only [] at hce
        show depth s1 ≤ 64
        omega
      · rename_i s1 heq
        have hce := depth_capture_end s buf pos
        rw [heq] at hce
        simp only [] at hce
        exact depth_strFret sc s1 (by omega)
    · exact depth_strFret sc s h
  split
  · split
    · split
      · rename_i s1 heq
        have hce := depth_capture_end s buf pos
        rw [heq] at hce
        simp only [] at hce
        show depth s1 ≤ 64
        omega
      · rename_i s1 heq
        have hce := depth_capture_end s buf pos
        rw [heq] at hce
        simp only [] at hce
        show depth s1 ≤ 64
        omega
    · exact h
  · split
    · exact h
    · exact h

theorem depth_numFret (buf : List Nat) (pos c : Nat) (s : MSt)
    (h : depth s ≤ 64) : depth (numFret buf pos c s) ≤ 64 := by
  unfold numFret
  split
  · rename_i rs heq
    have hrs : depth { s with rstack := rs } = depth s := rfl
    split
    · rename_i s1 heq2
      have hm := depth_end_number { s with rstack := rs } buf pos
      rw [heq2] at hm
      simp only [] at hm
      show depth s1 ≤ 64
      omega
    · rename_i s1 heq2
      have hm := depth_end_number { s with rstack := rs } buf pos
      rw [heq2] at hm
      simp only [] at hm
      exact depth_valueRet c s1 (by omega)
  · exact h

theorem depth_valStartDispatch (sc : Schema) (pos c : Nat) (s : MSt)
    (h : depth s ≤ 64) : depth (valStartDispatch sc pos c s) ≤ 64 := by
  unfold valStartDispatch
  split
  · split
    · exact h
    split
    · exact h
    · exact h
  split
  · split
    · rename_i s1 heq
      have hs := depth_start_stringval s h
      rw [heq] at hs
      exact hs
    · rename_i s1 heq
      have hs := depth_start_stringval s h
      rw [heq] at hs
      exact hs
  split
  · split
    · rename_i s1 heq
      have hs := depth_start_subobject sc s h
      rw [heq] at hs
      exact hs
    · rename_i s1 heq
      have hs := depth_start_subobject sc s h
      rw [heq] at hs
      simp only [] at hs
      show depth (start_object s1) ≤ 64
      rw [depth_start_object]
      exact hs
  split
  · split
    · rename_i s1 heq
      have hs := depth_start_array s h
      rw [heq] at hs
      exact hs
    · rename_i s1 heq
      have hs := depth_start_array s h
      rw [heq] at hs
      exact hs
  split
  · exact h
  split
  · exact h
  split
  · exact h
  · exact h

theorem depth_stepByte (sc : Schema) (buf : List Nat) (pos c : Nat)
    (s : MSt) (h : depth s ≤ 64) :
    depth (stepByte sc buf pos c s) ≤ 64 := by
  unfold stepByte
  split
  · exact h
  · exact h
  · split
    · exact h
    split
    · show depth (start_object s) ≤ 64
      rw [depth_start_object]
      exact h
    · exact h
  · split <;> exact h
  · rename_i ctx heq0
    split
    · exact h
    split
    · exact h
    split
    · show depth (end_object s) ≤ 64
      rw [depth_end_object]
      exact h
    · exact h
  · split
    · exact h
    split
    · exact h
    · exact h
  · split
    · exact h
    split
    · exact h
    · exact h
  · split
    · exact h
    split
    · exact h
    · exact depth_valStartDispatch sc pos c _ h
  · rename_i ctx heq0
    split
    · exact h
    split
    · exact h
    split
    · show depth (end_object s) ≤ 64
      rw [depth_end_object]
      exact h
    · exact h
  · rename_i inText heq0
    exact depth_strBodyChar sc buf pos c inText s h
  · split
    · exact h
    split
    · split
      · rename_i s1 heq
        have he := depth_escape s c
        rw [heq] at he
        simp only [] at he
        show depth s1 ≤ 64
        omega
      · rename_i s1 heq
        have he := depth_escape s c
        rw [heq] at he
        simp only [] at he
        show depth s1 ≤ 64
        omega
    · exact h
  · split
    · split <;> (split <;> exact h)
    · exact h
  · split
    · rename_i s1 heq
      have he := depth_end_hex s
      rw [heq] at he
      simp only [] at he
      show depth s1 ≤ 64
      omega
    · rename_i s1 heq
      have he := depth_end_hex s
      rw [heq] at he
      simp only [] at he
      exact depth_strBodyChar sc buf pos c false s1 (by omega)
  · split
    · exact h
    · split
      · exact h
      · exact h
    · split
      · exact h
      · exact h
  · rename_i tag heq0
    split
    · split
      · rename_i s1 heq
        have hp := depth_parser_putbool s true
        rw [heq] at hp
        simp only [] at hp
        show depth s1 ≤ 64
        omega
      · rename_i s1 heq
        have hp := depth_parser_putbool s true
        rw [heq] at hp
        simp only [] at hp
        exact depth_valueRet c s1 (by omega)
    · split
      · rename_i s1 heq
        have hp := depth_parser_putbool s false
        rw [heq] at hp
        simp only [] at hp
        show depth s1 ≤ 64
        omega
      · rename_i s1 heq
        have hp := depth_parser_putbool s false
        rw [heq] at hp
        simp only [] at hp
        exact depth_valueRet c s1 (by omega)
    · exact depth_valueRet c s h
  · exact depth_valueRet c s h
  · exact depth_valueRet c _ (Nat.le_trans (depth_end_subobject s) h)
  · split
    · exact h
    split
    · exact h
    · exact h
  · split
    · exact h
    split
    · exact h
    · exact depth_numFret buf pos c s h
  · split
    · exact h
    split
    · exact h
    split
    · exact h
    · exact depth_numFret buf pos c s h
  · split
    · exact h
    · exact h
  · split
    · exact h
    split
    · exact h
    · exact depth_numFret buf pos c s h
  · split
    · exact h
    split
    · exact h
    · exact h
  · split
    · exact h
    · exact h
  · split
    · exact h
    · exact depth_numFret buf pos c s h
  · split
    · exact h
    split
    · show depth (end_array s) ≤ 64
      exact Nat.le_trans (depth_end_array s) h
    split
    · exact h
    · exact depth_valStartDispatch sc pos c _ h
  · split
    · exact h
    split
    · exact h
    · exact depth_valStartDispatch sc pos c _ h
  · exact depth_arrTail c s h
  · exact h
  · exact h
  · exact h
  · exact h

theorem depth_runList (sc : Schema) (buf : List Nat) :
    ∀ bs s pos, depth s ≤ 64 → depth (runList sc buf s pos bs).1 ≤ 64 := by
  intro bs
  induction bs with
  | nil => intro s pos h; exact h
  | cons c rest ih =>
    intro s pos h
    show depth (if (stepByte sc buf pos c s).control = .jammed ∨
        (stepByte sc buf pos c s).control = .failed
      then ((stepByte sc buf pos c s), pos)
      else runList sc buf (stepByte sc buf pos c s) (pos + 1) rest).1 ≤ 64
    split
    · exact depth_stepByte sc buf pos c s h
    · exact ih _ _ (depth_stepByte sc buf pos c s h)

theorem depth_capture_resume (s : MSt) :
    depth (capture_resume s) = depth s := by
  unfold capture_resume
  split <;> rfl

theorem depth_parse (sc : Schema) (s : MSt) (buf : List Nat)
    (h : depth s ≤ 64) : depth (parse sc s buf).1 ≤ 64 := by
  unfold parse
  split
  · exact h
  have hrun := depth_runList sc buf buf (capture_resume s) 0
    (by rw [depth_capture_resume]; exact h)
  simp only []
  split
  · exact hrun
  split
  · show depth (pErr .parseError
      (runList sc buf (capture_resume s) 0 buf).1) ≤ 64
    rw [depth_pErr]
    exact hrun
  · rw [depth_capture_suspend]
    exact hrun

end M

/-- Recursive schema for C3: msg 0 \x7b M a = 1; \x7d with M = msg 0 itself. -/
def c3Field : FieldDef := ⟨[97], [97], 1, .msg 0, false⟩
def c3Schema : Schema := ⟨[⟨[c3Field], false⟩], []⟩

/-- 65 open braces: \x7b followed by 64 copies of "a":\x7b.  The 65th brace is
the byte at index 320. -/
def c3Doc : List Nat := 123 :: (List.replicate 64 [34, 97, 34, 58, 123]).flatten

/-- 64 open braces: within the limit. -/
def c3DocOk : List Nat := 123 :: (List.replicate 63 [34, 97, 34, 58, 123]).flatten

set_option maxRecDepth 100000 in
/-- C3: the live frame count never exceeds 64 (any parse call preserves
the bound, byte steps included), check_stack refuses a push exactly at 64
live frames with the Nesting-too-deep error, and the concrete input
nesting 65 open braces fails on the 65th (byte index 320) while 64 braces
parse without error. -/
theorem c3_nesting_depth :
    (∀ sc buf pos c s, M.depth s ≤ 64 →
      M.depth (M.stepByte sc buf pos c s) ≤ 64) ∧
    (∀ sc s buf, M.depth s ≤ 64 → M.depth (M.parse sc s buf).1 ≤ 64) ∧
    (∀ s, (M.check_stack s).1 = true ↔ M.depth s ≠ 64) ∧
    (∀ s, M.depth s = 64 →
      M.check_stack s = (false, M.pErr .nestingTooDeep s)) ∧
    (M.parse c3Schema (M.initSt 0) c3Doc).1.errors = [.nestingTooDeep] ∧
    (M.parse c3Schema (M.initSt 0) c3Doc).1.control = .failed ∧
    (M.parse c3Schema (M.initSt 0) c3Doc).2 = 320 ∧
    (M.parse c3Schema (M.initSt 0) c3DocOk).1.errors = [] := by
  refine ⟨fun sc buf pos c s h => M.depth_stepByte sc buf pos c s h,
    fun sc s buf h => M.depth_parse sc s buf h,
    fun s => M.check_stack_true_iff s,
    fun s h => M.check_stack_at_limit s h, ?_, ?_, ?_, ?_⟩ <;> decide

set_option maxRecDepth 100000 in
theorem c3_nesting_depth_witness :
    M.depth (M.initSt 0) ≤ 64 ∧
    M.depth (M.stepByte c3Schema c3Doc 0 123 (M.initSt 0)) ≤ 64 ∧
    M.depth (M.parse c3Schema (M.initSt 0) c3Doc).1 ≤ 64 ∧
    (M.check_stack (M.initSt 0)).1 = true := by
  refine ⟨by decide, ?_, ?_, ?_⟩
  · exact c3_nesting_depth.1 c3Schema c3Doc 0 123 (M.initSt 0) (by decide)
  · exact c3_nesting_depth.2.1 c3Schema (M.initSt 0) c3Doc (by decide)
  · exact (c3_nesting_depth.2.2.1 (M.initSt 0)).mpr (by decide)


/-! ## Chunking and putstring coalescing (claim C1)

A buffer seam inside a string value splits one putstring into several with
the same selector, so raw event sequences are not chunking-independent.
coalesce merges adjacent same-selector putstrings; coalesced event
sequences are the chunking-independent observable. -/

namespace M

/-- One step of coalescing: merge a putstring into the head of an already
coalesced tail when the selectors agree. -/
def cstep (e : Event) (out : List Event) : List Event :=
  match e, out with
  | .putstring sel a, .putstring sel2 b :: rest =>
      if sel = sel2 then .putstring sel (a ++ b) :: rest
      else .putstring sel a :: .putstring sel2 b :: rest
  | _, _ => e :: out

/-- Merge every run of adjacent putstrings with equal selectors. -/
def coalesce (l : List Event) : List Event := l.foldr cstep []

theorem cstep_ps_assoc (sel : Option FieldDef) (p q : List Nat)
    (w : List Event) :
    cstep (.putstring sel p) (cstep (.putstring sel q) w) =
      cstep (.putstring sel (p ++ q)) w := by
  cases w with
  | nil => simp [cstep]
  | cons b w2 =>
    cases b with
    | putstring sel2 r =>
      by_cases h : sel = sel2
      · subst h
        simp [cstep, List.append_assoc]
      · simp [cstep, h]
    | startmsg => simp [cstep]
    | endmsg => simp [cstep]
    | startsubmsg f => simp [cstep]
    | endsubmsg f => simp [cstep]
    | startseq f => simp [cstep]
    | endseq f => simp [cstep]
    | startstr f n => simp [cstep]
    | endstr f => simp [cstep]
    | putbool f v => simp [cstep]
    | putint32 f v => simp [cstep]
    | putint64 f v => simp [cstep]
    | putuint32 f v => simp [cstep]
    | putuint64 f v => simp [cstep]
    | putdouble f t => simp [cstep]
    | putfloat f t => simp [cstep]

theorem cstep_foldr (e : Event) :
    ∀ (A z : List Event),
      cstep e (A.foldr cstep z) = (cstep e A).foldr cstep z := by
  intro A z
  cases A with
  | nil => cases e <;> rfl
  | cons a A2 =>
    show cstep e (cstep a (A2.foldr cstep z)) =
      (cstep e (a :: A2)).foldr cstep z
    cases e with
    | putstring sel p =>
      cases a with
      | putstring sel2 q =>
        by_cases h : sel = sel2
        · subst h
          rw [show cstep (.putstring sel p) (.putstring sel q :: A2) =
            .putstring sel (p ++ q) :: A2 by simp [cstep]]
          show cstep (.putstring sel p)
              (cstep (.putstring sel q) (A2.foldr cstep z)) =
            cstep (.putstring sel (p ++ q)) (A2.foldr cstep z)
          exact cstep_ps_assoc sel p q _
        · rw [show cstep (.putstring sel p) (.putstring sel2 q :: A2) =
            .putstring sel p :: .putstring sel2 q :: A2 by simp [cstep, h]]
          rfl
      | startmsg => rfl
      | endmsg => rfl
      | startsubmsg f => rfl
      | endsubmsg f => rfl
      | startseq f => rfl
      | endseq f => rfl
      | startstr f n => rfl
      | endstr f => rfl
      | putbool f v => rfl
      | putint32 f v => rfl
      | putint64 f v => rfl
      | putuint32 f v => rfl
      | putuint64 f v => rfl
      | putdouble f t => rfl
      | putfloat f t => rfl
    | startmsg => rfl
    | endmsg => rfl
    | startsubmsg f => rfl
    | endsubmsg f => rfl
    | startseq f => rfl
    | endseq f => rfl
    | startstr f n => rfl
    | endstr f => rfl
    | putbool f v => rfl
    | putint32 f v => rfl
    | putint64 f v => rfl
    | putuint32 f v => rfl
    | putuint64 f v => rfl
    | putdouble f t => rfl
    | putfloat f t => rfl

theorem foldr_coalesce :
    ∀ (X z : List Event), X.foldr cstep z = (coalesce X).foldr cstep z := by
  intro X
  induction X with
  | nil => intro z; rfl
  | cons e X2 ih =>
    intro z
    show cstep e (X2.foldr cstep z) = (coalesce (e :: X2)).foldr cstep z
    rw [ih z]
    rw [show coalesce (e :: X2) = cstep e (coalesce X2) from rfl]
    exact cstep_foldr e (coalesce X2) z

theorem coalesce_append (X Y : List Event) :
    coalesce (X ++ Y) = X.foldr cstep (coalesce Y) := by
  unfold coalesce
  rw [List.foldr_append]

/-- Coalescing is a congruence for appending on the right. -/
theorem coalesce_append_congr {X Y : List Event} (Z : List Event)
    (h : coalesce X = coalesce Y) :
    coalesce (X ++ Z) = coalesce (Y ++ Z) := by
  rw [coalesce_append, coalesce_append, foldr_coalesce X, foldr_coalesce Y, h]

/-- Two adjacent putstrings with one selector coalesce like their
concatenation. -/
theorem coalesce_ps_merge (E : List Event) (sel : Option FieldDef)
    (A B : List Nat) :
    coalesce (E ++ [.putstring sel A, .putstring sel B]) =
      coalesce (E ++ [.putstring sel (A ++ B)]) := by
  rw [coalesce_append, coalesce_append]
  have h2 : coalesce [Event.putstring sel A, .putstring sel B] =
      coalesce [.putstring sel (A ++ B)] := by
    show cstep (.putstring sel A) (cstep (.putstring sel B) []) =
      cstep (.putstring sel (A ++ B)) []
    exact cstep_ps_assoc sel A B []
  rw [h2]

/-- Extending the pending putstring of an open capture by one byte
preserves coalesced equality of the event views. -/
theorem coalesce_pending_extend {E1 E2 : List Event}
    {sel : Option FieldDef} {S1 S2 : List Nat} (T : List Nat)
    (h : coalesce (E1 ++ [.putstring sel S1]) =
      coalesce (E2 ++ [.putstring sel S2])) :
    coalesce (E1 ++ [.putstring sel (S1 ++ T)]) =
      coalesce (E2 ++ [.putstring sel (S2 ++ T)]) := by
  have hmerge1 := coalesce_ps_merge E1 sel S1 T
  have hmerge2 := coalesce_ps_merge E2 sel S2 T
  rw [show E1 ++ [Event.putstring sel S1, .putstring sel T] =
    (E1 ++ [.putstring sel S1]) ++ [.putstring sel T] by simp] at hmerge1
  rw [show E2 ++ [Event.putstring sel S2, .putstring sel T] =
    (E2 ++ [.putstring sel S2]) ++ [.putstring sel T] by simp] at hmerge2
  rw [← hmerge1, ← hmerge2]
  exact coalesce_append_congr [Event.putstring sel T] h

end M

/-- The document \x7b"a":"xy"\x7d and its split at the middle of the string
value. -/
def c1Doc : List Nat := [123, 34, 97, 34, 58, 34, 120, 121, 34, 125]
def c1Chunk1 : List Nat := [123, 34, 97, 34, 58, 34, 120]
def c1Chunk2 : List Nat := [121, 34, 125]

/-- C1 counterexample: the same well-formed, schema-matching document
delivered whole vs. split inside the string value produces different raw
event sequences (one putstring of "xy" vs. two putstrings "x" and "y"),
though both runs succeed; the sequences agree after coalescing. -/
theorem c1_counterexample :
    c1Chunk1 ++ c1Chunk2 = c1Doc ∧
    (M.parse strSchema (M.initSt 0) c1Doc).1.errors = [] ∧
    (M.parse strSchema (M.initSt 0) c1Doc).2 = c1Doc.length ∧
    (M.parseChunks strSchema (M.initSt 0) [c1Chunk1, c1Chunk2]).errors
      = [] ∧
    (M.parseChunks strSchema (M.initSt 0) [c1Chunk1, c1Chunk2]).events ≠
      (M.parse strSchema (M.initSt 0) c1Doc).1.events ∧
    M.coalesce
        (M.parseChunks strSchema (M.initSt 0) [c1Chunk1, c1Chunk2]).events =
      M.coalesce (M.parse strSchema (M.initSt 0) c1Doc).1.events := by
  refine ⟨rfl, ?_, ?_, ?_, ?_, ?_⟩ <;> decide


namespace M

/-! ### The chunking simulation relation

s1 runs over the whole document D with the current chunk starting at
offset dlt; s2 runs over the current chunk b2.  The two states agree on
everything except the representation of pending text: s2 may have flushed
a pre-seam part of an open capture into its accumulator (accumulate mode)
or its event list (push-eagerly mode). -/

/-- All components that the seam handling never touches. -/
def CoreEq (s1 s2 : MSt) : Prop :=
  s1.control = s2.control ∧ s1.rstack = s2.rstack ∧ s1.top = s2.top ∧
  s1.below = s2.below ∧ s1.multipart = s2.multipart ∧
  s1.string_selector = s2.string_selector ∧ s1.digit = s2.digit ∧
  s1.errors = s2.errors

/-- Data relation when no capture is open: equal logical accumulator
contents and coalesce-equal events. -/
def CapNoneRel (s1 s2 : MSt) : Prop :=
  s1.capture = none ∧ s2.capture = none ∧
  accContents s1.acc = accContents s2.acc ∧
  coalesce s1.events = coalesce s2.events

/-- Data relation while a capture is open: the pending views agree.  In
accumulate mode the view is contents ++ open slice; in push-eagerly mode
it is the events extended with the pending putstring. -/
def CapOpenRel (D b2 : List Nat) (dlt pos : Nat) (s1 s2 : MSt) : Prop :=
  ∃ c1 c2, s1.capture = some (.idx c1) ∧ s2.capture = some (.idx c2) ∧
    c1 ≤ dlt + pos ∧ c2 ≤ pos ∧ s1.multipart ≠ .inactive ∧
    (s1.multipart = .accumulate →
      accContents s1.acc ++ sliceBetween D c1 (dlt + pos) =
        accContents s2.acc ++ sliceBetween b2 c2 pos ∧
      coalesce s1.events = coalesce s2.events) ∧
    (s1.multipart = .pushEagerly →
      accContents s1.acc = accContents s2.acc ∧
      coalesce (s1.events ++ [.putstring s1.string_selector
          (sliceBetween D c1 (dlt + pos))]) =
        coalesce (s2.events ++ [.putstring s2.string_selector
          (sliceBetween b2 c2 pos)]))

/-- The pending byte count of s1 (used to keep all checked_add calls below
SIZE_MAX). -/
def pendLen (D : List Nat) (dlt pos : Nat) (s1 : MSt) : Nat :=
  (accContents s1.acc).length +
    (match s1.capture, s1.multipart with
     | some (.idx c), .accumulate => (sliceBetween D c (dlt + pos)).length
     | _, _ => 0)

/-- The simulation relation. -/
def Rel (D b2 : List Nat) (dlt pos : Nat) (s1 s2 : MSt) : Prop :=
  CoreEq s1 s2 ∧ AccWF s1.acc ∧ AccWF s2.acc ∧
  pendLen D dlt pos s1 ≤ 3 * (dlt + pos) ∧
  (CapNoneRel s1 s2 ∨ CapOpenRel D b2 dlt pos s1 s2)

/-! ### Accumulator lemmas for the simulation -/

theorem accumulate_clear_wf (st : AccSt) (hwf : AccWF st) :
    AccWF (accumulate_clear st) := by
  obtain ⟨h1, _, _, _, _⟩ := hwf
  refine ⟨h1, fun _ => rfl, ?_, ?_, ?_⟩
  · intro bs h
    exact Option.noConfusion h
  · intro h
    exact Option.noConfusion h
  · show (0 : Nat) ≤ SIZE_MAX
    exact Nat.zero_le _

theorem accContents_clear (st : AccSt) :
    accContents (accumulate_clear st) = [] := rfl

theorem accumulate_append_body_buflen (st : AccSt) (buf : List Nat)
    (hwf : AccWF st)
    (hneedmax : st.accumulated_len + buf.length ≤ SIZE_MAX) :
    (accumulate_append_body st buf buf.length
        (st.accumulated_len + buf.length)).accumulate_buf.length =
      (accumulate_append_body st buf buf.length
        (st.accumulated_len + buf.length)).accumulate_buf_size := by
  have hclen := accContents_length st hwf
  obtain ⟨hw1, hw2, hw3, hw4, hw5⟩ := hwf
  simp only [accumulate_append_body]
  set st1 := if st.accumulated_len + buf.length > st.accumulate_buf_size
             then accumulate_realloc st (st.accumulated_len + buf.length)
             else st with hst1
  have h1size : st1.accumulate_buf_size =
      (if st.accumulated_len + buf.length > st.accumulate_buf_size
       then growSize (st.accumulated_len + buf.length)
              (max st.accumulate_buf_size 128)
       else st.accumulate_buf_size) := by
    rw [hst1]
    split_ifs <;> simp [accumulate_realloc]
  have h1need : st.accumulated_len + buf.length ≤ st1.accumulate_buf_size := by
    rw [h1size]
    split_ifs with hgt
    · exact growSize_ge_need _ hneedmax _ (by omega)
    · omega
  have h1buflen : st1.accumulate_buf.length = st1.accumulate_buf_size := by
    rw [hst1, h1size]
    split_ifs with hgt
    · simp only [accumulate_realloc, List.length_append,
        List.length_replicate]
      have hge := growSize_ge_self (st.accumulated_len + buf.length)
        (max st.accumulate_buf_size 128)
      omega
    · exact hw1
  have h1len : st1.accumulated_len = st.accumulated_len := by
    rw [hst1]; split_ifs <;> rfl
  have h1contents : accContents st1 = accContents st := by
    rw [hst1]
    split_ifs with hgt
    · unfold accContents accumulate_realloc
      simp only []
      cases hacc : st.accumulated with
      | none => rfl
      | some a =>
        cases a with
        | aliased bs => rfl
        | owned =>
          have hle : st.accumulated_len ≤ st.accumulate_buf.length := by
            rw [hw1]; exact hw4 hacc
          rw [List.take_append_of_le_length hle]
    · rfl
  by_cases hown : st1.accumulated = some AccPtr.owned
  · rw [if_pos hown]
    show (writeBytes st1.accumulate_buf st1.accumulated_len
        (buf.take buf.length)).length = st1.accumulate_buf_size
    rw [writeBytes_length _ _ _ (by
      simp only [List.length_take]
      rw [h1buflen, h1len]
      omega)]
    exact h1buflen
  · rw [if_neg hown]
    have hc1len : (accContents st1).length = st1.accumulated_len := by
      rw [h1contents, h1len, hclen]
    show (writeBytes (writeBytes st1.accumulate_buf 0 (accContents st1))
        st1.accumulated_len (buf.take buf.length)).length =
      st1.accumulate_buf_size
    have hinlen : (writeBytes st1.accumulate_buf 0
        (accContents st1)).length = st1.accumulate_buf.length := by
      rw [writeBytes_length _ _ _ (by rw [h1buflen, hc1len, h1len]; omega)]
    rw [writeBytes_length _ _ _ (by
      simp only [List.length_take]
      rw [hinlen, h1buflen, h1len]
      omega)]
    rw [hinlen, h1buflen]

/-- Well-formedness is preserved by a successful append (called, as in the
source, with len = the slice length). -/
theorem accumulate_append_wf (st : AccSt) (bs : List Nat) (ca : Bool)
    (a : AccSt) (hwf : AccWF st)
    (hsz : (accContents st).length + bs.length ≤ SIZE_MAX)
    (h : accumulate_append st bs bs.length ca = .ok a) : AccWF a := by
  have hclen := accContents_length st hwf
  by_cases hcond : st.accumulated.isNone = true ∧ ca = true
  · unfold accumulate_append at h
    rw [if_pos hcond] at h
    cases h
    obtain ⟨h1, h2, h3, h4, h5⟩ := hwf
    refine ⟨h1, ?_, ?_, ?_, ?_⟩
    · intro hn
      exact Bool.noConfusion hn
    · intro bs2 hb
      have hb2 : AccPtr.aliased bs = .aliased bs2 := by injection hb
      injection hb2 with hbs
      show bs.length = bs2.length
      rw [hbs]
    · intro hb
      have hb2 : AccPtr.aliased bs = .owned := by injection hb
      exact AccPtr.noConfusion hb2
    · show bs.length ≤ SIZE_MAX
      omega
  · unfold accumulate_append checked_add at h
    rw [if_neg hcond] at h
    by_cases hov : SIZE_MAX - st.accumulated_len < bs.length
    · rw [if_pos hov] at h
      exact Except.noConfusion h
    · rw [if_neg hov] at h
      cases h
      have hmax : st.accumulated_len + bs.length ≤ SIZE_MAX := by
        have := hwf.2.2.2.2
        unfold SIZE_MAX at *
        omega
      obtain ⟨hc, ho, hl, hs, hle⟩ := accumulate_append_body_spec st bs hwf
        hmax
      have hbl := accumulate_append_body_buflen st bs hwf hmax
      refine ⟨hbl, ?_, ?_, ?_, ?_⟩
      · intro hn
        rw [ho] at hn
        simp at hn
      · intro bs2 hb
        rw [ho] at hb
        simp at hb
      · intro _
        rw [hl]
        exact hle
      · rw [hl]
        omega

/-- A successful append concatenates the logical contents. -/
theorem accumulate_append_ok_contents (st : AccSt) (bs : List Nat)
    (ca : Bool) (a : AccSt) (hwf : AccWF st)
    (h : accumulate_append st bs bs.length ca = .ok a) :
    accContents a = accContents st ++ bs := by
  by_cases hcond : st.accumulated.isNone = true ∧ ca = true
  · unfold accumulate_append at h
    rw [if_pos hcond] at h
    cases h
    have hn : st.accumulated.isNone = true := hcond.1
    have hc : accContents st = [] := by
      unfold accContents
      cases hacc : st.accumulated with
      | none => rfl
      | some x => rw [hacc] at hn; simp at hn
    rw [hc]
    show bs.take bs.length = [] ++ bs
    simp
  · unfold accumulate_append checked_add at h
    rw [if_neg hcond] at h
    by_cases hov : SIZE_MAX - st.accumulated_len < bs.length
    · rw [if_pos hov] at h
      exact Except.noConfusion h
    · rw [if_neg hov] at h
      cases h
      have hmax : st.accumulated_len + bs.length ≤ SIZE_MAX := by
        have := hwf.2.2.2.2
        unfold SIZE_MAX at *
        omega
      exact (accumulate_append_body_spec st bs hwf hmax).1

/-- Success of an append is determined by the logical contents (given the
pending total stays within size_t). -/
theorem accumulate_append_ok_iff (st : AccSt) (bs : List Nat) (ca : Bool)
    (hwf : AccWF st)
    (hsz : (accContents st).length + bs.length ≤ SIZE_MAX) :
    ∃ a, accumulate_append st bs bs.length ca = .ok a := by
  have hclen := accContents_length st hwf
  unfold accumulate_append
  split
  · exact ⟨_, rfl⟩
  · have hno : ¬ (SIZE_MAX - st.accumulated_len < bs.length) := by omega
    unfold checked_add
    rw [if_neg hno]
    exact ⟨_, rfl⟩

end M


namespace M

/-! ### Slice lemmas -/

theorem sliceBetween_self (buf : List Nat) (c : Nat) :
    sliceBetween buf c c = [] := by
  unfold sliceBetween
  simp

theorem sliceBetween_extend (buf : List Nat) (c pos x : Nat)
    (hc : c ≤ pos) (hx : buf[pos]? = some x) :
    sliceBetween buf c (pos + 1) = sliceBetween buf c pos ++ [x] := by
  unfold sliceBetween
  have h1 : pos + 1 - c = (pos - c) + 1 := by omega
  rw [h1, List.take_succ]
  have h2 : (buf.drop c)[pos - c]? = buf[pos]? := by
    rw [List.getElem?_drop]
    congr 1
    omega
  rw [h2, hx]
  rfl

theorem sliceBetween_length_le (buf : List Nat) (c pos : Nat) :
    (sliceBetween buf c pos).length ≤ pos - c := by
  unfold sliceBetween
  simp

/-! ### The no-capture congruence relation and its preservation through
the semantic callbacks -/

/-- Two states (one running over the whole document, one over a chunk)
that agree on everything observable, with no capture open: the callbacks
map such pairs to such pairs. -/
def NCRel (s1 s2 : MSt) : Prop :=
  CoreEq s1 s2 ∧ AccWF s1.acc ∧ AccWF s2.acc ∧
  s1.capture = none ∧ s2.capture = none ∧
  accContents s1.acc = accContents s2.acc ∧
  coalesce s1.events = coalesce s2.events

theorem NCRel_emit (e : Event) {s1 s2 : MSt} (h : NCRel s1 s2) :
    NCRel (emit e s1) (emit e s2) := by
  obtain ⟨⟨h1, h2, h3, h4, h5, h6, h7, h8⟩, hw1, hw2, hc1, hc2, ha, he⟩ := h
  exact ⟨⟨h1, h2, h3, h4, h5, h6, h7, h8⟩, hw1, hw2, hc1, hc2, ha,
    coalesce_append_congr [e] he⟩

theorem NCRel_pErr (e : PErr) {s1 s2 : MSt} (h : NCRel s1 s2) :
    NCRel (pErr e s1) (pErr e s2) := by
  obtain ⟨⟨h1, h2, h3, h4, h5, h6, h7, h8⟩, hw1, hw2, hc1, hc2, ha, he⟩ := h
  exact ⟨⟨h1, h2, h3, h4, h5, h6, h7, by show _ ++ _ = _ ++ _; rw [h8]⟩,
    hw1, hw2, hc1, hc2, ha, he⟩

theorem NCRel_pushFrame (fr : Frame) {s1 s2 : MSt} (h : NCRel s1 s2) :
    NCRel (pushFrame fr s1) (pushFrame fr s2) := by
  obtain ⟨⟨h1, h2, h3, h4, h5, h6, h7, h8⟩, hw1, hw2, hc1, hc2, ha, he⟩ := h
  exact ⟨⟨h1, h2, rfl, by show _ :: _ = _ :: _; rw [h3, h4], h5, h6, h7, h8⟩,
    hw1, hw2, hc1, hc2, ha, he⟩

theorem NCRel_popFrame {s1 s2 : MSt} (h : NCRel s1 s2) :
    NCRel (popFrame s1) (popFrame s2) := by
  obtain ⟨⟨h1, h2, h3, h4, h5, h6, h7, h8⟩, hw1, hw2, hc1, hc2, ha, he⟩ := h
  unfold popFrame
  rw [← h4]
  cases hbl : s1.below with
  | nil => exact ⟨⟨h1, h2, h3, h4, h5, h6, h7, h8⟩, hw1, hw2, hc1, hc2, ha, he⟩
  | cons b rest =>
    exact ⟨⟨h1, h2, rfl, rfl, h5, h6, h7, h8⟩, hw1, hw2, hc1, hc2, ha, he⟩

theorem NCRel_setTopF (f : Option FieldDef) {s1 s2 : MSt} (h : NCRel s1 s2) :
    NCRel (setTopF f s1) (setTopF f s2) := by
  obtain ⟨⟨h1, h2, h3, h4, h5, h6, h7, h8⟩, hw1, hw2, hc1, hc2, ha, he⟩ := h
  refine ⟨⟨h1, h2, ?_, h4, h5, h6, h7, h8⟩, hw1, hw2, hc1, hc2, ha, he⟩
  show ({ s1.top with f := f } : Frame) = ({ s2.top with f := f } : Frame)
  rw [h3]

theorem NCRel_multipart_end {s1 s2 : MSt} (h : NCRel s1 s2) :
    NCRel (multipart_end s1) (multipart_end s2) := by
  obtain ⟨⟨h1, h2, h3, h4, h5, h6, h7, h8⟩, hw1, hw2, hc1, hc2, ha, he⟩ := h
  exact ⟨⟨h1, h2, h3, h4, rfl, h6, h7, h8⟩,
    accumulate_clear_wf _ hw1, accumulate_clear_wf _ hw2, hc1, hc2, rfl, he⟩

theorem NCRel_startaccum {s1 s2 : MSt} (h : NCRel s1 s2) :
    NCRel (multipart_startaccum s1) (multipart_startaccum s2) := by
  obtain ⟨⟨h1, h2, h3, h4, h5, h6, h7, h8⟩, hw1, hw2, hc1, hc2, ha, he⟩ := h
  exact ⟨⟨h1, h2, h3, h4, rfl, h6, h7, h8⟩, hw1, hw2, hc1, hc2, ha, he⟩

theorem NCRel_multipart_start (sel : Option FieldDef) {s1 s2 : MSt}
    (h : NCRel s1 s2) :
    NCRel (multipart_start s1 sel) (multipart_start s2 sel) := by
  obtain ⟨⟨h1, h2, h3, h4, h5, h6, h7, h8⟩, hw1, hw2, hc1, hc2, ha, he⟩ := h
  exact ⟨⟨h1, h2, h3, h4, rfl, rfl, h7, h8⟩, hw1, hw2, hc1, hc2, ha, he⟩

theorem NCRel_ctrl (X : CState) {s1 s2 : MSt} (h : NCRel s1 s2) :
    NCRel { s1 with control := X } { s2 with control := X } := by
  obtain ⟨⟨h1, h2, h3, h4, h5, h6, h7, h8⟩, hw1, hw2, hc1, hc2, ha, he⟩ := h
  exact ⟨⟨rfl, h2, h3, h4, h5, h6, h7, h8⟩, hw1, hw2, hc1, hc2, ha, he⟩

theorem NCRel_rstack (rs : List CState) {s1 s2 : MSt} (h : NCRel s1 s2) :
    NCRel { s1 with rstack := rs } { s2 with rstack := rs } := by
  obtain ⟨⟨h1, h2, h3, h4, h5, h6, h7, h8⟩, hw1, hw2, hc1, hc2, ha, he⟩ := h
  exact ⟨⟨h1, rfl, h3, h4, h5, h6, h7, h8⟩, hw1, hw2, hc1, hc2, ha, he⟩

theorem check_stack_congr {s1 s2 : MSt} (h : NCRel s1 s2) :
    (check_stack s1).1 = (check_stack s2).1 ∧
    NCRel (check_stack s1).2 (check_stack s2).2 := by
  have hbl := h.1.2.2.2.1
  unfold check_stack
  rw [← hbl]
  split_ifs with hc
  · exact ⟨rfl, NCRel_pErr _ h⟩
  · exact ⟨rfl, h⟩

/-- Congruence of multipart_text over NCRel, with same bytes and alias
flag: same boolean, NCRel preserved, and the contents evolve the same
way on both sides. -/
theorem mt_congr {s1 s2 : MSt} (bs : List Nat) (ca : Bool)
    (h : NCRel s1 s2)
    (hsz : (accContents s1.acc).length + bs.length ≤ SIZE_MAX) :
    (multipart_text s1 bs ca).1 = (multipart_text s2 bs ca).1 ∧
    NCRel (multipart_text s1 bs ca).2 (multipart_text s2 bs ca).2 ∧
    accContents (multipart_text s1 bs ca).2.acc =
      (if s1.multipart = .accumulate then accContents s1.acc ++ bs
       else accContents s1.acc) := by
  obtain ⟨⟨h1, h2, h3, h4, h5, h6, h7, h8⟩, hw1, hw2, hc1, hc2, ha, he⟩ := h
  unfold multipart_text
  rw [← h5]
  cases hmp : s1.multipart with
  | inactive =>
      refine ⟨rfl, NCRel_pErr _ ⟨⟨h1, h2, h3, h4, h5, h6, h7, h8⟩,
        hw1, hw2, hc1, hc2, ha, he⟩, ?_⟩
      rw [if_neg (by decide)]
      rfl
  | pushEagerly =>
      refine ⟨rfl, ?_, ?_⟩
      · rw [← h6]
        exact NCRel_emit _ ⟨⟨h1, h2, h3, h4, h5, h6, h7, h8⟩,
          hw1, hw2, hc1, hc2, ha, he⟩
      · rw [if_neg (by decide)]
        rfl
  | accumulate =>
      obtain ⟨a1, ha1⟩ := accumulate_append_ok_iff s1.acc bs ca hw1 hsz
      obtain ⟨a2, ha2⟩ := accumulate_append_ok_iff s2.acc bs ca hw2
        (by rw [← ha]; exact hsz)
      rw [ha1, ha2]
      have hcon1 := accumulate_append_ok_contents s1.acc bs ca a1 hw1 ha1
      have hcon2 := accumulate_append_ok_contents s2.acc bs ca a2 hw2 ha2
      refine ⟨rfl, ⟨⟨h1, h2, h3, h4, rfl, h6, h7, h8⟩,
        accumulate_append_wf s1.acc bs ca a1 hw1 hsz ha1,
        accumulate_append_wf s2.acc bs ca a2 hw2 (by rw [← ha]; exact hsz)
          ha2,
        hc1, hc2, ?_, he⟩, ?_⟩
      · show accContents a1 = accContents a2
        rw [hcon1, hcon2, ha]
      · rw [if_pos rfl]
        exact hcon1

end M


namespace M

theorem utf8bytes_length_le (cp : Nat) : (utf8bytes cp).length ≤ 3 := by
  unfold utf8bytes
  split_ifs <;> simp

theorem parser_putbool_congr {s1 s2 : MSt} (v : Bool) (h : NCRel s1 s2) :
    (parser_putbool s1 v).1 = (parser_putbool s2 v).1 ∧
    NCRel (parser_putbool s1 v).2 (parser_putbool s2 v).2 ∧
    (accContents (parser_putbool s1 v).2.acc).length ≤
      (accContents s1.acc).length + 3 := by
  have h3 := h.1.2.2.1
  cases hf : s1.top.f with
  | none =>
    have e1 : parser_putbool s1 v = (false, pErr .boolForNonBool s1) := by
      unfold parser_putbool
      rw [hf]
    have e2 : parser_putbool s2 v = (false, pErr .boolForNonBool s2) := by
      unfold parser_putbool
      rw [← h3, hf]
    rw [e1, e2]
    exact ⟨rfl, NCRel_pErr _ h, Nat.le_add_right _ 3⟩
  | some f =>
    have e1 : parser_putbool s1 v =
        (if f.type = .boolean then (true, emit (.putbool (some f) v) s1)
         else (false, pErr .boolForNonBool s1)) := by
      unfold parser_putbool
      rw [hf]
    have e2 : parser_putbool s2 v =
        (if f.type = .boolean then (true, emit (.putbool (some f) v) s2)
         else (false, pErr .boolForNonBool s2)) := by
      unfold parser_putbool
      rw [← h3, hf]
    rw [e1, e2]
    split_ifs with ht
    · exact ⟨rfl, NCRel_emit _ h, Nat.le_add_right _ 3⟩
    · exact ⟨rfl, NCRel_pErr _ h, Nat.le_add_right _ 3⟩

theorem escape_congr {s1 s2 : MSt} (c : Nat) (h : NCRel s1 s2)
    (hsz : (accContents s1.acc).length + 3 ≤ SIZE_MAX) :
    (escape s1 c).1 = (escape s2 c).1 ∧
    NCRel (escape s1 c).2 (escape s2 c).2 ∧
    (accContents (escape s1 c).2.acc).length ≤
      (accContents s1.acc).length + 3 := by
  obtain ⟨hb, hR, hcon⟩ := mt_congr [escape_char c] false h
    (by simp; omega)
  unfold escape
  refine ⟨hb, hR, ?_⟩
  rw [hcon]
  split_ifs <;> simp

theorem end_hex_congr {s1 s2 : MSt} (h : NCRel s1 s2)
    (hsz : (accContents s1.acc).length + 3 ≤ SIZE_MAX) :
    (end_hex s1).1 = (end_hex s2).1 ∧
    NCRel (end_hex s1).2 (end_hex s2).2 ∧
    (accContents (end_hex s1).2.acc).length ≤
      (accContents s1.acc).length + 3 := by
  have h7 := h.1.2.2.2.2.2.2.1
  have hul := utf8bytes_length_le s1.digit
  obtain ⟨hb, hR, hcon⟩ := mt_congr (utf8bytes s1.digit) false h (by omega)
  unfold end_hex
  rw [← h7]
  refine ⟨hb, hR, ?_⟩
  rw [hcon]
  split_ifs <;> simp <;> omega

theorem start_stringval_congr {s1 s2 : MSt} (h : NCRel s1 s2) :
    (start_stringval s1).1 = (start_stringval s2).1 ∧
    NCRel (start_stringval s1).2 (start_stringval s2).2 ∧
    (accContents (start_stringval s1).2.acc).length ≤
      (accContents s1.acc).length + 3 := by
  have h3 := h.1.2.2.1
  cases hf : s1.top.f with
  | none =>
    have e1 : start_stringval s1 = (false, pErr .internalDecoder s1) := by
      unfold start_stringval
      rw [hf]
    have e2 : start_stringval s2 = (false, pErr .internalDecoder s2) := by
      unfold start_stringval
      rw [← h3, hf]
    rw [e1, e2]
    exact ⟨rfl, NCRel_pErr _ h, Nat.le_add_right _ 3⟩
  | some f =>
    obtain ⟨hcsb, hcsR⟩ := check_stack_congr h
    have hacc1 : (check_stack s1).2.acc = s1.acc := by
      unfold check_stack
      split_ifs <;> rfl
    cases hcs1 : check_stack s1 with
    | mk b1 t1 =>
    cases hcs2 : check_stack s2 with
    | mk b2 t2 =>
    rw [hcs1, hcs2] at hcsb hcsR
    rw [hcs1] at hacc1
    have hb12 : b1 = b2 := hcsb
    cases hb12
    have hcsR2 : NCRel t1 t2 := hcsR
    have hacc2 : t1.acc = s1.acc := hacc1
    cases b1 with
    | false =>
      have e1 : start_stringval s1 =
          (if fieldIsString f then (false, t1)
           else
             match f.type with
             | .enum _ => (true, multipart_startaccum s1)
             | _ => (false, pErr .stringForNonString s1)) := by
        unfold start_stringval
        rw [hf, hcs1]
      have e2 : start_stringval s2 =
          (if fieldIsString f then (false, t2)
           else
             match f.type with
             | .enum _ => (true, multipart_startaccum s2)
             | _ => (false, pErr .stringForNonString s2)) := by
        unfold start_stringval
        rw [← h3, hf, hcs2]
      rw [e1, e2]
      split_ifs with hstr
      · refine ⟨rfl, hcsR2, ?_⟩
        show (accContents t1.acc).length ≤ _
        rw [hacc2]
        exact Nat.le_add_right _ 3
      · cases hty : f.type <;>
          first
            | exact ⟨rfl, NCRel_startaccum h, Nat.le_add_right _ 3⟩
            | exact ⟨rfl, NCRel_pErr _ h, Nat.le_add_right _ 3⟩
    | true =>
      have e1 : start_stringval s1 =
          (if fieldIsString f then
             (if f.type = .string then
                (true, multipart_start (pushFrame
                  { m := (emit (.startstr (some f) 0) t1).top.m, f := some f,
                    is_map := false, is_mapentry := false, mapfield := none }
                  (emit (.startstr (some f) 0) t1)) (some f))
              else
                (true, multipart_startaccum (pushFrame
                  { m := (emit (.startstr (some f) 0) t1).top.m, f := some f,
                    is_map := false, is_mapentry := false, mapfield := none }
                  (emit (.startstr (some f) 0) t1))))
           else
             match f.type with
             | .enum _ => (true, multipart_startaccum s1)
             | _ => (false, pErr .stringForNonString s1)) := by
        unfold start_stringval
        rw [hf, hcs1]
      have e2 : start_stringval s2 =
          (if fieldIsString f then
             (if f.type = .string then
                (true, multipart_start (pushFrame
                  { m := (emit (.startstr (some f) 0) t2).top.m, f := some f,
                    is_map := false, is_mapentry := false, mapfield := none }
                  (emit (.startstr (some f) 0) t2)) (some f))
              else
                (true, multipart_startaccum (pushFrame
                  { m := (emit (.startstr (some f) 0) t2).top.m, f := some f,
                    is_map := false, is_mapentry := false, mapfield := none }
                  (emit (.startstr (some f) 0) t2))))
           else
             match f.type with
             | .enum _ => (true, multipart_startaccum s2)
             | _ => (false, pErr .stringForNonString s2)) := by
        unfold start_stringval
        rw [← h3, hf, hcs2]
      have hR2 := NCRel_pushFrame
        { m := (emit (.startstr (some f) 0) t1).top.m, f := some f,
          is_map := false, is_mapentry := false, mapfield := none }
        (NCRel_emit (.startstr (some f) 0) hcsR2)
      have htm : (emit (.startstr (some f) 0) t1).top.m =
          (emit (.startstr (some f) 0) t2).top.m := by
        have hx := (NCRel_emit (.startstr (some f) 0) hcsR2).1.2.2.1
        rw [hx]
      rw [e1, e2]
      split_ifs with hstr hty
      · refine ⟨rfl, ?_, ?_⟩
        · have hx := NCRel_multipart_start (some f) hR2
          nth_rewrite 2 [htm] at hx
          exact hx
        · show (accContents t1.acc).length ≤ _
          rw [hacc2]
          exact Nat.le_add_right _ 3
      · refine ⟨rfl, ?_, ?_⟩
        · have hx := NCRel_startaccum hR2
          nth_rewrite 2 [htm] at hx
          exact hx
        · show (accContents t1.acc).length ≤ _
          rw [hacc2]
          exact Nat.le_add_right _ 3
      · cases hty2 : f.type <;>
          first
            | exact ⟨rfl, NCRel_startaccum h, Nat.le_add_right _ 3⟩
            | exact ⟨rfl, NCRel_pErr _ h, Nat.le_add_right _ 3⟩

theorem accContents_multipart_end (s : MSt) :
    accContents (multipart_end s).acc = [] := rfl

theorem NCRel_foldl_emit (f : Option FieldDef) (os : List (List Nat))
    {s1 s2 : MSt} (h : NCRel s1 s2) :
    NCRel (os.foldl (fun a o => emit (.putstring f o) a) s1)
      (os.foldl (fun a o => emit (.putstring f o) a) s2) := by
  induction os generalizing s1 s2 with
  | nil => exact h
  | cons o rest ih => exact ih (NCRel_emit _ h)

theorem foldl_emit_acc (f : Option FieldDef) (os : List (List Nat))
    (s : MSt) :
    (os.foldl (fun a o => emit (.putstring f o) a) s).acc = s.acc := by
  induction os generalizing s with
  | nil => rfl
  | cons o rest ih => exact ih _

theorem end_stringval_congr (sc : Schema) {s1 s2 : MSt} (h : NCRel s1 s2) :
    (end_stringval sc s1).1 = (end_stringval sc s2).1 ∧
    NCRel (end_stringval sc s1).2 (end_stringval sc s2).2 ∧
    (accContents (end_stringval sc s1).2.acc).length ≤
      (accContents s1.acc).length + 3 := by
  have h3 := h.1.2.2.1
  have ha := h.2.2.2.2.2.1
  cases hf : s1.top.f with
  | none =>
    have e1 : end_stringval sc s1 = (false, pErr .internalDecoder s1) := by
      unfold end_stringval
      rw [hf]
    have e2 : end_stringval sc s2 = (false, pErr .internalDecoder s2) := by
      unfold end_stringval
      rw [← h3, hf]
    rw [e1, e2]
    exact ⟨rfl, NCRel_pErr _ h, Nat.le_add_right _ 3⟩
  | some f =>
    cases hty : f.type with
    | bytes =>
      have e1 : end_stringval sc s1 =
          (match (base64_push_groups (accContents s1.acc)).2 with
           | some e => (false, pErr e
               ((base64_push_groups (accContents s1.acc)).1.foldl
                 (fun a o => emit (.putstring (some f) o) a) s1))
           | none => (true, multipart_end (emit (.endstr (some f))
               (popFrame ((base64_push_groups (accContents s1.acc)).1.foldl
                 (fun a o => emit (.putstring (some f) o) a) s1))))) := by
        unfold end_stringval
        rw [hf]
        simp only []
        rw [hty]
      have e2 : end_stringval sc s2 =
          (match (base64_push_groups (accContents s1.acc)).2 with
           | some e => (false, pErr e
               ((base64_push_groups (accContents s1.acc)).1.foldl
                 (fun a o => emit (.putstring (some f) o) a) s2))
           | none => (true, multipart_end (emit (.endstr (some f))
               (popFrame ((base64_push_groups (accContents s1.acc)).1.foldl
                 (fun a o => emit (.putstring (some f) o) a) s2))))) := by
        unfold end_stringval
        rw [← h3, hf]
        simp only []
        rw [hty, ← ha]
      rw [e1, e2]
      have hfR := NCRel_foldl_emit (some f)
        (base64_push_groups (accContents s1.acc)).1 h
      have hfa := foldl_emit_acc (some f)
        (base64_push_groups (accContents s1.acc)).1 s1
      cases hb64 : (base64_push_groups (accContents s1.acc)).2 with
      | some e =>
        refine ⟨rfl, NCRel_pErr _ hfR, ?_⟩
        show (accContents ((base64_push_groups (accContents s1.acc)).1.foldl
          (fun a o => emit (.putstring (some f) o) a) s1).acc).length ≤ _
        rw [hfa]
        exact Nat.le_add_right _ 3
      | none =>
        refine ⟨rfl,
          NCRel_multipart_end (NCRel_emit _ (NCRel_popFrame hfR)), ?_⟩
        rw [accContents_multipart_end]
        simp
    | string =>
      have e1 : end_stringval sc s1 =
          (true, multipart_end (emit (.endstr (some f)) (popFrame s1))) := by
        unfold end_stringval
        rw [hf]
        simp only []
        rw [hty]
      have e2 : end_stringval sc s2 =
          (true, multipart_end (emit (.endstr (some f)) (popFrame s2))) := by
        unfold end_stringval
        rw [← h3, hf]
        simp only []
        rw [hty]
      rw [e1, e2]
      refine ⟨rfl,
        NCRel_multipart_end (NCRel_emit _ (NCRel_popFrame h)), ?_⟩
      rw [accContents_multipart_end]
      simp
    | enum en =>
      have e1 : end_stringval sc s1 =
          (match enumNtoi sc en (accContents s1.acc) with
           | some v => (true, multipart_end (emit (.putint32 (some f) v) s1))
           | none => (false, multipart_end (pErr .enumUnknown s1))) := by
        unfold end_stringval
        rw [hf]
        simp only []
        rw [hty]
      have e2 : end_stringval sc s2 =
          (match enumNtoi sc en (accContents s1.acc) with
           | some v => (true, multipart_end (emit (.putint32 (some f) v) s2))
           | none => (false, multipart_end (pErr .enumUnknown s2))) := by
        unfold end_stringval
        rw [← h3, hf]
        simp only []
        rw [hty, ← ha]
      rw [e1, e2]
      cases hnt : enumNtoi sc en (accContents s1.acc) with
      | some v =>
        refine ⟨rfl, NCRel_multipart_end (NCRel_emit _ h), ?_⟩
        rw [accContents_multipart_end]
        simp
      | none =>
        refine ⟨rfl, NCRel_multipart_end (NCRel_pErr _ h), ?_⟩
        rw [accContents_multipart_end]
        simp
    | int32 =>
      have e1 : end_stringval sc s1 =
          (false, multipart_end (pErr .internalDecoder s1)) := by
        unfold end_stringval
        rw [hf]
        simp only []
        rw [hty]
      have e2 : end_stringval sc s2 =
          (false, multipart_end (pErr .internalDecoder s2)) := by
        unfold end_stringval
        rw [← h3, hf]
        simp only []
        rw [hty]
      rw [e1, e2]
      refine ⟨rfl, NCRel_multipart_end (NCRel_pErr _ h), ?_⟩
      rw [accContents_multipart_end]
      simp
    | int64 =>
      have e1 : end_stringval sc s1 =
          (false, multipart_end (pErr .internalDecoder s1)) := by
        unfold end_stringval
        rw [hf]
        simp only []
        rw [hty]
      have e2 : end_stringval sc s2 =
          (false, multipart_end (pErr .internalDecoder s2)) := by
        unfold end_stringval
        rw [← h3, hf]
        simp only []
        rw [hty]
      rw [e1, e2]
      refine ⟨rfl, NCRel_multipart_end (NCRel_pErr _ h), ?_⟩
      rw [accContents_multipart_end]
      simp
    | uint32 =>
      have e1 : end_stringval sc s1 =
          (false, multipart_end (pErr .internalDecoder s1)) := by
        unfold end_stringval
        rw [hf]
        simp only []
        rw [hty]
      have e2 : end_stringval sc s2 =
          (false, multipart_end (pErr .internalDecoder s2)) := by
        unfold end_stringval
        rw [← h3, hf]
        simp only []
        rw [hty]
      rw [e1, e2]
      refine ⟨rfl, NCRel_multipart_end (NCRel_pErr _ h), ?_⟩
      rw [accContents_multipart_end]
      simp
    | uint64 =>
      have e1 : end_stringval sc s1 =
          (false, multipart_end (pErr .internalDecoder s1)) := by
        unfold end_stringval
        rw [hf]
        simp only []
        rw [hty]
      have e2 : end_stringval sc s2 =
          (false, multipart_end (pErr .internalDecoder s2)) := by
        unfold end_stringval
        rw [← h3, hf]
        simp only []
        rw [hty]
      rw [e1, e2]
      refine ⟨rfl, NCRel_multipart_end (NCRel_pErr _ h), ?_⟩
      rw [accContents_multipart_end]
      simp
    | boolean =>
      have e1 : end_stringval sc s1 =
          (false, multipart_end (pErr .internalDecoder s1)) := by
        unfold end_stringval
        rw [hf]
        simp only []
        rw [hty]
      have e2 : end_stringval sc s2 =
          (false, multipart_end (pErr .internalDecoder s2)) := by
        unfold end_stringval
        rw [← h3, hf]
        simp only []
        rw [hty]
      rw [e1, e2]
      refine ⟨rfl, NCRel_multipart_end (NCRel_pErr _ h), ?_⟩
      rw [accContents_multipart_end]
      simp
    | float =>
      have e1 : end_stringval sc s1 =
          (false, multipart_end (pErr .internalDecoder s1)) := by
        unfold end_stringval
        rw [hf]
        simp only []
        rw [hty]
      have e2 : end_stringval sc s2 =
          (false, multipart_end (pErr .internalDecoder s2)) := by
        unfold end_stringval
        rw [← h3, hf]
        simp only []
        rw [hty]
      rw [e1, e2]
      refine ⟨rfl, NCRel_multipart_end (NCRel_pErr _ h), ?_⟩
      rw [accContents_multipart_end]
      simp
    | double =>
      have e1 : end_stringval sc s1 =
          (false, multipart_end (pErr .internalDecoder s1)) := by
        unfold end_stringval
        rw [hf]
        simp only []
        rw [hty]
      have e2 : end_stringval sc s2 =
          (false, multipart_end (pErr .internalDecoder s2)) := by
        unfold end_stringval
        rw [← h3, hf]
        simp only []
        rw [hty]
      rw [e1, e2]
      refine ⟨rfl, NCRel_multipart_end (NCRel_pErr _ h), ?_⟩
      rw [accContents_multipart_end]
      simp
    | msg mm =>
      have e1 : end_stringval sc s1 =
          (false, multipart_end (pErr .internalDecoder s1)) := by
        unfold end_stringval
        rw [hf]
        simp only []
        rw [hty]
      have e2 : end_stringval sc s2 =
          (false, multipart_end (pErr .internalDecoder s2)) := by
        unfold end_stringval
        rw [← h3, hf]
        simp only []
        rw [hty]
      rw [e1, e2]
      refine ⟨rfl, NCRel_multipart_end (NCRel_pErr _ h), ?_⟩
      rw [accContents_multipart_end]
      simp

theorem parse_number_m_congr {s1 s2 : MSt} (h : NCRel s1 s2)
    (hsz : (accContents s1.acc).length + 3 ≤ SIZE_MAX) :
    (parse_number_m s1).1 = (parse_number_m s2).1 ∧
    NCRel (parse_number_m s1).2 (parse_number_m s2).2 ∧
    (accContents (parse_number_m s1).2.acc).length ≤
      (accContents s1.acc).length + 3 := by
  obtain ⟨hb, hR, hcon⟩ := mt_congr [0] false h (by simp; omega)
  unfold parse_number_m
  cases hm1 : multipart_text s1 [0] false with
  | mk b1 t1 =>
  cases hm2 : multipart_text s2 [0] false with
  | mk b2 t2 =>
  rw [hm1] at hb hR hcon
  rw [hm2] at hb hR
  have hb2 : b1 = b2 := hb
  cases hb2
  have hR2 : NCRel t1 t2 := hR
  have hlen : (accContents t1.acc).length ≤ (accContents s1.acc).length + 3 := by
    have hcon2 : accContents t1.acc =
        (if s1.multipart = .accumulate then accContents s1.acc ++ [0]
         else accContents s1.acc) := hcon
    rw [hcon2]
    split_ifs <;> simp
  have htop : t1.top = t2.top := hR2.1.2.2.1
  have hacc : accContents t1.acc = accContents t2.acc := hR2.2.2.2.2.2.1
  cases b1 with
  | false =>
    exact ⟨rfl, hR2, hlen⟩
  | true =>
    simp only []
    rw [← htop, ← hacc]
    cases hconv : parse_number_conv
        (match t1.top.f with | some f => f.type | none => .boolean)
        (accContents t1.acc) with
    | int32 v =>
      refine ⟨rfl, NCRel_multipart_end (NCRel_emit _ hR2), ?_⟩
      rw [accContents_multipart_end]
      simp
    | int64 v =>
      refine ⟨rfl, NCRel_multipart_end (NCRel_emit _ hR2), ?_⟩
      rw [accContents_multipart_end]
      simp
    | uint32 v =>
      refine ⟨rfl, NCRel_multipart_end (NCRel_emit _ hR2), ?_⟩
      rw [accContents_multipart_end]
      simp
    | uint64 v =>
      refine ⟨rfl, NCRel_multipart_end (NCRel_emit _ hR2), ?_⟩
      rw [accContents_multipart_end]
      simp
    | double text =>
      refine ⟨rfl, NCRel_multipart_end (NCRel_emit _ hR2), ?_⟩
      rw [accContents_multipart_end]
      simp
    | float text =>
      refine ⟨rfl, NCRel_multipart_end (NCRel_emit _ hR2), ?_⟩
      rw [accContents_multipart_end]
      simp
    | nothing =>
      refine ⟨rfl, NCRel_multipart_end hR2, ?_⟩
      rw [accContents_multipart_end]
      simp
    | err =>
      refine ⟨rfl, NCRel_multipart_end (NCRel_pErr _ hR2), ?_⟩
      rw [accContents_multipart_end]
      simp

theorem popFrame_acc (s : MSt) : (popFrame s).acc = s.acc := by
  unfold popFrame
  split <;> rfl

theorem NCRel_jam {s1 s2 : MSt} (h : NCRel s1 s2) :
    NCRel (jam s1) (jam s2) := NCRel_ctrl .jammed h

theorem NCRel_fail {s1 s2 : MSt} (h : NCRel s1 s2) :
    NCRel (fail s1) (fail s2) := NCRel_ctrl .failed h

theorem NCRel_topUpdate (u : Frame → Frame) {s1 s2 : MSt}
    (h : NCRel s1 s2) :
    NCRel { s1 with top := u s1.top } { s2 with top := u s2.top } := by
  obtain ⟨⟨h1, h2, h3, h4, h5, h6, h7, h8⟩, hw1, hw2, hc1, hc2, ha, he⟩ := h
  exact ⟨⟨h1, h2, by show u s1.top = u s2.top; rw [h3], h4, h5, h6, h7, h8⟩,
    hw1, hw2, hc1, hc2, ha, he⟩

theorem end_member_congr {s1 s2 : MSt} (h : NCRel s1 s2) :
    NCRel (end_member s1) (end_member s2) ∧
    (end_member s1).acc = s1.acc := by
  have h3 := h.1.2.2.1
  unfold end_member
  simp only []
  rw [← h3]
  split_ifs with hmap
  · refine ⟨NCRel_setTopF none
      (NCRel_emit _ (NCRel_popFrame (NCRel_emit _ h))), ?_⟩
    show (popFrame (emit .endmsg s1)).acc = s1.acc
    rw [popFrame_acc]
    rfl
  · exact ⟨NCRel_setTopF none h, rfl⟩

theorem start_object_congr {s1 s2 : MSt} (h : NCRel s1 s2) :
    NCRel (start_object s1) (start_object s2) ∧
    (start_object s1).acc = s1.acc := by
  have h3 := h.1.2.2.1
  unfold start_object
  rw [← h3]
  split_ifs with hmap
  · exact ⟨h, rfl⟩
  · exact ⟨NCRel_emit _ h, rfl⟩

theorem end_object_congr {s1 s2 : MSt} (h : NCRel s1 s2) :
    NCRel (end_object s1) (end_object s2) ∧
    (end_object s1).acc = s1.acc := by
  have h3 := h.1.2.2.1
  unfold end_object
  rw [← h3]
  split_ifs with hmap
  · exact ⟨h, rfl⟩
  · exact ⟨NCRel_emit _ h, rfl⟩

theorem end_subobject_congr {s1 s2 : MSt} (h : NCRel s1 s2) :
    NCRel (end_subobject s1) (end_subobject s2) ∧
    (end_subobject s1).acc = s1.acc := by
  have h3 := h.1.2.2.1
  have hpt : (popFrame s1).top = (popFrame s2).top :=
    (NCRel_popFrame h).1.2.2.1
  unfold end_subobject
  simp only []
  rw [← h3, ← hpt]
  split_ifs with hmap
  · exact ⟨NCRel_emit _ (NCRel_popFrame h), popFrame_acc s1⟩
  · exact ⟨NCRel_emit _ (NCRel_popFrame h), popFrame_acc s1⟩

theorem end_array_congr {s1 s2 : MSt} (h : NCRel s1 s2) :
    NCRel (end_array s1) (end_array s2) ∧
    (end_array s1).acc = s1.acc := by
  have hpt : (popFrame s1).top = (popFrame s2).top :=
    (NCRel_popFrame h).1.2.2.1
  unfold end_array
  simp only []
  rw [← hpt]
  exact ⟨NCRel_emit _ (NCRel_popFrame h), popFrame_acc s1⟩

theorem memberTail_congr (ctx : Bool) (c : Nat) {s1 s2 : MSt}
    (h : NCRel s1 s2) :
    NCRel (memberTail ctx c s1) (memberTail ctx c s2) ∧
    (memberTail ctx c s1).acc = s1.acc := by
  obtain ⟨hEO, hEOa⟩ := end_object_congr h
  unfold memberTail
  split_ifs with hsp hcm hbr hctx
  · exact ⟨NCRel_ctrl _ h, rfl⟩
  · exact ⟨NCRel_ctrl _ h, rfl⟩
  · exact ⟨NCRel_ctrl _ hEO, hEOa⟩
  · exact ⟨NCRel_ctrl _ hEO, hEOa⟩
  · exact ⟨NCRel_jam h, rfl⟩

theorem arrTail_congr (c : Nat) {s1 s2 : MSt} (h : NCRel s1 s2) :
    NCRel (arrTail c s1) (arrTail c s2) ∧
    (arrTail c s1).acc = s1.acc := by
  obtain ⟨hEA, hEAa⟩ := end_array_congr h
  unfold arrTail
  split_ifs with hsp hcm hbr
  · exact ⟨NCRel_ctrl _ h, rfl⟩
  · exact ⟨NCRel_ctrl _ h, rfl⟩
  · exact ⟨NCRel_ctrl _ hEA, hEAa⟩
  · exact ⟨NCRel_jam h, rfl⟩

theorem valueRet_congr (c : Nat) {s1 s2 : MSt} (h : NCRel s1 s2) :
    NCRel (valueRet c s1) (valueRet c s2) ∧
    (valueRet c s1).acc = s1.acc := by
  have h2 := h.1.2.1
  unfold valueRet
  rw [← h2]
  cases hrs : s1.rstack with
  | nil => exact ⟨NCRel_jam h, rfl⟩
  | cons hd rs =>
    cases hd with
    | memAfterValue ctx =>
      obtain ⟨hEM, hEMa⟩ := end_member_congr (NCRel_rstack rs h)
      obtain ⟨hMT, hMTa⟩ := memberTail_congr ctx c hEM
      refine ⟨hMT, ?_⟩
      rw [hMTa, hEMa]
    | arrAfterElem =>
      obtain ⟨hAT, hATa⟩ := arrTail_congr c (NCRel_rstack rs h)
      exact ⟨hAT, hATa⟩
    | objBody ctx => exact ⟨NCRel_jam h, rfl⟩
    | mainWs0 => exact ⟨NCRel_jam h, rfl⟩
    | mainWs1 => exact ⟨NCRel_jam h, rfl⟩
    | memExpectName ctx => exact ⟨NCRel_jam h, rfl⟩
    | memColon ctx => exact ⟨NCRel_jam h, rfl⟩
    | memValue ctx => exact ⟨NCRel_jam h, rfl⟩
    | memWs2 ctx => exact ⟨NCRel_jam h, rfl⟩
    | memNameClose ctx => exact ⟨NCRel_jam h, rfl⟩
    | strBody b => exact ⟨NCRel_jam h, rfl⟩
    | strEsc => exact ⟨NCRel_jam h, rfl⟩
    | strHex k => exact ⟨NCRel_jam h, rfl⟩
    | strHexEnd => exact ⟨NCRel_jam h, rfl⟩
    | valStrClose => exact ⟨NCRel_jam h, rfl⟩
    | valAfterNum => exact ⟨NCRel_jam h, rfl⟩
    | valAfterVal => exact ⟨NCRel_jam h, rfl⟩
    | valAfterObj => exact ⟨NCRel_jam h, rfl⟩
    | valAfterLit tag => exact ⟨NCRel_jam h, rfl⟩
    | valLit rest tag => exact ⟨NCRel_jam h, rfl⟩
    | numMinus => exact ⟨NCRel_jam h, rfl⟩
    | numZero => exact ⟨NCRel_jam h, rfl⟩
    | numInt => exact ⟨NCRel_jam h, rfl⟩
    | numFrac0 => exact ⟨NCRel_jam h, rfl⟩
    | numFrac => exact ⟨NCRel_jam h, rfl⟩
    | numExp0 => exact ⟨NCRel_jam h, rfl⟩
    | numExpSign => exact ⟨NCRel_jam h, rfl⟩
    | numExp => exact ⟨NCRel_jam h, rfl⟩
    | arrBody => exact ⟨NCRel_jam h, rfl⟩
    | arrElemStart => exact ⟨NCRel_jam h, rfl⟩
    | jammed => exact ⟨NCRel_jam h, rfl⟩
    | failed => exact ⟨NCRel_jam h, rfl⟩

theorem start_subobject_congr (sc : Schema) {s1 s2 : MSt} (h : NCRel s1 s2) :
    (start_subobject sc s1).1 = (start_subobject sc s2).1 ∧
    NCRel (start_subobject sc s1).2 (start_subobject sc s2).2 ∧
    (accContents (start_subobject sc s1).2.acc).length ≤
      (accContents s1.acc).length + 3 := by
  have h3 := h.1.2.2.1
  cases hf : s1.top.f with
  | none =>
    have e1 : start_subobject sc s1 = (false, pErr .internalDecoder s1) := by
      unfold start_subobject
      rw [hf]
    have e2 : start_subobject sc s2 = (false, pErr .internalDecoder s2) := by
      unfold start_subobject
      rw [← h3, hf]
    rw [e1, e2]
    exact ⟨rfl, NCRel_pErr _ h, Nat.le_add_right _ 3⟩
  | some f =>
    obtain ⟨hcsb, hcsR⟩ := check_stack_congr h
    have hacc1 : (check_stack s1).2.acc = s1.acc := by
      unfold check_stack
      split_ifs <;> rfl
    cases hcs1 : check_stack s1 with
    | mk b1 t1 =>
    cases hcs2 : check_stack s2 with
    | mk b2 t2 =>
    rw [hcs1, hcs2] at hcsb hcsR
    rw [hcs1] at hacc1
    have hb12 : b1 = b2 := hcsb
    cases hb12
    have hcsR2 : NCRel t1 t2 := hcsR
    have hacc2 : t1.acc = s1.acc := hacc1
    cases b1 with
    | false =>
      have e1 : start_subobject sc s1 =
          (if fieldIsMap sc f then (false, t1)
           else if fieldIsSubmsg f then (false, t1)
           else (false, pErr .objectForNonMessage s1)) := by
        unfold start_subobject
        rw [hf, hcs1]
      have e2 : start_subobject sc s2 =
          (if fieldIsMap sc f then (false, t2)
           else if fieldIsSubmsg f then (false, t2)
           else (false, pErr .objectForNonMessage s2)) := by
        unfold start_subobject
        rw [← h3, hf, hcs2]
      rw [e1, e2]
      split_ifs with hm hsub
      · exact ⟨rfl, hcsR2, by
          show (accContents t1.acc).length ≤ _
          rw [hacc2]
          exact Nat.le_add_right _ 3⟩
      · exact ⟨rfl, hcsR2, by
          show (accContents t1.acc).length ≤ _
          rw [hacc2]
          exact Nat.le_add_right _ 3⟩
      · exact ⟨rfl, NCRel_pErr _ h, Nat.le_add_right _ 3⟩
    | true =>
      have e1 : start_subobject sc s1 =
          (if fieldIsMap sc f then
             (true, pushFrame
               { m := fieldMsgSubdef f, f := none, is_map := true,
                 is_mapentry := false, mapfield := some f }
               (emit (.startseq (some f)) t1))
           else if fieldIsSubmsg f then
             (true, pushFrame
               { m := fieldMsgSubdef f, f := none, is_map := false,
                 is_mapentry := false, mapfield := none }
               (emit (.startsubmsg (some f)) t1))
           else (false, pErr .objectForNonMessage s1)) := by
        unfold start_subobject
        rw [hf, hcs1]
      have e2 : start_subobject sc s2 =
          (if fieldIsMap sc f then
             (true, pushFrame
               { m := fieldMsgSubdef f, f := none, is_map := true,
                 is_mapentry := false, mapfield := some f }
               (emit (.startseq (some f)) t2))
           else if fieldIsSubmsg f then
             (true, pushFrame
               { m := fieldMsgSubdef f, f := none, is_map := false,
                 is_mapentry := false, mapfield := none }
               (emit (.startsubmsg (some f)) t2))
           else (false, pErr .objectForNonMessage s2)) := by
        unfold start_subobject
        rw [← h3, hf, hcs2]
      rw [e1, e2]
      split_ifs with hm hsub
      · exact ⟨rfl, NCRel_pushFrame _ (NCRel_emit _ hcsR2), by
          show (accContents t1.acc).length ≤ _
          rw [hacc2]
          exact Nat.le_add_right _ 3⟩
      · exact ⟨rfl, NCRel_pushFrame _ (NCRel_emit _ hcsR2), by
          show (accContents t1.acc).length ≤ _
          rw [hacc2]
          exact Nat.le_add_right _ 3⟩
      · exact ⟨rfl, NCRel_pErr _ h, Nat.le_add_right _ 3⟩

theorem start_array_congr {s1 s2 : MSt} (h : NCRel s1 s2) :
    (start_array s1).1 = (start_array s2).1 ∧
    NCRel (start_array s1).2 (start_array s2).2 ∧
    (accContents (start_array s1).2.acc).length ≤
      (accContents s1.acc).length + 3 := by
  have h3 := h.1.2.2.1
  cases hf : s1.top.f with
  | none =>
    have e1 : start_array s1 = (false, pErr .internalDecoder s1) := by
      unfold start_array
      rw [hf]
    have e2 : start_array s2 = (false, pErr .internalDecoder s2) := by
      unfold start_array
      rw [← h3, hf]
    rw [e1, e2]
    exact ⟨rfl, NCRel_pErr _ h, Nat.le_add_right _ 3⟩
  | some f =>
    obtain ⟨hcsb, hcsR⟩ := check_stack_congr h
    have hacc1 : (check_stack s1).2.acc = s1.acc := by
      unfold check_stack
      split_ifs <;> rfl
    cases hcs1 : check_stack s1 with
    | mk b1 t1 =>
    cases hcs2 : check_stack s2 with
    | mk b2 t2 =>
    rw [hcs1, hcs2] at hcsb hcsR
    rw [hcs1] at hacc1
    have hb12 : b1 = b2 := hcsb
    cases hb12
    have hcsR2 : NCRel t1 t2 := hcsR
    have hacc2 : t1.acc = s1.acc := hacc1
    cases b1 with
    | false =>
      have e1 : start_array s1 =
          (if ¬ f.isSeq then (false, pErr .arrayForNonRepeated s1)
           else (false, t1)) := by
        unfold start_array
        rw [hf, hcs1]
      have e2 : start_array s2 =
          (if ¬ f.isSeq then (false, pErr .arrayForNonRepeated s2)
           else (false, t2)) := by
        unfold start_array
        rw [← h3, hf, hcs2]
      rw [e1, e2]
      split_ifs with hseq
      · exact ⟨rfl, hcsR2, by
          show (accContents t1.acc).length ≤ _
          rw [hacc2]
          exact Nat.le_add_right _ 3⟩
      · exact ⟨rfl, NCRel_pErr _ h, Nat.le_add_right _ 3⟩
    | true =>
      have e1 : start_array s1 =
          (if ¬ f.isSeq then (false, pErr .arrayForNonRepeated s1)
           else
             (true, pushFrame
               { m := (emit (.startseq (some f)) t1).top.m, f := some f,
                 is_map := false, is_mapentry := false, mapfield := none }
               (emit (.startseq (some f)) t1))) := by
        unfold start_array
        rw [hf, hcs1]
      have e2 : start_array s2 =
          (if ¬ f.isSeq then (false, pErr .arrayForNonRepeated s2)
           else
             (true, pushFrame
               { m := (emit (.startseq (some f)) t2).top.m, f := some f,
                 is_map := false, is_mapentry := false, mapfield := none }
               (emit (.startseq (some f)) t2))) := by
        unfold start_array
        rw [← h3, hf, hcs2]
      rw [e1, e2]
      split_ifs with hseq
      case neg => exact ⟨rfl, NCRel_pErr _ h, Nat.le_add_right _ 3⟩
      case pos =>
        have htm : (emit (.startseq (some f)) t1).top.m =
            (emit (.startseq (some f)) t2).top.m := by
          have hx := (NCRel_emit (.startseq (some f)) hcsR2).1.2.2.1
          rw [hx]
        refine ⟨rfl, ?_, ?_⟩
        · have hx := NCRel_pushFrame
            { m := (emit (.startseq (some f)) t1).top.m, f := some f,
              is_map := false, is_mapentry := false, mapfield := none }
            (NCRel_emit (.startseq (some f)) hcsR2)
          nth_rewrite 2 [htm] at hx
          exact hx
        · show (accContents t1.acc).length ≤ _
          rw [hacc2]
          exact Nat.le_add_right _ 3

theorem setTopF_top_f (x : Option FieldDef) (s : MSt) :
    (setTopF x s).top.f = x := rfl

theorem parse_mapentry_key_congr (sc : Schema) {s1 s2 : MSt}
    (h : NCRel s1 s2)
    (hsz : (accContents s1.acc).length + 3 ≤ SIZE_MAX) :
    (parse_mapentry_key sc s1).1 = (parse_mapentry_key sc s2).1 ∧
    NCRel (parse_mapentry_key sc s1).2 (parse_mapentry_key sc s2).2 ∧
    (accContents (parse_mapentry_key sc s1).2.acc).length ≤
      (accContents s1.acc).length + 3 := by
  have h3 := h.1.2.2.1
  have ha := h.2.2.2.2.2.1
  have hS : NCRel (setTopF (msgdefItof sc s1.top.m 1) s1)
      (setTopF (msgdefItof sc s1.top.m 1) s2) := NCRel_setTopF _ h
  unfold parse_mapentry_key
  simp only []
  rw [← h3, ← ha, setTopF_top_f, setTopF_top_f]
  cases hkf : msgdefItof sc s1.top.m 1 with
  | none => exact ⟨rfl, NCRel_pErr _ (NCRel_setTopF none h), Nat.le_add_right _ 3⟩
  | some kf =>
    have hS2 : NCRel (setTopF (some kf) s1) (setTopF (some kf) s2) :=
      NCRel_setTopF _ h
    simp only []
    cases hkty : kf.type with
    | int32 =>
      obtain ⟨hb, hR, hl⟩ := parse_number_m_congr hS2 hsz
      exact ⟨hb, hR, hl⟩
    | int64 =>
      obtain ⟨hb, hR, hl⟩ := parse_number_m_congr hS2 hsz
      exact ⟨hb, hR, hl⟩
    | uint32 =>
      obtain ⟨hb, hR, hl⟩ := parse_number_m_congr hS2 hsz
      exact ⟨hb, hR, hl⟩
    | uint64 =>
      obtain ⟨hb, hR, hl⟩ := parse_number_m_congr hS2 hsz
      exact ⟨hb, hR, hl⟩
    | boolean =>
      split_ifs with ht hfl
      · obtain ⟨hpb, hpR, hpl⟩ := parser_putbool_congr true hS2
        cases hp1 : parser_putbool (setTopF (some kf) s1) true with
        | mk b1 u1 =>
        cases hp2 : parser_putbool (setTopF (some kf) s2) true with
        | mk b2 u2 =>
        rw [hp1] at hpb hpR hpl
        rw [hp2] at hpb hpR
        have hb12 : b1 = b2 := hpb
        cases hb12
        have hpR2 : NCRel u1 u2 := hpR
        have hpl2 : (accContents u1.acc).length ≤
            (accContents s1.acc).length + 3 := hpl
        cases b1 with
        | false => exact ⟨rfl, hpR2, hpl2⟩
        | true =>
          refine ⟨rfl, NCRel_multipart_end hpR2, ?_⟩
          rw [accContents_multipart_end]
          simp
      · obtain ⟨hpb, hpR, hpl⟩ := parser_putbool_congr false hS2
        cases hp1 : parser_putbool (setTopF (some kf) s1) false with
        | mk b1 u1 =>
        cases hp2 : parser_putbool (setTopF (some kf) s2) false with
        | mk b2 u2 =>
        rw [hp1] at hpb hpR hpl
        rw [hp2] at hpb hpR
        have hb12 : b1 = b2 := hpb
        cases hb12
        have hpR2 : NCRel u1 u2 := hpR
        have hpl2 : (accContents u1.acc).length ≤
            (accContents s1.acc).length + 3 := hpl
        cases b1 with
        | false => exact ⟨rfl, hpR2, hpl2⟩
        | true =>
          refine ⟨rfl, NCRel_multipart_end hpR2, ?_⟩
          rw [accContents_multipart_end]
          simp
      · exact ⟨rfl, NCRel_pErr _ hS2, Nat.le_add_right _ 3⟩
    | string =>
      refine ⟨rfl, NCRel_multipart_end
        (NCRel_emit _ (NCRel_emit _ (NCRel_emit _ hS2))), ?_⟩
      rw [accContents_multipart_end]
      simp
    | bytes =>
      refine ⟨rfl, NCRel_multipart_end
        (NCRel_emit _ (NCRel_emit _ (NCRel_emit _ hS2))), ?_⟩
      rw [accContents_multipart_end]
      simp
    | float => exact ⟨rfl, NCRel_pErr _ hS2, Nat.le_add_right _ 3⟩
    | double => exact ⟨rfl, NCRel_pErr _ hS2, Nat.le_add_right _ 3⟩
    | enum en => exact ⟨rfl, NCRel_pErr _ hS2, Nat.le_add_right _ 3⟩
    | msg mm => exact ⟨rfl, NCRel_pErr _ hS2, Nat.le_add_right _ 3⟩

theorem handle_mapentry_congr (sc : Schema) {s1 s2 : MSt}
    (h : NCRel s1 s2)
    (hsz : (accContents s1.acc).length + 3 ≤ SIZE_MAX) :
    (handle_mapentry sc s1).1 = (handle_mapentry sc s2).1 ∧
    NCRel (handle_mapentry sc s1).2 (handle_mapentry sc s2).2 ∧
    (accContents (handle_mapentry sc s1).2.acc).length ≤
      (accContents s1.acc).length + 3 := by
  obtain ⟨hcsb, hcsR⟩ := check_stack_congr h
  have hacc1 : (check_stack s1).2.acc = s1.acc := by
    unfold check_stack
    split_ifs <;> rfl
  unfold handle_mapentry
  cases hcs1 : check_stack s1 with
  | mk b1 t1 =>
  cases hcs2 : check_stack s2 with
  | mk b2 t2 =>
  rw [hcs1] at hcsb hcsR hacc1
  rw [hcs2] at hcsb hcsR
  have hb12 : b1 = b2 := hcsb
  cases hb12
  have hcsR2 : NCRel t1 t2 := hcsR
  have hacc2 : t1.acc = s1.acc := hacc1
  cases b1 with
  | false =>
    refine ⟨rfl, hcsR2, ?_⟩
    show (accContents t1.acc).length ≤ _
    rw [hacc2]
    exact Nat.le_add_right _ 3
  | true =>
    simp only []
    have htop : t1.top = t2.top := hcsR2.1.2.2.1
    rw [← htop]
    cases hmf : t1.top.mapfield with
    | none =>
      refine ⟨rfl, NCRel_pErr _ hcsR2, ?_⟩
      show (accContents t1.acc).length ≤ _
      rw [hacc2]
      exact Nat.le_add_right _ 3
    | some mapf =>
      have hS5 : NCRel
          (emit .startmsg (pushFrame
            { m := fieldMsgSubdef mapf, f := none, is_map := false,
              is_mapentry := false, mapfield := some mapf }
            (emit (.startsubmsg (some mapf)) (setTopF (some mapf) t1))))
          (emit .startmsg (pushFrame
            { m := fieldMsgSubdef mapf, f := none, is_map := false,
              is_mapentry := false, mapfield := some mapf }
            (emit (.startsubmsg (some mapf)) (setTopF (some mapf) t2)))) :=
        NCRel_emit _ (NCRel_pushFrame _ (NCRel_emit _ (NCRel_setTopF _ hcsR2)))
      have hsz5 : (accContents (emit .startmsg (pushFrame
          { m := fieldMsgSubdef mapf, f := none, is_map := false,
            is_mapentry := false, mapfield := some mapf }
          (emit (.startsubmsg (some mapf)) (setTopF (some mapf) t1)))).acc).length
          + 3 ≤ SIZE_MAX := by
        show (accContents t1.acc).length + 3 ≤ SIZE_MAX
        rw [hacc2]
        exact hsz
      obtain ⟨hkb, hkR, hkl⟩ := parse_mapentry_key_congr sc hS5 hsz5
      have hlen6 : (accContents (parse_mapentry_key sc (emit .startmsg
          (pushFrame
            { m := fieldMsgSubdef mapf, f := none, is_map := false,
              is_mapentry := false, mapfield := some mapf }
            (emit (.startsubmsg (some mapf))
              (setTopF (some mapf) t1))))).2.acc).length ≤
          (accContents s1.acc).length + 3 := by
        have hxx : (accContents (emit .startmsg (pushFrame
            { m := fieldMsgSubdef mapf, f := none, is_map := false,
              is_mapentry := false, mapfield := some mapf }
            (emit (.startsubmsg (some mapf))
              (setTopF (some mapf) t1)))).acc).length =
            (accContents s1.acc).length := by
          show (accContents t1.acc).length = _
          rw [hacc2]
        omega
      simp only [setTopF_top_f]
      cases hf8 : msgdefItof sc (fieldMsgSubdef mapf) 2 with
      | none =>
        exact ⟨rfl, NCRel_pErr _ (NCRel_topUpdate
          (fun t => { t with is_mapentry := true, mapfield := some mapf })
          (NCRel_setTopF none hkR)), hlen6⟩
      | some vf =>
        exact ⟨rfl, NCRel_topUpdate
          (fun t => { t with is_mapentry := true, mapfield := some mapf })
          (NCRel_setTopF (some vf) hkR), hlen6⟩

theorem end_membername_congr (sc : Schema) {s1 s2 : MSt}
    (h : NCRel s1 s2)
    (hsz : (accContents s1.acc).length + 3 ≤ SIZE_MAX) :
    (end_membername sc s1).1 = (end_membername sc s2).1 ∧
    NCRel (end_membername sc s1).2 (end_membername sc s2).2 ∧
    (accContents (end_membername sc s1).2.acc).length ≤
      (accContents s1.acc).length + 3 := by
  have h3 := h.1.2.2.1
  have ha := h.2.2.2.2.2.1
  unfold end_membername
  rw [← h3, ← ha]
  split_ifs with hm
  · exact handle_mapentry_congr sc h hsz
  · cases hlk : lookupFieldByName sc s1.top.m (accContents s1.acc) with
    | some f =>
      refine ⟨rfl, NCRel_multipart_end (NCRel_setTopF _ h), ?_⟩
      rw [accContents_multipart_end]
      simp
    | none => exact ⟨rfl, NCRel_pErr _ h, Nat.le_add_right _ 3⟩

theorem strFret_congr (sc : Schema) {s1 s2 : MSt} (h : NCRel s1 s2)
    (hsz : (accContents s1.acc).length + 3 ≤ SIZE_MAX) :
    NCRel (strFret sc s1) (strFret sc s2) ∧
    (accContents (strFret sc s1).acc).length ≤
      (accContents s1.acc).length + 3 := by
  have h2 := h.1.2.1
  unfold strFret
  rw [← h2]
  cases hrs : s1.rstack with
  | nil => exact ⟨NCRel_jam h, Nat.le_add_right _ 3⟩
  | cons hd rs =>
    cases hd with
    | memNameClose ctx =>
      simp only []
      obtain ⟨hmb, hmR, hml⟩ := end_membername_congr sc
        (NCRel_rstack rs h) hsz
      cases hm1 : end_membername sc { s1 with rstack := rs } with
      | mk b1 u1 =>
      cases hm2 : end_membername sc { s2 with rstack := rs } with
      | mk b2 u2 =>
      rw [hm1] at hmb hmR hml
      rw [hm2] at hmb hmR
      have hb12 : b1 = b2 := hmb
      cases hb12
      have hmR2 : NCRel u1 u2 := hmR
      have hml2 : (accContents u1.acc).length ≤
          (accContents s1.acc).length + 3 := hml
      cases b1 with
      | true => exact ⟨NCRel_ctrl _ hmR2, hml2⟩
      | false => exact ⟨NCRel_fail hmR2, hml2⟩
    | valStrClose =>
      simp only []
      obtain ⟨hmb, hmR, hml⟩ := end_stringval_congr sc (NCRel_rstack rs h)
      cases hm1 : end_stringval sc { s1 with rstack := rs } with
      | mk b1 u1 =>
      cases hm2 : end_stringval sc { s2 with rstack := rs } with
      | mk b2 u2 =>
      rw [hm1] at hmb hmR hml
      rw [hm2] at hmb hmR
      have hb12 : b1 = b2 := hmb
      cases hb12
      have hmR2 : NCRel u1 u2 := hmR
      have hml2 : (accContents u1.acc).length ≤
          (accContents s1.acc).length + 3 := hml
      cases b1 with
      | true => exact ⟨NCRel_ctrl _ hmR2, hml2⟩
      | false => exact ⟨NCRel_fail hmR2, hml2⟩
    | objBody ctx => exact ⟨NCRel_jam h, Nat.le_add_right _ 3⟩
    | mainWs0 => exact ⟨NCRel_jam h, Nat.le_add_right _ 3⟩
    | mainWs1 => exact ⟨NCRel_jam h, Nat.le_add_right _ 3⟩
    | memExpectName ctx => exact ⟨NCRel_jam h, Nat.le_add_right _ 3⟩
    | memColon ctx => exact ⟨NCRel_jam h, Nat.le_add_right _ 3⟩
    | memValue ctx => exact ⟨NCRel_jam h, Nat.le_add_right _ 3⟩
    | memWs2 ctx => exact ⟨NCRel_jam h, Nat.le_add_right _ 3⟩
    | memAfterValue ctx => exact ⟨NCRel_jam h, Nat.le_add_right _ 3⟩
    | strBody b => exact ⟨NCRel_jam h, Nat.le_add_right _ 3⟩
    | strEsc => exact ⟨NCRel_jam h, Nat.le_add_right _ 3⟩
    | strHex k => exact ⟨NCRel_jam h, Nat.le_add_right _ 3⟩
    | strHexEnd => exact ⟨NCRel_jam h, Nat.le_add_right _ 3⟩
    | valAfterNum => exact ⟨NCRel_jam h, Nat.le_add_right _ 3⟩
    | valAfterVal => exact ⟨NCRel_jam h, Nat.le_add_right _ 3⟩
    | valAfterObj => exact ⟨NCRel_jam h, Nat.le_add_right _ 3⟩
    | valAfterLit tag => exact ⟨NCRel_jam h, Nat.le_add_right _ 3⟩
    | valLit rest tag => exact ⟨NCRel_jam h, Nat.le_add_right _ 3⟩
    | numMinus => exact ⟨NCRel_jam h, Nat.le_add_right _ 3⟩
    | numZero => exact ⟨NCRel_jam h, Nat.le_add_right _ 3⟩
    | numInt => exact ⟨NCRel_jam h, Nat.le_add_right _ 3⟩
    | numFrac0 => exact ⟨NCRel_jam h, Nat.le_add_right _ 3⟩
    | numFrac => exact ⟨NCRel_jam h, Nat.le_add_right _ 3⟩
    | numExp0 => exact ⟨NCRel_jam h, Nat.le_add_right _ 3⟩
    | numExpSign => exact ⟨NCRel_jam h, Nat.le_add_right _ 3⟩
    | numExp => exact ⟨NCRel_jam h, Nat.le_add_right _ 3⟩
    | arrBody => exact ⟨NCRel_jam h, Nat.le_add_right _ 3⟩
    | arrElemStart => exact ⟨NCRel_jam h, Nat.le_add_right _ 3⟩
    | arrAfterElem => exact ⟨NCRel_jam h, Nat.le_add_right _ 3⟩
    | jammed => exact ⟨NCRel_jam h, Nat.le_add_right _ 3⟩
    | failed => exact ⟨NCRel_jam h, Nat.le_add_right _ 3⟩

end M

end Upb
